import Mathlib

/-!
Verification of the twiggy wasm parser (`src/parser/parser.rs`,
`src/parser/wasm_parse/mod.rs`) against its natural-language specification.

The embedding models the payload stream produced by the external
`wasmparser` crate as an explicit data type (`Payload` / `Module`): the
container walker is a third-party dependency, so a `Module` stands for
whatever decoded payload sequence that walker yields for a byte buffer,
with each payload carrying the number of input bytes it consumed.  The
`twiggy_ir` crate is part of the repository but not under `src/`, so the
graph builder is modelled from the spec (see the doc comments marked
`Modelled from the spec`).  Everything else is translated directly from
the two source files.
-/

set_option maxHeartbeats 1000000

namespace Twiggy

/-- Identity of an IR item: either a section root (keyed by the section's
position in the top-level payload sequence) or an entry (section position
plus an intra-section index).  Mirrors `twiggy_ir::Id` as used through
`Id::section(idx)` and `Id::entry(idx, i)` in `src/parser/wasm_parse/mod.rs`. -/
inductive Id where
  | section (idx : Nat)
  | entry (idx : Nat) (i : Nat)
deriving DecidableEq

/-- Payload-kind tag of an item (`ir::Misc::new()`, `ir::Code::new(name)`,
`ir::Data::new(ty)`, `ir::DebugInfo::new()` in the source). -/
inductive ItemKind where
  | misc
  | code (name : String)
  | data (ty : Option String)
  | debugInfo
deriving DecidableEq

/-- An IR item: identity, display name, byte size and payload kind, built
by `ir::Item::new(id, name, size, kind)`. -/
structure Item where
  id : Id
  name : String
  size : Nat
  kind : ItemKind
deriving DecidableEq

/-- Result of running (part of) the parser.  `err` models an
`anyhow::Error` propagated through `Result`; `fatal` models an uncaught
abort of the process: a `panic!`/`unreachable!` call, a failed `assert!`,
or an out-of-bounds `Vec` index. -/
inductive ParseErr where
  | err (msg : String)
  | fatal (msg : String)
deriving DecidableEq

/-- Modelled from the spec: `twiggy_ir::ItemsBuilder` belongs to this
repository but is not under `src/`.  Per the spec (sections 3 and 4.5) it
accumulates items, the list of root identities, the edges, a running total
of bytes added (used by the synthesizers to compute section residuals) and
the data-range index mapping linear-memory intervals to data-segment
items.  A root is itself an item, so adding a root also grows the running
total. -/
structure ItemsBuilder where
  initial_size : Nat
  items : List Item
  roots : List Id
  edges : List (Id × Id)
  size_added : Nat
  data_ranges : List (Int × Nat × Id)
deriving DecidableEq

/-- Modelled from the spec: `ir::ItemsBuilder::new(size)` starts an empty
builder for an input of the given byte length. -/
def ItemsBuilder.new (size : Nat) : ItemsBuilder :=
  { initial_size := size, items := [], roots := [], edges := [],
    size_added := 0, data_ranges := [] }

/-- Modelled from the spec: `add_item` records an item and adds its size to
the running total. -/
def ItemsBuilder.add_item (b : ItemsBuilder) (it : Item) : ItemsBuilder :=
  { b with items := b.items ++ [it], size_added := b.size_added + it.size }

/-- Modelled from the spec: `add_root` records an item and additionally
marks its identity as a root of the graph. -/
def ItemsBuilder.add_root (b : ItemsBuilder) (it : Item) : ItemsBuilder :=
  let b' := b.add_item it
  { b' with roots := b'.roots ++ [it.id] }

/-- Modelled from the spec: `add_edge` records a directed reference. -/
def ItemsBuilder.add_edge (b : ItemsBuilder) (from_ to_ : Id) : ItemsBuilder :=
  { b with edges := b.edges ++ [(from_, to_)] }

/-- Modelled from the spec: `link_data(offset, len, id)` registers the
half-open linear-memory interval `[offset, offset+len)` as initialized by
the data-segment item `id`. -/
def ItemsBuilder.link_data (b : ItemsBuilder) (off : Int) (len : Nat) (id : Id) :
    ItemsBuilder :=
  { b with data_ranges := b.data_ranges ++ [(off, len, id)] }

/-- Modelled from the spec: `get_data(addr)` answers which data-segment
item owns the linear-memory address `addr`, by interval lookup in the
data-range index. -/
def ItemsBuilder.get_data (b : ItemsBuilder) (addr : Nat) : Option Id :=
  (b.data_ranges.find? fun r =>
    decide (r.1 ≤ (addr : Int)) && decide ((addr : Int) < r.1 + (r.2.1 : Int))).map
    (fun r => r.2.2)

/-- Modelled from the spec: the finalized immutable graph produced by
`ItemsBuilder::finish`. -/
structure Items where
  items : List Item
  roots : List Id
  edges : List (Id × Id)
deriving DecidableEq

/-- Modelled from the spec: finalization extracts the accumulated items,
roots and edges without further validation. -/
def ItemsBuilder.finish (b : ItemsBuilder) : Items :=
  { items := b.items, roots := b.roots, edges := b.edges }

/-- Value types, as far as `ty2str` distinguishes them
(`wasmparser::ValType`; the reference variants `FUNCREF`/`EXTERNREF` plus
the catch-all rendered as a question mark). -/
inductive ValType where
  | i32
  | i64
  | f32
  | f64
  | v128
  | funcref
  | externref
  | otherRef
deriving DecidableEq

/-- Translation of `ty2str` from `src/parser/wasm_parse/mod.rs`. -/
def ty2str : ValType → String
  | .i32 => "i32"
  | .i64 => "i64"
  | .f32 => "f32"
  | .f64 => "f64"
  | .v128 => "v128"
  | .funcref => "funcref"
  | .externref => "externref"
  | .otherRef => "?"

/-- One operator of a code body or of a data segment's offset expression,
restricted to the shapes the parser's instruction scan distinguishes.
`load` stands for all fourteen memory-load operators
(`I32Load` .. `F64Load`), which the source handles identically, and keeps
only the static offset immediate of their `memarg`.  `endOp` is the
explicit `End` operator; every operator the scan does not inspect is
`other`. -/
inductive Op where
  | call (function_index : Nat)
  | callIndirect
  | globalGet (global_index : Nat)
  | globalSet (global_index : Nat)
  | load (offset : Nat)
  | i32Const (value : Int)
  | i64Const (value : Int)
  | endOp
  | other
deriving DecidableEq

/-- A function body: its decoded operator stream. -/
structure Body where
  ops : List Op
deriving DecidableEq

/-- Import kind tag (`wasmparser::TypeRef`). -/
inductive TypeRef where
  | func
  | table
  | memory
  | global
  | tag
deriving DecidableEq

/-- One import entry (`wasmparser::Import`). -/
structure Import where
  module_ : String
  name : String
  ty : TypeRef
deriving DecidableEq

/-- Export kind tag (`wasmparser::ExternalKind`). -/
inductive ExternalKind where
  | func
  | table
  | memory
  | global
  | tag
deriving DecidableEq

/-- One export entry (`wasmparser::Export`). -/
structure Export where
  name : String
  kind : ExternalKind
  index : Nat
deriving DecidableEq

/-- Element segment kind (`wasmparser::ElementKind`); an active segment
carries an optional table index. -/
inductive ElementKind where
  | active (table_index : Option Nat)
  | passive
  | declared
deriving DecidableEq

/-- Element segment items (`wasmparser::ElementItems`): either a list of
raw function indices or expression-style items. -/
inductive ElementItems where
  | functions (idxs : List Nat)
  | expressions
deriving DecidableEq

/-- One element segment. -/
structure Element where
  kind : ElementKind
  items : ElementItems
deriving DecidableEq

/-- Data segment kind (`wasmparser::DataKind`); an active segment carries
its decoded offset expression. -/
inductive DataKind where
  | active (offset_expr : List Op)
  | passive
deriving DecidableEq

/-- One data segment: its kind and the byte length of `d.data`. -/
structure DataSeg where
  kind : DataKind
  data_len : Nat
deriving DecidableEq

/-- One entry of a type section (`wasmparser::RecGroup`): an explicit
recursive group, a function type with its parameter and result types, or
one of the non-function composite types. -/
inductive TypeEntry where
  | recGroup
  | funcType (params : List ValType) (results : List ValType)
  | arrayType
  | structType
  | contType
deriving DecidableEq

/-- One naming of a name-section name map (`wasmparser::Naming`). -/
structure Naming where
  index : Nat
  name : String
deriving DecidableEq

/-- Decidable equality for `Except`, needed because name-map entries are
represented as `Except` values. -/
instance {ε α : Type} [DecidableEq ε] [DecidableEq α] : DecidableEq (Except ε α) := by
  intro a b
  cases a with
  | error e =>
    cases b with
    | error f =>
      exact if h : e = f then Decidable.isTrue (by rw [h])
        else Decidable.isFalse (fun hh => by cases hh; exact h rfl)
    | ok y => exact Decidable.isFalse (fun hh => by cases hh)
  | ok x =>
    cases b with
    | error f => exact Decidable.isFalse (fun hh => by cases hh)
    | ok y =>
      exact if h : x = y then Decidable.isTrue (by rw [h])
        else Decidable.isFalse (fun hh => by cases hh; exact h rfl)

/-- One decoded name subsection (`wasmparser::Name`).  The function- and
data-names subsections carry their name maps; each individual naming of a
map is an `Except` because the map is decoded lazily and an entry may fail
to parse.  All other recognized kinds carry no data the parser uses. -/
inductive NameSub where
  | moduleN
  | functionN (map : List (Except String Naming))
  | localN
  | labelN
  | typeN
  | tableN
  | memoryN
  | globalN
  | elementN
  | dataN (map : List (Except String Naming))
  | fieldN
  | tagN
  | unknownN
deriving DecidableEq

/-- One entry yielded by `NameSectionReader`: the number of bytes it
occupies and either the decoded subsection or a decode error. -/
structure NameEntry where
  size : Nat
  sub : Except String NameSub
deriving DecidableEq

/-- Content of a custom section: either the distinguished name section
(`KnownCustom::Name`) with its subsection entries, or an opaque custom
section with the byte length of its `data()`. -/
inductive CustomContent where
  | nameSec (subs : List NameEntry)
  | other (data_len : Nat)
deriving DecidableEq

/-- One payload yielded by the container walker (`wasmparser::Payload`).
Sections with entries carry, per entry, the decoded entry together with
the byte size `iterate_with_size` computes for it from consecutive
offsets.  Every payload also carries the number of input bytes the walker
consumed producing it (`size` fields); for the code section that count is
split into the `CodeSectionStart` header bytes plus one count per
`CodeSectionEntry` body, because the walker yields those as separate
chunks. -/
inductive Payload where
  | version (size : Nat)
  | typeSection (entries : List (TypeEntry × Nat)) (size : Nat)
  | importSection (entries : List (Import × Nat)) (size : Nat)
  | functionSection (entries : List (Nat × Nat)) (size : Nat)
  | tableSection (entries : List Nat) (size : Nat)
  | memorySection (entries : List Nat) (size : Nat)
  | globalSection (entries : List (ValType × Nat)) (size : Nat)
  | exportSection (entries : List (Export × Nat)) (size : Nat)
  | startSection (func : Nat) (size : Nat)
  | elementSection (entries : List (Element × Nat)) (size : Nat)
  | codeSection (bodies : List (Body × Nat)) (headerSize : Nat)
  | dataSection (entries : List (DataSeg × Nat)) (size : Nat)
  | custom (name : String) (content : CustomContent) (size : Nat)
  | dataCount (size : Nat)
deriving DecidableEq

/-- Number of input bytes the walker consumed producing this payload (for
the code section: the `CodeSectionStart` header plus all
`CodeSectionEntry` bodies). -/
def payloadSize : Payload → Nat
  | .version s => s
  | .typeSection _ s => s
  | .importSection _ s => s
  | .functionSection _ s => s
  | .tableSection _ s => s
  | .memorySection _ s => s
  | .globalSection _ s => s
  | .exportSection _ s => s
  | .startSection _ s => s
  | .elementSection _ s => s
  | .codeSection bodies h => h + (bodies.map (fun b => b.2)).sum
  | .dataSection _ s => s
  | .custom _ _ s => s
  | .dataCount s => s

/-- A module as seen by the parser: the sequence of payloads the container
walker yields for the input buffer, in order.  The byte length of the
input equals the sum of the consumed sizes. -/
structure Module where
  payloads : List Payload
deriving DecidableEq

/-- Byte length of the input buffer a module was decoded from: every byte
is consumed by exactly one payload. -/
def moduleLength (m : Module) : Nat :=
  (m.payloads.map payloadSize).sum

/-- Enumeration of a list starting at `n`, mirroring Rust's
`.enumerate()` (with `n = 0`). -/
def enumFrom {α : Type} : Nat → List α → List (Nat × α)
  | _, [] => []
  | n, a :: as => (n, a) :: enumFrom (n + 1) as

/-- Concatenation of the images of `f`, in order. -/
def listJoinMap {α β : Type} (f : α → List β) : List α → List β
  | [] => []
  | a :: as => f a ++ listJoinMap f as

/-- Comma-separated rendering used when formatting a function type's
parameter and result lists (the source appends a comma-space before every
element but the first). -/
def commaSep : List String → String
  | [] => ""
  | [s] => s
  | s :: rest => s ++ ", " ++ commaSep rest

/-- Translation of `get_code_section_name`. -/
def get_code_section_name : String :=
  "code section headers"

/-- Translation of `get_section_name` from `src/parser/wasm_parse/mod.rs`. -/
def get_section_name : Payload → String
  | .custom nm _ _ => "custom section \x27" ++ nm ++ "\x27 headers"
  | .typeSection _ _ => "type section headers"
  | .importSection _ _ => "import section headers"
  | .functionSection _ _ => "function section headers"
  | .tableSection _ _ => "table section headers"
  | .memorySection _ _ => "memory section headers"
  | .globalSection _ _ => "global section headers"
  | .exportSection _ _ => "export section headers"
  | .startSection _ _ => "start section headers"
  | .elementSection _ _ => "element section headers"
  | .codeSection _ _ => get_code_section_name
  | .dataSection _ _ => "data section headers"
  | .dataCount _ => "data count section headers"
  | .version _ => "wasm magic bytes"

/-- The collected name maps (`struct Names`): debug names for functions
and data segments, keyed by raw index.  The Rust `HashMap` is modelled as
a lookup function; `insert` overwrites. -/
structure Names where
  function_names : Nat → Option String
  data_names : Nat → Option String

/-- The empty name maps (`Names::default()`). -/
def Names.init : Names :=
  { function_names := fun _ => none, data_names := fun _ => none }

/-- HashMap insertion on the lookup-function model: later insertions for
the same key overwrite earlier ones. -/
def mapInsert (m : Nat → Option String) (k : Nat) (v : String) : Nat → Option String :=
  fun j => if j = k then some v else m j

/-- Folding one name map into a lookup function the way
`parse_names_section` does: each naming is `naming?`, so a failed entry
aborts with an error; successful entries are inserted in order. -/
def insertNamings (m : Nat → Option String) :
    List (Except String Naming) → Except ParseErr (Nat → Option String)
  | [] => Except.ok m
  | .error e :: _ => Except.error (ParseErr.err e)
  | .ok naming :: rest => insertNamings (mapInsert m naming.index naming.name) rest

/-- Translation of `parse_names_section`: subsection-level decode failures
are skipped (`filter_map(Result::ok)`), function- and data-name maps are
folded in (with per-naming failures escalating via the question-mark
operator), and every other subsection kind is skipped. -/
def parse_names_section_aux (names : Names) :
    List NameEntry → Except ParseErr Names
  | [] => Except.ok names
  | entry :: rest =>
    match entry.sub with
    | .error _ => parse_names_section_aux names rest
    | .ok (NameSub.functionN map) =>
      match insertNamings names.function_names map with
      | .error e => Except.error e
      | .ok fns => parse_names_section_aux { names with function_names := fns } rest
    | .ok (NameSub.dataN map) =>
      match insertNamings names.data_names map with
      | .error e => Except.error e
      | .ok dns => parse_names_section_aux { names with data_names := dns } rest
    | .ok _ => parse_names_section_aux names rest

/-- Entry point of `parse_names_section` (starting from empty maps). -/
def parse_names_section (subs : List NameEntry) : Except ParseErr Names :=
  parse_names_section_aux Names.init subs

/-- Translation of `count_imported_functions`: the number of imports with
a function type, over every import section kept in `sections`. -/
def count_imported_functions (sections : List (Nat × Payload)) : Nat :=
  sections.foldl
    (fun acc q =>
      match q.2 with
      | .importSection entries _ =>
        acc + entries.countP (fun e => e.1.ty == TypeRef.func)
      | _ => acc)
    0

/-- Display name of a decoded name subsection, from
`NameSectionReader::parse_items`. -/
def nameSubName : NameSub → String
  | .moduleN => "\"module name\" subsection"
  | .functionN _ => "\"function names\" subsection"
  | .localN => "\"local names\" subsection"
  | .unknownN => "\"unknown name\" subsection"
  | .labelN => "\"label names\" subsection"
  | .typeN => "\"type names\" subsection"
  | .tableN => "\"table names\" subsection"
  | .memoryN => "\"memory names\" subsection"
  | .globalN => "\"global names\" subsection"
  | .elementN => "\"element names\" subsection"
  | .dataN _ => "\"data names\" subsection"
  | .fieldN => "\"field names\" subsection"
  | .tagN => "\"tag names\" subsection"

/-- Translation of `NameSectionReader::parse_items`: every entry's byte
size is measured from consecutive reader offsets; entries whose subsection
fails to decode are skipped (the `continue` happens before `i` is
incremented, so only successfully decoded subsections consume an entry
identity); each decoded subsection becomes a root `DebugInfo` item. -/
def nameSectionParseItemsAux (idx : Nat) : Nat → List NameEntry → ItemsBuilder → ItemsBuilder
  | _, [], b => b
  | i, entry :: rest, b =>
    match entry.sub with
    | .error _ => nameSectionParseItemsAux idx i rest b
    | .ok sub =>
      nameSectionParseItemsAux idx (i + 1) rest
        (b.add_root { id := Id.entry idx i, name := nameSubName sub,
                      size := entry.size, kind := ItemKind.debugInfo })

/-- Item synthesis for the name section, starting at entry index 0. -/
def nameSectionParseItems (b : ItemsBuilder) (idx : Nat) (subs : List NameEntry) :
    ItemsBuilder :=
  nameSectionParseItemsAux idx 0 subs b

/-- Display name of a function type entry, exactly as
`TypeSectionReader::parse_items` renders it. -/
def typeName (i : Nat) (params results : List ValType) : String :=
  "type[" ++ toString i ++ "]: (" ++ commaSep (params.map ty2str) ++ ") -> " ++
    (match results with
     | [] => "nil"
     | [r] => ty2str r
     | _ => "(" ++ commaSep (results.map ty2str) ++ ")")

/-- Translation of `TypeSectionReader::parse_items`: explicit recursive
groups are skipped, function types become `Misc` items named by their
rendered signature, and the non-function composite types (array, struct,
continuation) produce no item. -/
def typeSectionParseItemsAux (idx : Nat) : Nat → List (TypeEntry × Nat) → ItemsBuilder → ItemsBuilder
  | _, [], b => b
  | i, (ty, size) :: rest, b =>
    match ty with
    | .recGroup => typeSectionParseItemsAux idx (i + 1) rest b
    | .funcType ps rs =>
      typeSectionParseItemsAux idx (i + 1) rest
        (b.add_item { id := Id.entry idx i, name := typeName i ps rs,
                      size := size, kind := ItemKind.misc })
    | .arrayType => typeSectionParseItemsAux idx (i + 1) rest b
    | .structType => typeSectionParseItemsAux idx (i + 1) rest b
    | .contType => typeSectionParseItemsAux idx (i + 1) rest b

/-- Item synthesis for the type section. -/
def typeSectionParseItems (b : ItemsBuilder) (idx : Nat) (entries : List (TypeEntry × Nat)) :
    ItemsBuilder :=
  typeSectionParseItemsAux idx 0 entries b

/-- Translation of `ImportSectionReader::parse_items`: one `Misc` item per
import, named `import {module}::{name}`. -/
def importSectionParseItemsAux (idx : Nat) : Nat → List (Import × Nat) → ItemsBuilder → ItemsBuilder
  | _, [], b => b
  | i, (imp, size) :: rest, b =>
    importSectionParseItemsAux idx (i + 1) rest
      (b.add_item { id := Id.entry idx i,
                    name := "import " ++ imp.module_ ++ "::" ++ imp.name,
                    size := size, kind := ItemKind.misc })

/-- Item synthesis for the import section. -/
def importSectionParseItems (b : ItemsBuilder) (idx : Nat) (entries : List (Import × Nat)) :
    ItemsBuilder :=
  importSectionParseItemsAux idx 0 entries b

/-- Translation of `TableSectionReader::parse_items`: one item per table,
named `table[i]`, added with `add_root`. -/
def tableSectionParseItemsAux (idx : Nat) : Nat → List Nat → ItemsBuilder → ItemsBuilder
  | _, [], b => b
  | i, size :: rest, b =>
    tableSectionParseItemsAux idx (i + 1) rest
      (b.add_root { id := Id.entry idx i, name := "table[" ++ toString i ++ "]",
                    size := size, kind := ItemKind.misc })

/-- Item synthesis for the table section. -/
def tableSectionParseItems (b : ItemsBuilder) (idx : Nat) (entries : List Nat) :
    ItemsBuilder :=
  tableSectionParseItemsAux idx 0 entries b

/-- Translation of `MemorySectionReader::parse_items`: one item per memory,
named `memory[i]`, added with `add_item` (not `add_root`). -/
def memorySectionParseItemsAux (idx : Nat) : Nat → List Nat → ItemsBuilder → ItemsBuilder
  | _, [], b => b
  | i, size :: rest, b =>
    memorySectionParseItemsAux idx (i + 1) rest
      (b.add_item { id := Id.entry idx i, name := "memory[" ++ toString i ++ "]",
                    size := size, kind := ItemKind.misc })

/-- Item synthesis for the memory section. -/
def memorySectionParseItems (b : ItemsBuilder) (idx : Nat) (entries : List Nat) :
    ItemsBuilder :=
  memorySectionParseItemsAux idx 0 entries b

/-- Translation of `GlobalSectionReader::parse_items`: one `Data` item per
global, named `global[i]`, carrying its rendered content type. -/
def globalSectionParseItemsAux (idx : Nat) : Nat → List (ValType × Nat) → ItemsBuilder → ItemsBuilder
  | _, [], b => b
  | i, (ty, size) :: rest, b =>
    globalSectionParseItemsAux idx (i + 1) rest
      (b.add_item { id := Id.entry idx i, name := "global[" ++ toString i ++ "]",
                    size := size, kind := ItemKind.data (some (ty2str ty)) })

/-- Item synthesis for the global section. -/
def globalSectionParseItems (b : ItemsBuilder) (idx : Nat) (entries : List (ValType × Nat)) :
    ItemsBuilder :=
  globalSectionParseItemsAux idx 0 entries b

/-- Translation of `ExportSectionReader::parse_items`: one root item per
export, named `export "{name}"`. -/
def exportSectionParseItemsAux (idx : Nat) : Nat → List (Export × Nat) → ItemsBuilder → ItemsBuilder
  | _, [], b => b
  | i, (exp, size) :: rest, b =>
    exportSectionParseItemsAux idx (i + 1) rest
      (b.add_root { id := Id.entry idx i, name := "export \"" ++ exp.name ++ "\"",
                    size := size, kind := ItemKind.misc })

/-- Item synthesis for the export section. -/
def exportSectionParseItems (b : ItemsBuilder) (idx : Nat) (entries : List (Export × Nat)) :
    ItemsBuilder :=
  exportSectionParseItemsAux idx 0 entries b

/-- Translation of `ElementSectionReader::parse_items`: one `Misc` item per
element segment, named `elem[i]`. -/
def elementSectionParseItemsAux (idx : Nat) : Nat → List (Element × Nat) → ItemsBuilder → ItemsBuilder
  | _, [], b => b
  | i, (_, size) :: rest, b =>
    elementSectionParseItemsAux idx (i + 1) rest
      (b.add_item { id := Id.entry idx i, name := "elem[" ++ toString i ++ "]",
                    size := size, kind := ItemKind.misc })

/-- Item synthesis for the element section. -/
def elementSectionParseItems (b : ItemsBuilder) (idx : Nat) (entries : List (Element × Nat)) :
    ItemsBuilder :=
  elementSectionParseItemsAux idx 0 entries b

/-- Display name of a data-segment item: the data-names map entry for the
segment position when available, else `data[i]`. -/
def dataItemName (names : Nat → Option String) (i : Nat) : String :=
  match names i with
  | some s => "data segment \"" ++ s ++ "\""
  | none => "data[" ++ toString i ++ "]"

/-- The `Data` item synthesized for the i-th data segment. -/
def dataItem (idx i : Nat) (names : Nat → Option String) (size : Nat) : Item :=
  { id := Id.entry idx i, name := dataItemName names i,
    size := size, kind := ItemKind.data none }

/-- Translation of `DataSectionReader::parse_items`: one `Data` item per
segment, named from the data-names map when available
(`data segment "{name}"`) and `data[i]` otherwise.  For an active segment
the first operator of its offset expression is read (a read failure
aborts); if it is a 32- or 64-bit integer constant, the segment's runtime
offset and byte length are registered through `link_data`. -/
def dataSectionParseItemsAux (idx : Nat) (names : Nat → Option String) :
    Nat → List (DataSeg × Nat) → ItemsBuilder → Except ParseErr ItemsBuilder
  | _, [], b => Except.ok b
  | i, (d, size) :: rest, b =>
    let b := b.add_item (dataItem idx i names size)
    match d.kind with
    | .passive => dataSectionParseItemsAux idx names (i + 1) rest b
    | .active offset_expr =>
      match offset_expr.head? with
      | none => Except.error (ParseErr.err "operators reader cannot read an offset expression")
      | some op =>
        let offset : Option Int := match op with
          | .i32Const v => some v
          | .i64Const v => some v
          | _ => none
        match offset with
        | some off =>
          dataSectionParseItemsAux idx names (i + 1) rest
            (b.link_data off d.data_len (Id.entry idx i))
        | none => dataSectionParseItemsAux idx names (i + 1) rest b

/-- Item synthesis for the data section. -/
def dataSectionParseItems (b : ItemsBuilder) (idx : Nat) (names : Nat → Option String)
    (entries : List (DataSeg × Nat)) : Except ParseErr ItemsBuilder :=
  dataSectionParseItemsAux idx names 0 entries b

/-- The `func_items` vector of
`<(FunctionSection, CodeSection) as Parse>::parse_items`: one `func[i]`
item per function declaration, identified in the function section. -/
def funcItemsList (funcSectionIndex : Nat) (entries : List (Nat × Nat)) : List Item :=
  (enumFrom 0 entries).map fun p =>
    { id := Id.entry funcSectionIndex p.1,
      name := "func[" ++ toString p.1 ++ "]",
      size := p.2.2, kind := ItemKind.misc }

/-- The `code_items` vector of the merged function/code item synthesis:
the code bodies zipped with the `func_items`, each merged item identified
in the code section, sized as body size plus declaration size, and named
from the function-names map at `i + imported_functions` (verbatim when
present, else `code[i]`). -/
def codeItemsList (funcSectionIndex codeSectionIndex : Nat)
    (funcEntries : List (Nat × Nat)) (bodies : List (Body × Nat))
    (imported_functions : Nat) (names : Nat → Option String) : List Item :=
  (enumFrom 0 (bodies.zip (funcItemsList funcSectionIndex funcEntries))).map fun p =>
    let i := p.1
    let bodySize := p.2.1.2
    let func := p.2.2
    let nm := match names (i + imported_functions) with
      | some s => s
      | none => "code[" ++ toString i ++ "]"
    { id := Id.entry codeSectionIndex i, name := nm,
      size := bodySize + func.size, kind := ItemKind.code nm }

/-- Translation of `<(FunctionSection, CodeSection) as Parse>::parse_items`:
the merged code items are added, then a single root item for the combined
function-plus-code sections covers the residual
`(code byte size + function byte size) - added`; the source asserts
`added <= size`, so a violation is a fatal abort. -/
def funcCodeParseItems (b : ItemsBuilder)
    (funcSec : Nat × List (Nat × Nat) × Nat)
    (codeSec : Nat × List (Body × Nat) × Nat)
    (imported_functions : Nat) (names : Nat → Option String) :
    Except ParseErr ItemsBuilder :=
  let start := b.size_added
  let b' := (codeItemsList funcSec.1 codeSec.1 funcSec.2.1 codeSec.2.1
    imported_functions names).foldl ItemsBuilder.add_item b
  let added := b'.size_added - start
  let size := codeSec.2.2 + funcSec.2.2
  if added ≤ size then
    Except.ok (b'.add_root { id := Id.section codeSec.1, name := get_code_section_name,
                             size := size - added, kind := ItemKind.misc })
  else Except.error (ParseErr.fatal "assertion failed: added <= size")

/-- State accumulated by the section-collection loop at the top of
`ModuleReader::parse_items`: the retained sections with their positions,
the specially captured function and code sections (position, entries, and
the byte size computed from the section's range), the most recent name
section, the per-position consumed byte sizes, and the running position
counter. -/
structure ItemsScan where
  sections : List (Nat × Payload)
  funcSec : Option (Nat × List (Nat × Nat) × Nat)
  codeSec : Option (Nat × List (Body × Nat) × Nat)
  names : Option (List NameEntry)
  sizes : Nat → Option Nat
  idx : Nat

/-- Initial scan state. -/
def ItemsScan.init : ItemsScan :=
  { sections := [], funcSec := none, codeSec := none, names := none,
    sizes := fun _ => none, idx := 0 }

/-- Insertion into the per-position size map. -/
def insertSize (f : Nat → Option Nat) (k v : Nat) : Nat → Option Nat :=
  fun j => if j = k then some v else f j

/-- Successive insertion of the code-body chunk sizes, one key per
`CodeSectionEntry` payload starting at `k`. -/
def insertSizesFrom (f : Nat → Option Nat) (k : Nat) : List Nat → (Nat → Option Nat)
  | [] => f
  | s :: rest => insertSizesFrom (insertSize f k s) (k + 1) rest

/-- One iteration of the collection loop of `ModuleReader::parse_items`.
The code section is captured apart (its byte size spans the
`CodeSectionStart` header and every body, and the loop also runs once per
`CodeSectionEntry`, recording that chunk's size and advancing the position
counter while ignoring the payload); the function section is captured
apart; a custom section that is the distinguished name section is
remembered (the latest one wins) and still pushed into `sections`; every
other payload is pushed into `sections`. -/
def scanItemsStep (st : ItemsScan) (p : Payload) : ItemsScan :=
  match p with
  | .codeSection bodies headerSize =>
    { st with
      codeSec := some (st.idx, bodies, headerSize + (bodies.map (fun b => b.2)).sum),
      sizes := insertSizesFrom (insertSize st.sizes st.idx headerSize) (st.idx + 1)
        (bodies.map (fun b => b.2)),
      idx := st.idx + 1 + bodies.length }
  | .functionSection entries size =>
    { st with
      funcSec := some (st.idx, entries, size),
      sizes := insertSize st.sizes st.idx size,
      idx := st.idx + 1 }
  | .custom _ content _ =>
    { st with
      sections := st.sections ++ [(st.idx, p)],
      names := match content with
        | .nameSec subs => some subs
        | .other _ => st.names,
      sizes := insertSize st.sizes st.idx (payloadSize p),
      idx := st.idx + 1 }
  | _ =>
    { st with
      sections := st.sections ++ [(st.idx, p)],
      sizes := insertSize st.sizes st.idx (payloadSize p),
      idx := st.idx + 1 }

/-- The full collection loop over the payload sequence. -/
def scanItems : List Payload → ItemsScan → ItemsScan
  | [], st => st
  | p :: ps, st => scanItems ps (scanItemsStep st p)

/-- Dispatch of one retained section to its item synthesizer, from the
second loop of `ModuleReader::parse_items`.  A custom section dispatches
the name-section synthesizer when it is the name section and otherwise
becomes one opaque item; the start section's `parse_items` is a no-op; a
code or function section in this list would hit `unreachable!`; the
version and data-count payloads fall to the empty arm. -/
def sectionParseItemsDispatch (names : Names) (b : ItemsBuilder) (idx : Nat) :
    Payload → Except ParseErr ItemsBuilder
  | .custom nm content _ =>
    match content with
    | .nameSec subs => Except.ok (nameSectionParseItems b idx subs)
    | .other data_len =>
      Except.ok (b.add_item
        { id := Id.entry idx 0,
          name := "custom section \x27" ++ nm ++ "\x27",
          size := data_len, kind := ItemKind.misc })
  | .typeSection entries _ => Except.ok (typeSectionParseItems b idx entries)
  | .importSection entries _ => Except.ok (importSectionParseItems b idx entries)
  | .tableSection entries _ => Except.ok (tableSectionParseItems b idx entries)
  | .memorySection entries _ => Except.ok (memorySectionParseItems b idx entries)
  | .globalSection entries _ => Except.ok (globalSectionParseItems b idx entries)
  | .exportSection entries _ => Except.ok (exportSectionParseItems b idx entries)
  | .startSection _ _ => Except.ok b
  | .elementSection entries _ => Except.ok (elementSectionParseItems b idx entries)
  | .dataSection entries _ => dataSectionParseItems b idx names.data_names entries
  | .codeSection _ _ =>
    Except.error (ParseErr.fatal "unreachable: unexpected code or function section found")
  | .functionSection _ _ =>
    Except.error (ParseErr.fatal "unreachable: unexpected code or function section found")
  | .version _ => Except.ok b
  | .dataCount _ => Except.ok b

/-- Processing of one retained section in the items pass: run its
synthesizer, look its total byte size up in the size map, assert that the
bytes attributed to items do not exceed it, and add the section root item
sized with the residual. -/
def processSection (sizes : Nat → Option Nat) (names : Names) (b : ItemsBuilder)
    (q : Nat × Payload) : Except ParseErr ItemsBuilder :=
  let start := b.size_added
  let nm := get_section_name q.2
  match sectionParseItemsDispatch names b q.1 q.2 with
  | .error e => Except.error e
  | .ok b' =>
    match sizes q.1 with
    | none => Except.error (ParseErr.err "Could not find section size")
    | some size =>
      let added := b'.size_added - start
      if added ≤ size then
        Except.ok (b'.add_root { id := Id.section q.1, name := nm,
                                 size := size - added, kind := ItemKind.misc })
      else Except.error (ParseErr.fatal "assertion failed: added <= size")

/-- The items-pass loop over the retained sections, in order. -/
def processSections (sizes : Nat → Option Nat) (names : Names) :
    List (Nat × Payload) → ItemsBuilder → Except ParseErr ItemsBuilder
  | [], b => Except.ok b
  | q :: qs, b =>
    match processSection sizes names b q with
    | .error e => Except.error e
    | .ok b' => processSections sizes names qs b'

/-- The name-map preparation step of the items pass:
`names.map(parse_names_section).unwrap_or(Ok(Names::default()))`. -/
def namesPrep (st : ItemsScan) : Except ParseErr Names :=
  match st.names with
  | none => Except.ok Names.init
  | some subs => parse_names_section subs

/-- Translation of `ModuleReader::parse_items`: collect the payloads,
prepare the name maps (the whole parse fails if `parse_names_section`
fails) and the imported-function count, merge the function and code
sections (failing with a structural error when either is missing), then
synthesize the remaining sections with their roots. -/
def parseItemsM (m : Module) (b : ItemsBuilder) : Except ParseErr ItemsBuilder :=
  let st := scanItems m.payloads ItemsScan.init
  match namesPrep st with
  | .error e => Except.error e
  | .ok names =>
    let imported_functions := count_imported_functions st.sections
    match st.funcSec, st.codeSec with
    | some f, some c =>
      match funcCodeParseItems b f c imported_functions names.function_names with
      | .error e => Except.error e
      | .ok b' => processSections st.sizes names st.sections b'
    | _, _ => Except.error (ParseErr.err "function or code section is missing")

/-- Translation of `SectionIndices`: the reconstructed index spaces.  The
function, table, memory and global spaces list the item identity of each
entry, imports first (in import-section order) and locally declared
entries after. -/
structure SectionIndices where
  type_ : Option Nat
  code : Option Nat
  functions : List Id
  tables : List Id
  memories : List Id
  globals : List Id
deriving DecidableEq

/-- The empty index spaces (`SectionIndices::default()`). -/
def SectionIndices.init : SectionIndices :=
  { type_ := none, code := none, functions := [], tables := [],
    memories := [], globals := [] }

/-- The import-section contribution to the index spaces: every import is
enumerated (across all kinds) and its entry identity is pushed onto the
space selected by its kind; tag imports are tracked in no space. -/
def importIndices (idx : Nat) : SectionIndices → Nat → List (Import × Nat) → SectionIndices
  | ind, _, [] => ind
  | ind, i, (imp, _) :: rest =>
    let ind' := match imp.ty with
      | .func => { ind with functions := ind.functions ++ [Id.entry idx i] }
      | .table => { ind with tables := ind.tables ++ [Id.entry idx i] }
      | .memory => { ind with memories := ind.memories ++ [Id.entry idx i] }
      | .global => { ind with globals := ind.globals ++ [Id.entry idx i] }
      | .tag => ind
    importIndices idx ind' (i + 1) rest

/-- One step of the index-space preprocessing loop of
`ModuleReader::parse_edges`: type sections record their position, import
sections contribute imported identities, and the global/memory/table
sections contribute one declared identity per entry; a code or function
section in this list is an error. -/
def buildIndicesStep (ind : SectionIndices) (q : Nat × Payload) :
    Except ParseErr SectionIndices :=
  match q.2 with
  | .typeSection _ _ => Except.ok { ind with type_ := some q.1 }
  | .importSection entries _ => Except.ok (importIndices q.1 ind 0 entries)
  | .globalSection entries _ =>
    Except.ok { ind with globals := ind.globals ++ (List.range entries.length).map (Id.entry q.1) }
  | .memorySection entries _ =>
    Except.ok { ind with memories := ind.memories ++ (List.range entries.length).map (Id.entry q.1) }
  | .tableSection entries _ =>
    Except.ok { ind with tables := ind.tables ++ (List.range entries.length).map (Id.entry q.1) }
  | .codeSection _ _ => Except.error (ParseErr.err "unexpected code section")
  | .functionSection _ _ => Except.error (ParseErr.err "unexpected function section")
  | _ => Except.ok ind

/-- The index-space preprocessing loop over the retained sections. -/
def buildIndices : List (Nat × Payload) → SectionIndices → Except ParseErr SectionIndices
  | [], ind => Except.ok ind
  | q :: qs, ind =>
    match buildIndicesStep ind q with
    | .error e => Except.error e
    | .ok ind' => buildIndices qs ind'

/-- State accumulated by the collection loop of
`ModuleReader::parse_edges`: the function and code sections are captured
apart; every other payload is pushed into `sections` with its position.
(In this pass the source also computes byte sizes for the captured
sections, but they are never used, and the `CodeSectionEntry` payloads it
pushes into `sections` only ever reach no-op arms; neither is modelled.) -/
structure EdgesScan where
  sections : List (Nat × Payload)
  funcSec : Option (Nat × List (Nat × Nat))
  codeSec : Option (Nat × List (Body × Nat))
  idx : Nat

/-- Initial edges-pass scan state. -/
def EdgesScan.init : EdgesScan :=
  { sections := [], funcSec := none, codeSec := none, idx := 0 }

/-- One iteration of the edges-pass collection loop. -/
def scanEdgesStep (st : EdgesScan) (p : Payload) : EdgesScan :=
  match p with
  | .codeSection bodies _ =>
    { st with codeSec := some (st.idx, bodies), idx := st.idx + 1 + bodies.length }
  | .functionSection entries _ =>
    { st with funcSec := some (st.idx, entries), idx := st.idx + 1 }
  | _ =>
    { st with sections := st.sections ++ [(st.idx, p)], idx := st.idx + 1 }

/-- The edges-pass collection loop over the payload sequence. -/
def scanEdges : List Payload → EdgesScan → EdgesScan
  | [], st => st
  | p :: ps, st => scanEdges ps (scanEdgesStep st p)

/-- The complete index-space reconstruction of `ModuleReader::parse_edges`:
the preprocessing loop over the retained sections, then, when both the
function and code sections are present, the code-section position is
recorded and one declared-function identity per function-section entry is
appended to the function space. -/
def edgesIndices (st : EdgesScan) : Except ParseErr SectionIndices :=
  match buildIndices st.sections SectionIndices.init with
  | .error e => Except.error e
  | .ok ind =>
    Except.ok (match st.funcSec, st.codeSec with
      | some f, some c =>
        { ind with code := some c.1,
                   functions := ind.functions ++ (List.range f.2.length).map (Id.entry c.1) }
      | _, _ => ind)

/-- The `value as u64 + memarg.offset` address computation: the i32
constant is reinterpreted as a 64-bit unsigned value (sign extension) and
added to the static offset immediate, wrapping at 2^64. -/
def loadAddr (value : Int) (offset : Nat) : Nat :=
  ((value % (2 ^ 64 : Int)).toNat + offset) % 2 ^ 64

/-- Translation of the instruction scan of
`<(FunctionSection, CodeSection) as Parse>::parse_edges`.  The cache holds
the previous instruction only when it fell through to the catch-all arm
(`prev = cache.take()` empties it on every step).  A direct call resolves
its target by indexing the function space (out of bounds aborts the
process); an indirect call is skipped; a global get or set resolves the
global space likewise; a load consults the cached instruction and, when it
is an `I32Const`, queries the data-range index at
`value as u64 + memarg.offset`; every other instruction becomes the new
cache value. -/
def scanOps (b : ItemsBuilder) (ind : SectionIndices) (bodyId : Id) :
    Option Op → List Op → Except ParseErr (List (Id × Id))
  | _, [] => Except.ok []
  | cache, op :: rest =>
    match op with
    | .call function_index =>
      match ind.functions.get? function_index with
      | none => Except.error (ParseErr.fatal "index out of bounds")
      | some f_id =>
        match scanOps b ind bodyId none rest with
        | .error e => Except.error e
        | .ok es => Except.ok ((bodyId, f_id) :: es)
    | .callIndirect => scanOps b ind bodyId none rest
    | .globalGet global_index =>
      match ind.globals.get? global_index with
      | none => Except.error (ParseErr.fatal "index out of bounds")
      | some g_id =>
        match scanOps b ind bodyId none rest with
        | .error e => Except.error e
        | .ok es => Except.ok ((bodyId, g_id) :: es)
    | .globalSet global_index =>
      match ind.globals.get? global_index with
      | none => Except.error (ParseErr.fatal "index out of bounds")
      | some g_id =>
        match scanOps b ind bodyId none rest with
        | .error e => Except.error e
        | .ok es => Except.ok ((bodyId, g_id) :: es)
    | .load offset =>
      let here := match cache with
        | some (Op.i32Const value) =>
          match b.get_data (loadAddr value offset) with
          | some data_id => [(bodyId, data_id)]
          | none => []
        | _ => []
      match scanOps b ind bodyId none rest with
      | .error e => Except.error e
      | .ok es => Except.ok (here ++ es)
    | _ => scanOps b ind bodyId (some op) rest

/-- The per-body edge collection of the code-section reader parsing: each
body is scanned with an empty cache, its edges appended in order. -/
def bodiesEdges (b : ItemsBuilder) (ind : SectionIndices) (codeSectionIndex : Nat) :
    Nat → List (Body × Nat) → Except ParseErr (List (Id × Id))
  | _, [] => Except.ok []
  | i, (body, _) :: rest =>
    match scanOps b ind (Id.entry codeSectionIndex i) none body.ops with
    | .error e => Except.error e
    | .ok es =>
      match bodiesEdges b ind codeSectionIndex (i + 1) rest with
      | .error e => Except.error e
      | .ok es' => Except.ok (es ++ es')

/-- Translation of `<(FunctionSection, CodeSection) as Parse>::parse_edges`:
the function-section loop pushes one signature edge per declared function
(body item to type item, only when both a type section and the code
section are known), the code-section loop scans every body, and all
collected edges are then added to the builder in order. -/
def funcCodeParseEdges (b : ItemsBuilder) (ind : SectionIndices)
    (funcSec : Nat × List (Nat × Nat)) (codeSec : Nat × List (Body × Nat)) :
    Except ParseErr ItemsBuilder :=
  let typeEdges := listJoinMap
    (fun p =>
      match ind.type_ with
      | some type_idx =>
        match ind.code with
        | some code_idx => [(Id.entry code_idx p.1, Id.entry type_idx p.2.1)]
        | none => []
      | none => [])
    (enumFrom 0 funcSec.2)
  match bodiesEdges b ind codeSec.1 0 codeSec.2 with
  | .error e => Except.error e
  | .ok bodyEdges =>
    Except.ok ((typeEdges ++ bodyEdges).foldl (fun bb e => bb.add_edge e.1 e.2) b)

/-- Translation of `<ExportSectionReader as Parse>::parse_edges`: each
export adds one edge from the export item to the identity selected by its
kind tag and raw index in the corresponding index space (an out-of-bounds
index aborts the process); tag exports add no edge. -/
def exportParseEdgesAux (ind : SectionIndices) (idx : Nat) :
    Nat → List (Export × Nat) → ItemsBuilder → Except ParseErr ItemsBuilder
  | _, [], b => Except.ok b
  | i, (exp, _) :: rest, b =>
    let exp_id := Id.entry idx i
    match exp.kind with
    | .func =>
      match ind.functions.get? exp.index with
      | none => Except.error (ParseErr.fatal "index out of bounds")
      | some t => exportParseEdgesAux ind idx (i + 1) rest (b.add_edge exp_id t)
    | .table =>
      match ind.tables.get? exp.index with
      | none => Except.error (ParseErr.fatal "index out of bounds")
      | some t => exportParseEdgesAux ind idx (i + 1) rest (b.add_edge exp_id t)
    | .memory =>
      match ind.memories.get? exp.index with
      | none => Except.error (ParseErr.fatal "index out of bounds")
      | some t => exportParseEdgesAux ind idx (i + 1) rest (b.add_edge exp_id t)
    | .global =>
      match ind.globals.get? exp.index with
      | none => Except.error (ParseErr.fatal "index out of bounds")
      | some t => exportParseEdgesAux ind idx (i + 1) rest (b.add_edge exp_id t)
    | .tag => exportParseEdgesAux ind idx (i + 1) rest b

/-- Edge synthesis for the export section. -/
def exportParseEdges (b : ItemsBuilder) (ind : SectionIndices) (idx : Nat)
    (entries : List (Export × Nat)) : Except ParseErr ItemsBuilder :=
  exportParseEdgesAux ind idx 0 entries b

/-- Translation of `<StartSection as Parse>::parse_edges`: one edge from
the start-section root to the designated start function, resolved by
unguarded indexing into the function space. -/
def startParseEdges (b : ItemsBuilder) (ind : SectionIndices) (idx : Nat)
    (function_index : Nat) : Except ParseErr ItemsBuilder :=
  match ind.functions.get? function_index with
  | none => Except.error (ParseErr.fatal "index out of bounds")
  | some t => Except.ok (b.add_edge (Id.section idx) t)

/-- The per-function-reference edges of one element segment: each listed
raw function index resolves through the function space. -/
def elementFuncEdges (ind : SectionIndices) (elem_id : Id) :
    List Nat → ItemsBuilder → Except ParseErr ItemsBuilder
  | [], b => Except.ok b
  | fi :: rest, b =>
    match ind.functions.get? fi with
    | none => Except.error (ParseErr.fatal "index out of bounds")
    | some t => elementFuncEdges ind elem_id rest (b.add_edge elem_id t)

/-- Translation of `<ElementSectionReader as Parse>::parse_edges`: an
active segment adds a containment edge from its table (raw index, default
0, resolved by unguarded indexing) to the element item; function-index
items add one edge per referenced function; expression items add none. -/
def elementParseEdgesAux (ind : SectionIndices) (idx : Nat) :
    Nat → List (Element × Nat) → ItemsBuilder → Except ParseErr ItemsBuilder
  | _, [], b => Except.ok b
  | i, (elem, _) :: rest, b =>
    let elem_id := Id.entry idx i
    let tableStep : Except ParseErr ItemsBuilder :=
      match elem.kind with
      | .active table_index =>
        match ind.tables.get? (table_index.getD 0) with
        | none => Except.error (ParseErr.fatal "index out of bounds")
        | some t => Except.ok (b.add_edge t elem_id)
      | .declared => Except.ok b
      | .passive => Except.ok b
    match tableStep with
    | .error e => Except.error e
    | .ok b' =>
      match elem.items with
      | .functions idxs =>
        match elementFuncEdges ind elem_id idxs b' with
        | .error e => Except.error e
        | .ok b'' => elementParseEdgesAux ind idx (i + 1) rest b''
      | .expressions => elementParseEdgesAux ind idx (i + 1) rest b'

/-- Edge synthesis for the element section. -/
def elementParseEdges (b : ItemsBuilder) (ind : SectionIndices) (idx : Nat)
    (entries : List (Element × Nat)) : Except ParseErr ItemsBuilder :=
  elementParseEdgesAux ind idx 0 entries b

/-- Dispatch of one retained section to its edge synthesizer, from the
final loop of `ModuleReader::parse_edges`.  The custom, type, import,
table, memory, global and data sections have no edges to parse; a code or
function section in this list would hit `unreachable!`. -/
def sectionParseEdgesDispatch (ind : SectionIndices) (b : ItemsBuilder) (idx : Nat) :
    Payload → Except ParseErr ItemsBuilder
  | .exportSection entries _ => exportParseEdges b ind idx entries
  | .startSection func _ => startParseEdges b ind idx func
  | .elementSection entries _ => elementParseEdges b ind idx entries
  | .custom _ _ _ => Except.ok b
  | .typeSection _ _ => Except.ok b
  | .importSection _ _ => Except.ok b
  | .tableSection _ _ => Except.ok b
  | .memorySection _ _ => Except.ok b
  | .globalSection _ _ => Except.ok b
  | .dataSection _ _ => Except.ok b
  | .codeSection _ _ =>
    Except.error (ParseErr.fatal "unreachable: unexpected code or function section found")
  | .functionSection _ _ =>
    Except.error (ParseErr.fatal "unreachable: unexpected code or function section found")
  | .version _ => Except.ok b
  | .dataCount _ => Except.ok b

/-- The edges-pass loop over the retained sections, in order. -/
def sectionsParseEdges (ind : SectionIndices) :
    List (Nat × Payload) → ItemsBuilder → Except ParseErr ItemsBuilder
  | [], b => Except.ok b
  | q :: qs, b =>
    match sectionParseEdgesDispatch ind b q.1 q.2 with
    | .error e => Except.error e
    | .ok b' => sectionsParseEdges ind qs b'

/-- Translation of `ModuleReader::parse_edges`: collect the payloads
afresh, rebuild the index spaces, merge the function and code sections
(a missing pairing here is a `panic!`, modelled as a fatal abort), then
synthesize the remaining sections' edges. -/
def parseEdgesM (m : Module) (b : ItemsBuilder) : Except ParseErr ItemsBuilder :=
  let st := scanEdges m.payloads EdgesScan.init
  match edgesIndices st with
  | .error e => Except.error e
  | .ok ind =>
    match st.funcSec, st.codeSec with
    | some f, some c =>
      match funcCodeParseEdges b ind f c with
      | .error e => Except.error e
      | .ok b' => sectionsParseEdges ind st.sections b'
    | _, _ => Except.error (ParseErr.fatal "function or code section is missing")

/-- Translation of `parse_wasm` from `src/parser/parser.rs`, for a given
decoded payload stream and input byte length: one builder sized with the
input length, the items pass, the edges pass over the same stream, then
finalization. -/
def parseWasmCore (m : Module) (len : Nat) : Except ParseErr Items :=
  match parseItemsM m (ItemsBuilder.new len) with
  | .error e => Except.error e
  | .ok b1 =>
    match parseEdgesM m b1 with
    | .error e => Except.error e
    | .ok b2 => Except.ok b2.finish

/-- The wasm parse of a module whose byte buffer was fully consumed by its
payload stream. -/
def parseWasmM (m : Module) : Except ParseErr Items :=
  parseWasmCore m (moduleLength m)

/-- The wasm magic number checked by `sniff_wasm`. -/
def WASM_MAGIC_NUMBER : List Nat := [0x00, 0x61, 0x73, 0x6D]

/-- Translation of `sniff_wasm`: a `wasm` file extension wins; otherwise
the first four bytes are compared against the magic number (fewer than
four bytes available compares unequal). -/
def sniff_wasm (extension : Option String) (data : List Nat) : Bool :=
  match extension with
  | some "wasm" => true
  | _ => data.take 4 == WASM_MAGIC_NUMBER

/-- Byte-level `parse_wasm`: the container walker (the external
`wasmparser` crate) is abstracted as a decode function from the byte
buffer to a payload stream; the builder is sized with `data.len()`. -/
def parseWasmB (decode : List Nat → Except ParseErr Module) (data : List Nat) :
    Except ParseErr Items :=
  match decode data with
  | .error e => Except.error e
  | .ok m => parseWasmCore m data.length

/-- Translation of `parse_fallback` (the build without the dwarf feature):
it simply runs the wasm parser. -/
def parse_fallback (decode : List Nat → Except ParseErr Module) (data : List Nat) :
    Except ParseErr Items :=
  parseWasmB decode data

/-- Translation of the public `parse` entry point: it delegates to
`parse_fallback` unconditionally. -/
def parse (decode : List Nat → Except ParseErr Module) (data : List Nat) :
    Except ParseErr Items :=
  parse_fallback decode data

/-- Translation of `parse_auto` (without the dwarf feature): sniff, then
either the wasm path or the fallback. -/
def parse_auto (decode : List Nat → Except ParseErr Module) (extension : Option String)
    (data : List Nat) : Except ParseErr Items :=
  if sniff_wasm extension data then parseWasmB decode data
  else parse_fallback decode data

/-! Specification-level definitions: predicates and reference functions
written from the spec's words, used to state the claims and compare them
with the translated code. -/

/-- Total size of a list of items. -/
def sumSizes (l : List Item) : Nat :=
  (l.map Item.size).sum

/-- Sum of the sizes of the root items of a finished graph (the items
whose identity is in the root list). -/
def Items.rootSizeSum (its : Items) : Nat :=
  sumSizes (its.items.filter fun it => its.roots.contains it.id)

/-- Sum of the sizes of the non-root items of a finished graph. -/
def Items.nonRootSizeSum (its : Items) : Nat :=
  sumSizes (its.items.filter fun it => !(its.roots.contains it.id))

/-- Whether a payload is a function section. -/
def isFunctionSectionP : Payload → Bool
  | .functionSection _ _ => true
  | _ => false

/-- Whether a payload is a code section. -/
def isCodeSectionP : Payload → Bool
  | .codeSection _ _ => true
  | _ => false

/-- Container-format well-formedness of a payload stream: the function
and the code section each appear at most once, as the wasm binary format
requires of the sections the parser pairs up.  (The scan keeps only the
last occurrence of each, so a repeated section would silently drop the
bytes of the earlier one from the accounting.) -/
def wfModule (m : Module) : Prop :=
  m.payloads.countP isFunctionSectionP ≤ 1 ∧ m.payloads.countP isCodeSectionP ≤ 1

/-- Whether the items-pass scan of a module captures a function section. -/
def hasFuncSec (m : Module) : Bool :=
  (scanItems m.payloads ItemsScan.init).funcSec.isSome

/-- Whether the items-pass scan of a module captures a code section. -/
def hasCodeSec (m : Module) : Bool :=
  (scanItems m.payloads ItemsScan.init).codeSec.isSome

/-- Whether an `Except` value is a success. -/
def exceptIsOk {ε α : Type} : Except ε α → Bool
  | .ok _ => true
  | .error _ => false

/-- Whether the name-map preparation step of the items pass succeeds for a
module (vacuously when no name section is captured). -/
def namesPrepOk (m : Module) : Bool :=
  exceptIsOk (namesPrep (scanItems m.payloads ItemsScan.init))

/-- Whether a name subsection is one of the two kinds
`parse_names_section` collects (function names or data names); every
other kind falls to its `continue` arm. -/
def namesRelevant : NameSub → Bool
  | .functionN _ => true
  | .dataN _ => true
  | _ => false

/-- Whether the first operator of an active data segment's offset
expression can be read at all (the `iter.read()?` step); passive segments
read nothing. -/
def segReadable (d : DataSeg) : Bool :=
  match d.kind with
  | .active expr => !expr.isEmpty
  | .passive => true

/-- The imported-function identities contributed by one import section's
entries starting at overall import position `i`: the entry identity of
each function-typed import, in order. -/
def importFuncIdsFrom (idx : Nat) : Nat → List (Import × Nat) → List Id
  | _, [] => []
  | i, (imp, _) :: rest =>
    (if imp.ty == TypeRef.func then [Id.entry idx i] else []) ++
      importFuncIdsFrom idx (i + 1) rest

/-- The imported-function identities contributed by one retained section. -/
def importFuncIdsOf (q : Nat × Payload) : List Id :=
  match q.2 with
  | .importSection entries _ => importFuncIdsFrom q.1 0 entries
  | _ => []

/-- Per-export in-bounds condition on the raw index, relative to the index
space its kind selects. -/
def exportIndexOk (ind : SectionIndices) (e : Export) : Bool :=
  match e.kind with
  | .func => decide (e.index < ind.functions.length)
  | .table => decide (e.index < ind.tables.length)
  | .memory => decide (e.index < ind.memories.length)
  | .global => decide (e.index < ind.globals.length)
  | .tag => true

/-- Per-operator in-bounds condition on the raw indices the instruction
scan resolves. -/
def opIndexOk (ind : SectionIndices) : Op → Bool
  | .call fi => decide (fi < ind.functions.length)
  | .globalGet gi => decide (gi < ind.globals.length)
  | .globalSet gi => decide (gi < ind.globals.length)
  | _ => true

/-- Per-element-segment in-bounds condition on the raw table index and the
listed function indices. -/
def elementIndexOk (ind : SectionIndices) (elem : Element) : Bool :=
  (match elem.kind with
   | .active table_index => decide (table_index.getD 0 < ind.tables.length)
   | .passive => true
   | .declared => true) &&
  (match elem.items with
   | .functions idxs => idxs.all fun fi => decide (fi < ind.functions.length)
   | .expressions => true)

/-- Reference lookback scan written from the spec's words: walk the
instruction stream where the lookback value available to a load is always
the literally preceding instruction, and only a 32-bit integer constant
push triggers the data-range query.  Proved below to coincide with the
translated cache-based scan. -/
def scanSpec (b : ItemsBuilder) (ind : SectionIndices) (bodyId : Id) :
    Option Op → List Op → Except ParseErr (List (Id × Id))
  | _, [] => Except.ok []
  | prev, op :: rest =>
    match op with
    | .call function_index =>
      match ind.functions.get? function_index with
      | none => Except.error (ParseErr.fatal "index out of bounds")
      | some f_id =>
        match scanSpec b ind bodyId (some op) rest with
        | .error e => Except.error e
        | .ok es => Except.ok ((bodyId, f_id) :: es)
    | .callIndirect => scanSpec b ind bodyId (some op) rest
    | .globalGet global_index =>
      match ind.globals.get? global_index with
      | none => Except.error (ParseErr.fatal "index out of bounds")
      | some g_id =>
        match scanSpec b ind bodyId (some op) rest with
        | .error e => Except.error e
        | .ok es => Except.ok ((bodyId, g_id) :: es)
    | .globalSet global_index =>
      match ind.globals.get? global_index with
      | none => Except.error (ParseErr.fatal "index out of bounds")
      | some g_id =>
        match scanSpec b ind bodyId (some op) rest with
        | .error e => Except.error e
        | .ok es => Except.ok ((bodyId, g_id) :: es)
    | .load offset =>
      let here := match prev with
        | some (Op.i32Const value) =>
          match b.get_data (loadAddr value offset) with
          | some data_id => [(bodyId, data_id)]
          | none => []
        | _ => []
      match scanSpec b ind bodyId (some op) rest with
      | .error e => Except.error e
      | .ok es => Except.ok (here ++ es)
    | _ => scanSpec b ind bodyId (some op) rest

/-- The claimed lookback scan, written from the claim's words: identical
to `scanSpec` except that any constant-integer push (32- or 64-bit) before
a load triggers the data-range query at `constant + static offset`. -/
def scanClaim (b : ItemsBuilder) (ind : SectionIndices) (bodyId : Id) :
    Option Op → List Op → Except ParseErr (List (Id × Id))
  | _, [] => Except.ok []
  | prev, op :: rest =>
    match op with
    | .call function_index =>
      match ind.functions.get? function_index with
      | none => Except.error (ParseErr.fatal "index out of bounds")
      | some f_id =>
        match scanClaim b ind bodyId (some op) rest with
        | .error e => Except.error e
        | .ok es => Except.ok ((bodyId, f_id) :: es)
    | .callIndirect => scanClaim b ind bodyId (some op) rest
    | .globalGet global_index =>
      match ind.globals.get? global_index with
      | none => Except.error (ParseErr.fatal "index out of bounds")
      | some g_id =>
        match scanClaim b ind bodyId (some op) rest with
        | .error e => Except.error e
        | .ok es => Except.ok ((bodyId, g_id) :: es)
    | .globalSet global_index =>
      match ind.globals.get? global_index with
      | none => Except.error (ParseErr.fatal "index out of bounds")
      | some g_id =>
        match scanClaim b ind bodyId (some op) rest with
        | .error e => Except.error e
        | .ok es => Except.ok ((bodyId, g_id) :: es)
    | .load offset =>
      let here := match prev with
        | some (Op.i32Const value) =>
          match b.get_data (loadAddr value offset) with
          | some data_id => [(bodyId, data_id)]
          | none => []
        | some (Op.i64Const value) =>
          match b.get_data (loadAddr value offset) with
          | some data_id => [(bodyId, data_id)]
          | none => []
        | _ => []
      match scanClaim b ind bodyId (some op) rest with
      | .error e => Except.error e
      | .ok es => Except.ok (here ++ es)
    | _ => scanClaim b ind bodyId (some op) rest

/-- Whether an operator is consumed by the instruction scan (matched by a
dedicated arm) rather than falling through to the cache-refill arm. -/
def opConsumed : Op → Bool
  | .call _ => true
  | .callIndirect => true
  | .globalGet _ => true
  | .globalSet _ => true
  | .load _ => true
  | _ => false

/-- The cache value the translated scan holds when the literally preceding
instruction was `p`: the instruction itself when it fell through to the
catch-all arm, nothing when a dedicated arm consumed it. -/
def cacheOf : Option Op → Option Op
  | none => none
  | some q => if opConsumed q then none else some q

/-- Whether an offset expression is a single constant-integer expression
(one 32- or 64-bit integer constant followed by the `End` operator), as
the claim's words require for data-range registration. -/
def isSingleConstIntExpr : List Op → Bool
  | [Op.i32Const _, Op.endOp] => true
  | [Op.i64Const _, Op.endOp] => true
  | _ => false

/-- The data-range registrations the data-section synthesizer makes, as a
function of the entries: one record per active segment whose first
offset-expression operator is a 32- or 64-bit integer constant. -/
def dataRegList (idx : Nat) : Nat → List (DataSeg × Nat) → List (Int × Nat × Id)
  | _, [] => []
  | i, (d, _) :: rest =>
    (match d.kind with
     | .active expr =>
       match expr.head? with
       | some (Op.i32Const v) => [((v : Int), d.data_len, Id.entry idx i)]
       | some (Op.i64Const v) => [((v : Int), d.data_len, Id.entry idx i)]
       | _ => []
     | .passive => []) ++ dataRegList idx (i + 1) rest

/-- Items of a parse result (empty on failure); lets closed statements
inspect a concrete run. -/
def itemsOfR (r : Except ParseErr Items) : List Item :=
  match r with
  | .ok its => its.items
  | .error _ => []

/-- Roots of a parse result (empty on failure). -/
def rootsOfR (r : Except ParseErr Items) : List Id :=
  match r with
  | .ok its => its.roots
  | .error _ => []

/-- The finished graph of a successful parse result (an empty graph on
failure). -/
def graphOfR (r : Except ParseErr Items) : Items :=
  match r with
  | .ok its => its
  | .error _ => { items := [], roots := [], edges := [] }

/-- Data ranges of a builder result (empty on failure). -/
def dataRangesOfR (r : Except ParseErr ItemsBuilder) : List (Int × Nat × Id) :=
  match r with
  | .ok b => b.data_ranges
  | .error _ => []

/-! Concrete fixtures used by witnesses and counterexamples. -/

/-- A small well-formed module: magic bytes, one function type, one
imported function `env::log`, one declared function whose body calls it,
an export of it, and a name section naming function index 1. -/
def M0 : Module :=
  { payloads := [
      Payload.version 8,
      Payload.typeSection [(TypeEntry.funcType [] [], 4)] 7,
      Payload.importSection [({ module_ := "env", name := "log", ty := TypeRef.func }, 10)] 13,
      Payload.functionSection [(0, 1)] 5,
      Payload.codeSection [({ ops := [Op.call 0, Op.endOp] }, 6)] 5,
      Payload.exportSection [({ name := "run", kind := ExternalKind.func, index := 1 }, 7)] 9,
      Payload.custom "name"
        (CustomContent.nameSec
          [{ size := 5,
             sub := Except.ok (NameSub.functionN [Except.ok { index := 1, name := "runfn" }]) }]) 12 ] }

/-- A module whose name section contains a function-names subsection with
one unparseable naming entry (everything else is well-formed). -/
def M3 : Module :=
  { payloads := [
      Payload.version 8,
      Payload.functionSection [(0, 1)] 5,
      Payload.codeSection [({ ops := [Op.endOp] }, 3)] 5,
      Payload.custom "name"
        (CustomContent.nameSec
          [{ size := 4,
             sub := Except.ok (NameSub.functionN [Except.error "invalid name entry"]) }]) 10 ] }

/-- A module with a function section and no code section. -/
def M4 : Module :=
  { payloads := [Payload.version 8, Payload.functionSection [(0, 1)] 5] }

/-- A module with one declared memory and one declared table (positions 4
and 5 of the payload sequence). -/
def M5 : Module :=
  { payloads := [
      Payload.version 8,
      Payload.functionSection [(0, 1)] 5,
      Payload.codeSection [({ ops := [Op.endOp] }, 3)] 5,
      Payload.memorySection [4] 6,
      Payload.tableSection [4] 6 ] }

/-- A module whose export section carries raw function index 5 while the
function index space has a single entry. -/
def M10 : Module :=
  { payloads := [
      Payload.version 8,
      Payload.functionSection [(0, 1)] 5,
      Payload.codeSection [({ ops := [Op.endOp] }, 3)] 5,
      Payload.exportSection [({ name := "f", kind := ExternalKind.func, index := 5 }, 4)] 6 ] }

/-- Index spaces as the edges pass reconstructs them for `M0`-shaped
modules: one imported function then one declared function, one table. -/
def IND10 : SectionIndices :=
  { type_ := none, code := none, functions := [Id.entry 4 0],
    tables := [Id.entry 2 0], memories := [], globals := [] }

/-- A builder whose data-range index maps `[0, 4)` to a data item. -/
def B6 : ItemsBuilder :=
  { initial_size := 0, items := [], roots := [], edges := [],
    size_added := 0, data_ranges := [(0, 4, Id.entry 9 0)] }

/-- A data section with one active segment whose offset expression starts
with a constant but is not a single constant expression. -/
def D8 : List (DataSeg × Nat) :=
  [({ kind := DataKind.active [Op.i32Const 1, Op.i32Const 2, Op.endOp], data_len := 7 }, 5)]

/-- Bytes accounted for by an items-pass scan state: the retained
sections' consumed sizes plus the captured function- and code-section byte
sizes. -/
def ItemsScan.contribution (st : ItemsScan) : Nat :=
  (st.sections.map fun q => payloadSize q.2).sum +
    (match st.funcSec with
     | some f => f.2.2
     | none => 0) +
    (match st.codeSec with
     | some c => c.2.2
     | none => 0)

/-- A builder extends another by appending items whose total size is
exactly the growth of the running total (the shape every item synthesizer
produces). -/
def buildsOn (b b' : ItemsBuilder) : Prop :=
  ∃ new, b'.items = b.items ++ new ∧ b'.size_added = b.size_added + sumSizes new

/-- A builder keeps another's items and roots unchanged (the shape every
edge synthesizer produces). -/
def sameItems (b b' : ItemsBuilder) : Prop :=
  b'.items = b.items ∧ b'.roots = b.roots

/-- The entry items a finished graph attributes to section position
`idx`. -/
def sectionEntryItems (its : Items) (idx : Nat) : List Item :=
  its.items.filter fun it =>
    match it.id with
    | Id.entry j _ => j == idx
    | Id.section _ => false

/-- The sizes of the section-root items a finished graph holds for section
position `idx`. -/
def sectionRootSizes (its : Items) (idx : Nat) : List Nat :=
  ((its.items.filter fun it => it.id == Id.section idx).map Item.size)

/-! General helper lemmas. -/

theorem sumSizes_nil : sumSizes [] = 0 := rfl

theorem sumSizes_cons (a : Item) (l : List Item) :
    sumSizes (a :: l) = a.size + sumSizes l := by
  simp [sumSizes]

theorem sumSizes_append (l1 l2 : List Item) :
    sumSizes (l1 ++ l2) = sumSizes l1 + sumSizes l2 := by
  simp [sumSizes]

theorem sumSizes_filter_partition (p : Item → Bool) (l : List Item) :
    sumSizes (l.filter p) + sumSizes (l.filter fun a => !(p a)) = sumSizes l := by
  induction l with
  | nil => rfl
  | cons a as ih =>
    by_cases h : p a = true
    · simp [List.filter_cons, h, sumSizes_cons]
      omega
    · have h' : p a = false := by
        cases hh : p a
        · rfl
        · exact absurd hh h
      simp [List.filter_cons, h', sumSizes_cons]
      omega

theorem enumFrom_get? {α : Type} (l : List α) :
    ∀ (n k : Nat), (enumFrom n l).get? k = (l.get? k).map (fun a => (n + k, a)) := by
  induction l with
  | nil => intro n k; cases k <;> rfl
  | cons a as ih =>
    intro n k
    cases k with
    | zero => rfl
    | succ k' =>
      rw [enumFrom]
      show (enumFrom (n + 1) as).get? k' = _
      rw [ih (n + 1) k']
      have : n + 1 + k' = n + (k' + 1) := by omega
      rw [this]
      rfl

theorem zip_get?_of {α β : Type} (l1 : List α) :
    ∀ (l2 : List β) (k : Nat) (a : α) (c : β),
      l1.get? k = some a → l2.get? k = some c → (l1.zip l2).get? k = some (a, c) := by
  induction l1 with
  | nil => intro l2 k a c h1 _; cases k <;> simp at h1
  | cons x xs ih =>
    intro l2 k a c h1 h2
    cases l2 with
    | nil => cases k <;> simp at h2
    | cons y ys =>
      cases k with
      | zero =>
        simp only [List.get?] at h1 h2
        cases h1
        cases h2
        rfl
      | succ k' =>
        simp only [List.get?] at h1 h2
        show (List.zip xs ys).get? k' = _
        exact ih ys k' a c h1 h2

/-! Lemmas and claim theorems about the instruction scan (C6, C9). -/

theorem scanOps_eq_scanSpec_gen (b : ItemsBuilder) (ind : SectionIndices) (bodyId : Id)
    (ops : List Op) :
    ∀ (p : Option Op), scanOps b ind bodyId (cacheOf p) ops = scanSpec b ind bodyId p ops := by
  induction ops with
  | nil => intro p; rfl
  | cons op rest ih =>
    intro p
    have hcons : ∀ q : Op, opConsumed q = true → cacheOf (some q) = none := by
      intro q hq
      simp [cacheOf, hq]
    have hfall : ∀ q : Op, opConsumed q = false → cacheOf (some q) = some q := by
      intro q hq
      simp [cacheOf, hq]
    cases op with
    | call fi =>
      rw [scanOps, scanSpec]
      have := ih (some (Op.call fi))
      rw [hcons (Op.call fi) rfl] at this
      rw [this]
    | callIndirect =>
      rw [scanOps, scanSpec]
      have := ih (some Op.callIndirect)
      rw [hcons Op.callIndirect rfl] at this
      exact this
    | globalGet gi =>
      rw [scanOps, scanSpec]
      have := ih (some (Op.globalGet gi))
      rw [hcons (Op.globalGet gi) rfl] at this
      rw [this]
    | globalSet gi =>
      rw [scanOps, scanSpec]
      have := ih (some (Op.globalSet gi))
      rw [hcons (Op.globalSet gi) rfl] at this
      rw [this]
    | load off =>
      have hrec := ih (some (Op.load off))
      rw [hcons (Op.load off) rfl] at hrec
      cases p with
      | none =>
        rw [show cacheOf none = none from rfl, scanOps, scanSpec, hrec]
        all_goals intro v hv
        all_goals simp at hv
      | some q =>
        cases q with
        | call a =>
          rw [show cacheOf (some (Op.call a)) = none from rfl, scanOps, scanSpec, hrec]
          all_goals intro v hv
          all_goals simp at hv
        | callIndirect =>
          rw [show cacheOf (some Op.callIndirect) = none from rfl, scanOps, scanSpec, hrec]
          all_goals intro v hv
          all_goals simp at hv
        | globalGet a =>
          rw [show cacheOf (some (Op.globalGet a)) = none from rfl, scanOps, scanSpec, hrec]
          all_goals intro v hv
          all_goals simp at hv
        | globalSet a =>
          rw [show cacheOf (some (Op.globalSet a)) = none from rfl, scanOps, scanSpec, hrec]
          all_goals intro v hv
          all_goals simp at hv
        | load a =>
          rw [show cacheOf (some (Op.load a)) = none from rfl, scanOps, scanSpec, hrec]
          all_goals intro v hv
          all_goals simp at hv
        | i32Const a =>
          rw [show cacheOf (some (Op.i32Const a)) = some (Op.i32Const a) from rfl,
            scanOps, scanSpec, hrec]
        | i64Const a =>
          rw [show cacheOf (some (Op.i64Const a)) = some (Op.i64Const a) from rfl,
            scanOps, scanSpec, hrec]
          all_goals intro v hv
          all_goals simp at hv
        | endOp =>
          rw [show cacheOf (some Op.endOp) = some Op.endOp from rfl,
            scanOps, scanSpec, hrec]
          all_goals intro v hv
          all_goals simp at hv
        | other =>
          rw [show cacheOf (some Op.other) = some Op.other from rfl,
            scanOps, scanSpec, hrec]
          all_goals intro v hv
          all_goals simp at hv
    | i32Const v =>
      have := ih (some (Op.i32Const v))
      rw [hfall (Op.i32Const v) rfl] at this
      rw [scanOps, scanSpec, this]
      all_goals simp
    | i64Const v =>
      have := ih (some (Op.i64Const v))
      rw [hfall (Op.i64Const v) rfl] at this
      rw [scanOps, scanSpec, this]
      all_goals simp
    | endOp =>
      have := ih (some Op.endOp)
      rw [hfall Op.endOp rfl] at this
      rw [scanOps, scanSpec, this]
      all_goals simp
    | other =>
      have := ih (some Op.other)
      rw [hfall Op.other rfl] at this
      rw [scanOps, scanSpec, this]
      all_goals simp

/-- C6 (amended): the translated instruction scan is exactly the literal
one-instruction-lookback scan in which only a 32-bit integer constant push
immediately before a load triggers the data-range query at
`constant + static_offset_immediate`: a load preceded by any other
instruction (including a 64-bit constant push) yields no data edge. -/
theorem c6_load_attribution (b : ItemsBuilder) (ind : SectionIndices) (bodyId : Id)
    (ops : List Op) :
    scanOps b ind bodyId none ops = scanSpec b ind bodyId none ops :=
  scanOps_eq_scanSpec_gen b ind bodyId ops none

/-- C6 counterexample: with the interval `[0, 4)` registered to a data
item, the body `i64.const 0; load` satisfies the claim's premise (a
constant-integer push whose address 0 falls inside a registered segment),
and the claim's reading predicts one data edge, but the code emits none:
only `i32.const` is consulted by the lookback. -/
theorem c6_counterexample :
    scanClaim B6 SectionIndices.init (Id.entry 4 0) none [Op.i64Const 0, Op.load 0]
      = Except.ok [(Id.entry 4 0, Id.entry 9 0)] ∧
    scanOps B6 SectionIndices.init (Id.entry 4 0) none [Op.i64Const 0, Op.load 0]
      = Except.ok [] := by
  exact ⟨by decide, by decide⟩

theorem scanOps_only_indirect_gen (b : ItemsBuilder) (ind : SectionIndices) (bodyId : Id)
    (ops : List Op) :
    ∀ (cache : Option Op), (∀ op ∈ ops, op = Op.callIndirect ∨ op = Op.endOp) →
      scanOps b ind bodyId cache ops = Except.ok [] := by
  induction ops with
  | nil => intro cache _; rfl
  | cons op rest ih =>
    intro cache h
    have hop := h op (List.mem_cons_self _ _)
    have hrest : ∀ o ∈ rest, o = Op.callIndirect ∨ o = Op.endOp := by
      intro o ho
      exact h o (List.mem_cons_of_mem _ ho)
    rcases hop with h1 | h1 <;> subst h1
    · rw [scanOps]
      exact ih none hrest
    · rw [scanOps, ih (some Op.endOp) hrest]
      all_goals simp

/-- C9: a code body whose instruction stream consists only of indirect
calls (with the structural `End` operator) produces zero edges from the
scan: indirect calls are never translated into edges. -/
theorem c9_indirect_call_no_edges (b : ItemsBuilder) (ind : SectionIndices) (bodyId : Id)
    (ops : List Op) (h : ∀ op ∈ ops, op = Op.callIndirect ∨ op = Op.endOp) :
    scanOps b ind bodyId none ops = Except.ok [] :=
  scanOps_only_indirect_gen b ind bodyId ops none h

/-- Witness for C9 at the concrete body `call_indirect; end`. -/
theorem c9_indirect_call_no_edges_witness :
    scanOps B6 SectionIndices.init (Id.entry 0 0) none [Op.callIndirect, Op.endOp]
      = Except.ok [] :=
  c9_indirect_call_no_edges B6 SectionIndices.init (Id.entry 0 0)
    [Op.callIndirect, Op.endOp] (by decide)

/-! Claim theorems about the entry points (C7). -/

/-- C7 (amended): the public `parse` entry point delegates unconditionally
to `parse_fallback`, which is the module-format decoder `parse_wasm`; the
magic-number or extension sniff is performed only by `parse_auto` (reached
through `read_and_parse` in `Auto` mode), whose non-wasm branch, in a
build without the alternate decoder, also falls back to the module-format
decoder.  Either way a graph or an error is returned. -/
theorem c7_parse_path (decode : List Nat → Except ParseErr Module)
    (extension : Option String) (data : List Nat) :
    parse decode data = parseWasmB decode data ∧
    (sniff_wasm extension data = true →
      parse_auto decode extension data = parseWasmB decode data) ∧
    (sniff_wasm extension data = false →
      parse_auto decode extension data = parse_fallback decode data ∧
      parse_fallback decode data = parseWasmB decode data) := by
  refine ⟨rfl, ?_, ?_⟩
  · intro h
    simp [parse_auto, h]
  · intro h
    exact ⟨by simp [parse_auto, h], rfl⟩

/-- Witness for C7 at a concrete decode function and buffer without the
wasm magic. -/
theorem c7_parse_path_witness :
    parse (fun _ => Except.ok M0) [1, 2, 3] = parseWasmB (fun _ => Except.ok M0) [1, 2, 3] ∧
    parse_auto (fun _ => Except.ok M0) none [1, 2, 3]
      = parse_fallback (fun _ => Except.ok M0) [1, 2, 3] :=
  ⟨(c7_parse_path (fun _ => Except.ok M0) none [1, 2, 3]).1,
   ((c7_parse_path (fun _ => Except.ok M0) none [1, 2, 3]).2.2 (by decide)).1⟩

/-- C7 counterexample: on a buffer that the sniff rejects as non-wasm,
`parse` still runs the module-format decoder (there is no alternate
decoder behind it), contradicting the claim that `parse` auto-detects the
path and otherwise falls back to an alternate-format decoder. -/
theorem c7_counterexample :
    sniff_wasm none [1, 2, 3] = false ∧
    parse (fun _ => Except.ok M0) [1, 2, 3] = parseWasmCore M0 3 :=
  ⟨by decide, rfl⟩

/-! Builder field lemmas. -/

theorem add_item_items (b : ItemsBuilder) (it : Item) :
    (b.add_item it).items = b.items ++ [it] := rfl

theorem add_item_roots (b : ItemsBuilder) (it : Item) :
    (b.add_item it).roots = b.roots := rfl

theorem add_item_size_added (b : ItemsBuilder) (it : Item) :
    (b.add_item it).size_added = b.size_added + it.size := rfl

theorem add_item_data_ranges (b : ItemsBuilder) (it : Item) :
    (b.add_item it).data_ranges = b.data_ranges := rfl

theorem add_root_items (b : ItemsBuilder) (it : Item) :
    (b.add_root it).items = b.items ++ [it] := rfl

theorem add_root_roots (b : ItemsBuilder) (it : Item) :
    (b.add_root it).roots = b.roots ++ [it.id] := rfl

theorem add_root_size_added (b : ItemsBuilder) (it : Item) :
    (b.add_root it).size_added = b.size_added + it.size := rfl

theorem add_root_data_ranges (b : ItemsBuilder) (it : Item) :
    (b.add_root it).data_ranges = b.data_ranges := rfl

theorem add_edge_items (b : ItemsBuilder) (f t : Id) :
    (b.add_edge f t).items = b.items := rfl

theorem add_edge_roots (b : ItemsBuilder) (f t : Id) :
    (b.add_edge f t).roots = b.roots := rfl

theorem link_data_items (b : ItemsBuilder) (off : Int) (len : Nat) (id : Id) :
    (b.link_data off len id).items = b.items := rfl

theorem link_data_size_added (b : ItemsBuilder) (off : Int) (len : Nat) (id : Id) :
    (b.link_data off len id).size_added = b.size_added := rfl

theorem link_data_data_ranges (b : ItemsBuilder) (off : Int) (len : Nat) (id : Id) :
    (b.link_data off len id).data_ranges = b.data_ranges ++ [(off, len, id)] := rfl

theorem link_data_roots (b : ItemsBuilder) (off : Int) (len : Nat) (id : Id) :
    (b.link_data off len id).roots = b.roots := rfl

/-! Table and memory item synthesis (C5). -/

theorem tableSectionParseItemsAux_chars (idx : Nat) :
    ∀ (entries : List Nat) (i : Nat) (b : ItemsBuilder),
      (tableSectionParseItemsAux idx i entries b).items
        = b.items ++ (enumFrom i entries).map (fun p =>
            { id := Id.entry idx p.1, name := "table[" ++ toString p.1 ++ "]",
              size := p.2, kind := ItemKind.misc }) ∧
      (tableSectionParseItemsAux idx i entries b).roots
        = b.roots ++ (enumFrom i entries).map (fun p => Id.entry idx p.1) := by
  intro entries
  induction entries with
  | nil => intro i b; simp [tableSectionParseItemsAux, enumFrom]
  | cons sz rest ih =>
    intro i b
    rw [tableSectionParseItemsAux]
    rcases ih (i + 1) (b.add_root
      { id := Id.entry idx i, name := "table[" ++ toString i ++ "]",
        size := sz, kind := ItemKind.misc }) with ⟨h1, h2⟩
    constructor
    · rw [h1, add_root_items, enumFrom]
      simp
    · rw [h2, add_root_roots, enumFrom]
      simp

theorem memorySectionParseItemsAux_chars (idx : Nat) :
    ∀ (entries : List Nat) (i : Nat) (b : ItemsBuilder),
      (memorySectionParseItemsAux idx i entries b).items
        = b.items ++ (enumFrom i entries).map (fun p =>
            { id := Id.entry idx p.1, name := "memory[" ++ toString p.1 ++ "]",
              size := p.2, kind := ItemKind.misc }) ∧
      (memorySectionParseItemsAux idx i entries b).roots = b.roots := by
  intro entries
  induction entries with
  | nil => intro i b; simp [memorySectionParseItemsAux, enumFrom]
  | cons sz rest ih =>
    intro i b
    rw [memorySectionParseItemsAux]
    rcases ih (i + 1) (b.add_item
      { id := Id.entry idx i, name := "memory[" ++ toString i ++ "]",
        size := sz, kind := ItemKind.misc }) with ⟨h1, h2⟩
    constructor
    · rw [h1, add_item_items, enumFrom]
      simp
    · rw [h2, add_item_roots]

/-- C5 (amended): item synthesis produces one item per declared table and
per declared memory entry, named `table[i]` and `memory[i]`; the table
entries are classified as roots of the graph, while the memory entries are
added as plain non-root items (only the table side of the claim holds). -/
theorem c5_table_memory_items (b : ItemsBuilder) (idx : Nat) (entries : List Nat) :
    (tableSectionParseItems b idx entries).items
      = b.items ++ (enumFrom 0 entries).map (fun p =>
          { id := Id.entry idx p.1, name := "table[" ++ toString p.1 ++ "]",
            size := p.2, kind := ItemKind.misc }) ∧
    (tableSectionParseItems b idx entries).roots
      = b.roots ++ (enumFrom 0 entries).map (fun p => Id.entry idx p.1) ∧
    (memorySectionParseItems b idx entries).items
      = b.items ++ (enumFrom 0 entries).map (fun p =>
          { id := Id.entry idx p.1, name := "memory[" ++ toString p.1 ++ "]",
            size := p.2, kind := ItemKind.misc }) ∧
    (memorySectionParseItems b idx entries).roots = b.roots := by
  rcases tableSectionParseItemsAux_chars idx entries 0 b with ⟨h1, h2⟩
  rcases memorySectionParseItemsAux_chars idx entries 0 b with ⟨h3, h4⟩
  exact ⟨h1, h2, h3, h4⟩

/-- C5 counterexample: in the module `M5`, the memory entry item
`memory[0]` (identity `entry 4 0`) exists in the successfully parsed graph
but is not a root, whereas the table entry `table[0]` (identity
`entry 5 0`) is a root — contradicting the claim that memory entries are
classified as roots. -/
theorem c5_counterexample :
    exceptIsOk (parseWasmM M5) = true ∧
    ((itemsOfR (parseWasmM M5)).any fun it =>
      it.id == Id.entry 4 0 && it.name == "memory[0]") = true ∧
    (rootsOfR (parseWasmM M5)).contains (Id.entry 4 0) = false ∧
    (rootsOfR (parseWasmM M5)).contains (Id.entry 5 0) = true := by
  exact ⟨by decide, by decide, by decide, by decide⟩

/-! Data-segment registration (C8). -/

theorem dataSectionParseItemsAux_ranges (idx : Nat) (names : Nat → Option String) :
    ∀ (entries : List (DataSeg × Nat)) (i : Nat) (b : ItemsBuilder),
      (∀ p ∈ entries, segReadable p.1 = true) →
      ∃ b', dataSectionParseItemsAux idx names i entries b = Except.ok b' ∧
        b'.data_ranges = b.data_ranges ++ dataRegList idx i entries ∧
        b'.roots = b.roots := by
  intro entries
  induction entries with
  | nil =>
    intro i b _
    exact ⟨b, rfl, by simp [dataRegList], rfl⟩
  | cons e rest ih =>
    intro i b h
    have he : segReadable e.1 = true := h e (List.mem_cons_self _ _)
    have hrest : ∀ p ∈ rest, segReadable p.1 = true := fun p hp =>
      h p (List.mem_cons_of_mem _ hp)
    rcases e with ⟨d, size⟩
    rw [dataSectionParseItemsAux]
    cases hk : d.kind with
    | passive =>
      rcases ih (i + 1) (b.add_item (dataItem idx i names size)) hrest
        with ⟨b', hb', hr, hroots⟩
      refine ⟨b', hb', ?_, ?_⟩
      · rw [hr, add_item_data_ranges, dataRegList, hk]
        simp
      · rw [hroots, add_item_roots]
    | active expr =>
      have hne : expr.head?.isSome = true := by
        rw [segReadable, hk] at he
        cases expr with
        | nil => simp at he
        | cons a as => simp
      cases hhd : expr.head? with
      | none => rw [hhd] at hne; simp at hne
      | some op =>
        cases op with
        | i32Const v =>
          rcases ih (i + 1) ((b.add_item (dataItem idx i names size)).link_data
            (v : Int) d.data_len (Id.entry idx i)) hrest with ⟨b', hb', hr, hroots⟩
          simp only [hhd]
          refine ⟨b', hb', ?_, ?_⟩
          · rw [hr, link_data_data_ranges, add_item_data_ranges, dataRegList, hk]
            simp [hhd]
          · rw [hroots, link_data_roots, add_item_roots]
        | i64Const v =>
          rcases ih (i + 1) ((b.add_item (dataItem idx i names size)).link_data
            (v : Int) d.data_len (Id.entry idx i)) hrest with ⟨b', hb', hr, hroots⟩
          simp only [hhd]
          refine ⟨b', hb', ?_, ?_⟩
          · rw [hr, link_data_data_ranges, add_item_data_ranges, dataRegList, hk]
            simp [hhd]
          · rw [hroots, link_data_roots, add_item_roots]
        | call a =>
          rcases ih (i + 1) (b.add_item (dataItem idx i names size)) hrest
            with ⟨b', hb', hr, hroots⟩
          simp only [hhd]
          refine ⟨b', hb', ?_, ?_⟩
          · rw [hr, add_item_data_ranges, dataRegList, hk]
            simp [hhd]
          · rw [hroots, add_item_roots]
        | callIndirect =>
          rcases ih (i + 1) (b.add_item (dataItem idx i names size)) hrest
            with ⟨b', hb', hr, hroots⟩
          simp only [hhd]
          refine ⟨b', hb', ?_, ?_⟩
          · rw [hr, add_item_data_ranges, dataRegList, hk]
            simp [hhd]
          · rw [hroots, add_item_roots]
        | globalGet a =>
          rcases ih (i + 1) (b.add_item (dataItem idx i names size)) hrest
            with ⟨b', hb', hr, hroots⟩
          simp only [hhd]
          refine ⟨b', hb', ?_, ?_⟩
          · rw [hr, add_item_data_ranges, dataRegList, hk]
            simp [hhd]
          · rw [hroots, add_item_roots]
        | globalSet a =>
          rcases ih (i + 1) (b.add_item (dataItem idx i names size)) hrest
            with ⟨b', hb', hr, hroots⟩
          simp only [hhd]
          refine ⟨b', hb', ?_, ?_⟩
          · rw [hr, add_item_data_ranges, dataRegList, hk]
            simp [hhd]
          · rw [hroots, add_item_roots]
        | load a =>
          rcases ih (i + 1) (b.add_item (dataItem idx i names size)) hrest
            with ⟨b', hb', hr, hroots⟩
          simp only [hhd]
          refine ⟨b', hb', ?_, ?_⟩
          · rw [hr, add_item_data_ranges, dataRegList, hk]
            simp [hhd]
          · rw [hroots, add_item_roots]
        | endOp =>
          rcases ih (i + 1) (b.add_item (dataItem idx i names size)) hrest
            with ⟨b', hb', hr, hroots⟩
          simp only [hhd]
          refine ⟨b', hb', ?_, ?_⟩
          · rw [hr, add_item_data_ranges, dataRegList, hk]
            simp [hhd]
          · rw [hroots, add_item_roots]
        | other =>
          rcases ih (i + 1) (b.add_item (dataItem idx i names size)) hrest
            with ⟨b', hb', hr, hroots⟩
          simp only [hhd]
          refine ⟨b', hb', ?_, ?_⟩
          · rw [hr, add_item_data_ranges, dataRegList, hk]
            simp [hhd]
          · rw [hroots, add_item_roots]

/-- C8 (amended): during data-segment item synthesis, a segment's runtime
offset and byte length are registered in the data-range index exactly when
the segment is active and the first operator read from its initializer is
a 32- or 64-bit integer constant (the remainder of the initializer
expression is never inspected, so being a single constant expression is
not required); active segments whose first operator is not such a constant
are not registered, and an unreadable (empty) initializer aborts the
parse.  `dataRegList` is precisely that registration rule. -/
theorem c8_data_registration (b : ItemsBuilder) (idx : Nat)
    (names : Nat → Option String) (entries : List (DataSeg × Nat))
    (h : ∀ p ∈ entries, segReadable p.1 = true) :
    ∃ b', dataSectionParseItems b idx names entries = Except.ok b' ∧
      b'.data_ranges = b.data_ranges ++ dataRegList idx 0 entries :=
  match dataSectionParseItemsAux_ranges idx names entries 0 b h with
  | ⟨b', hb', hr, _⟩ => ⟨b', hb', hr⟩

/-- Witness for C8 at the concrete data section `D8`. -/
theorem c8_data_registration_witness :
    ∃ b', dataSectionParseItems (ItemsBuilder.new 0) 3 (fun _ => none) D8 = Except.ok b' ∧
      b'.data_ranges = (ItemsBuilder.new 0).data_ranges ++ dataRegList 3 0 D8 :=
  c8_data_registration (ItemsBuilder.new 0) 3 (fun _ => none) D8 (by decide)

/-- C8 counterexample: the active segment of `D8` has initializer
`i32.const 1; i32.const 2; end`, which is not a single constant-integer
expression, yet the synthesizer registers it in the data-range index (at
offset 1, the first constant): registration is keyed on the first operator
only, not on the initializer being a single constant expression. -/
theorem c8_counterexample :
    isSingleConstIntExpr [Op.i32Const 1, Op.i32Const 2, Op.endOp] = false ∧
    dataRangesOfR (dataSectionParseItems (ItemsBuilder.new 0) 3 (fun _ => none) D8)
      = [(1, 7, Id.entry 3 0)] := by
  exact ⟨by decide, by decide⟩

/-! Name-section error handling (C3, C4). -/

theorem insertNamings_error :
    ∀ (pre : List (Except String Naming)) (m : Nat → Option String) (msg : String)
      (post : List (Except String Naming)),
      (∀ x ∈ pre, exceptIsOk x = true) →
      insertNamings m (pre ++ Except.error msg :: post) = Except.error (ParseErr.err msg) := by
  intro pre
  induction pre with
  | nil => intro m msg post _; rfl
  | cons x xs ih =>
    intro m msg post h
    cases x with
    | error e =>
      have := h (Except.error e) (List.mem_cons_self _ _)
      simp [exceptIsOk] at this
    | ok naming =>
      show insertNamings (mapInsert m naming.index naming.name) (xs ++ Except.error msg :: post)
        = Except.error (ParseErr.err msg)
      exact ih _ msg post (fun y hy => h y (List.mem_cons_of_mem _ hy))

theorem insertNamings_shape :
    ∀ (map : List (Except String Naming)) (m : Nat → Option String),
      (∃ f, insertNamings m map = Except.ok f) ∨
      (∃ msg, insertNamings m map = Except.error (ParseErr.err msg)) := by
  intro map
  induction map with
  | nil => intro m; exact Or.inl ⟨m, rfl⟩
  | cons x xs ih =>
    intro m
    cases x with
    | error e => exact Or.inr ⟨e, rfl⟩
    | ok naming => exact ih (mapInsert m naming.index naming.name)

theorem parse_names_section_aux_shape :
    ∀ (subs : List NameEntry) (acc : Names),
      (∃ names, parse_names_section_aux acc subs = Except.ok names) ∨
      (∃ msg, parse_names_section_aux acc subs = Except.error (ParseErr.err msg)) := by
  intro subs
  induction subs with
  | nil => intro acc; exact Or.inl ⟨acc, rfl⟩
  | cons entry rest ih =>
    intro acc
    rcases entry with ⟨sz, sub⟩
    cases sub with
    | error e => exact ih acc
    | ok s =>
      cases s with
      | functionN map =>
        rcases insertNamings_shape map acc.function_names with ⟨f, hf⟩ | ⟨msg, hf⟩
        · have : parse_names_section_aux acc
              ({ size := sz, sub := Except.ok (NameSub.functionN map) } :: rest)
              = parse_names_section_aux { acc with function_names := f } rest := by
            simp only [parse_names_section_aux, hf]
          rw [this]
          exact ih _
        · have : parse_names_section_aux acc
              ({ size := sz, sub := Except.ok (NameSub.functionN map) } :: rest)
              = Except.error (ParseErr.err msg) := by
            simp only [parse_names_section_aux, hf]
          rw [this]
          exact Or.inr ⟨msg, rfl⟩
      | dataN map =>
        rcases insertNamings_shape map acc.data_names with ⟨f, hf⟩ | ⟨msg, hf⟩
        · have : parse_names_section_aux acc
              ({ size := sz, sub := Except.ok (NameSub.dataN map) } :: rest)
              = parse_names_section_aux { acc with data_names := f } rest := by
            simp only [parse_names_section_aux, hf]
          rw [this]
          exact ih _
        · have : parse_names_section_aux acc
              ({ size := sz, sub := Except.ok (NameSub.dataN map) } :: rest)
              = Except.error (ParseErr.err msg) := by
            simp only [parse_names_section_aux, hf]
          rw [this]
          exact Or.inr ⟨msg, rfl⟩
      | moduleN => exact ih acc
      | localN => exact ih acc
      | labelN => exact ih acc
      | typeN => exact ih acc
      | tableN => exact ih acc
      | memoryN => exact ih acc
      | globalN => exact ih acc
      | elementN => exact ih acc
      | fieldN => exact ih acc
      | tagN => exact ih acc
      | unknownN => exact ih acc

theorem namesPrep_shape (st : ItemsScan) :
    (∃ names, namesPrep st = Except.ok names) ∨
    (∃ msg, namesPrep st = Except.error (ParseErr.err msg)) := by
  rw [namesPrep]
  cases st.names with
  | none => exact Or.inl ⟨Names.init, rfl⟩
  | some subs => exact parse_names_section_aux_shape subs Names.init

/-- C3 (amended): inside the name section, a subsection whose decode
fails, or one of an unrecognized/irrelevant kind, is skipped by both the
name-map collection and the name-section item synthesis, and parsing
continues; however an unparseable individual naming entry inside a
function-names (or data-names) subsection is escalated by
`parse_names_section` and aborts the whole parse with an error. -/
theorem c3_name_section_errors :
    (∀ (acc : Names) (sz : Nat) (e : String) (rest : List NameEntry),
      parse_names_section_aux acc ({ size := sz, sub := Except.error e } :: rest)
        = parse_names_section_aux acc rest) ∧
    (∀ (acc : Names) (sz : Nat) (sub : NameSub) (rest : List NameEntry),
      namesRelevant sub = false →
      parse_names_section_aux acc ({ size := sz, sub := Except.ok sub } :: rest)
        = parse_names_section_aux acc rest) ∧
    (∀ (idx i sz : Nat) (e : String) (rest : List NameEntry) (b : ItemsBuilder),
      nameSectionParseItemsAux idx i ({ size := sz, sub := Except.error e } :: rest) b
        = nameSectionParseItemsAux idx i rest b) ∧
    (∀ (acc : Names) (sz : Nat) (pre : List (Except String Naming)) (msg : String)
      (post : List (Except String Naming)) (rest : List NameEntry),
      (∀ x ∈ pre, exceptIsOk x = true) →
      parse_names_section_aux acc
        ({ size := sz,
           sub := Except.ok (NameSub.functionN (pre ++ Except.error msg :: post)) } :: rest)
        = Except.error (ParseErr.err msg)) := by
  refine ⟨?_, ?_, ?_, ?_⟩
  · intro acc sz e rest
    rfl
  · intro acc sz sub rest h
    cases sub <;> first
      | rfl
      | simp [namesRelevant] at h
  · intro idx i sz e rest b
    rfl
  · intro acc sz pre msg post rest h
    simp only [parse_names_section_aux,
      insertNamings_error pre acc.function_names msg post h]

/-- Witness for C3 at concrete name-section contents: a failed subsection
and a module-name subsection are skipped by the collection, a failed
subsection is skipped by the item synthesis, and a function-names
subsection holding one failed naming aborts with that error. -/
theorem c3_name_section_errors_witness :
    parse_names_section_aux Names.init ({ size := 4, sub := Except.error "bad" } :: [])
      = parse_names_section_aux Names.init [] ∧
    parse_names_section_aux Names.init ({ size := 4, sub := Except.ok NameSub.moduleN } :: [])
      = parse_names_section_aux Names.init [] ∧
    nameSectionParseItemsAux 7 0 ({ size := 4, sub := Except.error "bad" } :: [])
      (ItemsBuilder.new 0) = nameSectionParseItemsAux 7 0 [] (ItemsBuilder.new 0) ∧
    parse_names_section_aux Names.init
      ({ size := 4,
         sub := Except.ok (NameSub.functionN [Except.error "invalid name entry"]) } :: [])
      = Except.error (ParseErr.err "invalid name entry") :=
  ⟨c3_name_section_errors.1 Names.init 4 "bad" [],
   c3_name_section_errors.2.1 Names.init 4 NameSub.moduleN [] (by decide),
   c3_name_section_errors.2.2.1 7 0 4 "bad" [] (ItemsBuilder.new 0),
   c3_name_section_errors.2.2.2 Names.init 4 [] "invalid name entry" [] [] (by simp)⟩

/-- C3 counterexample: the module `M3` is structurally well-formed but its
name section holds a function-names subsection with one unparseable
naming; the whole parse fails with that error, contradicting the claim
that name-section corruption never fails the parse. -/
theorem c3_counterexample :
    parseWasmM M3 = Except.error (ParseErr.err "invalid name entry") := by
  decide

/-- C4: for a module stream containing a function section without a code
section or vice versa, the top-level parse returns an error result — never
an uncaught panic (`ParseErr.fatal`) and never a partial graph — and
whenever the name-map preparation itself succeeds, the error is exactly
the structural-inconsistency message. -/
theorem c4_missing_pair (m : Module) (h : hasFuncSec m ≠ hasCodeSec m) :
    (∃ msg, parseWasmM m = Except.error (ParseErr.err msg)) ∧
    (namesPrepOk m = true →
      parseWasmM m = Except.error (ParseErr.err "function or code section is missing")) := by
  have hnotboth : ¬((scanItems m.payloads ItemsScan.init).funcSec.isSome = true ∧
      (scanItems m.payloads ItemsScan.init).codeSec.isSome = true) := by
    intro hb
    apply h
    rw [hasFuncSec, hasCodeSec, hb.1, hb.2]
  rcases namesPrep_shape (scanItems m.payloads ItemsScan.init) with ⟨names, hn⟩ | ⟨msg, hn⟩
  · have hitems : parseItemsM m (ItemsBuilder.new (moduleLength m))
        = Except.error (ParseErr.err "function or code section is missing") := by
      rw [parseItemsM]
      rw [hn]
      cases hf : (scanItems m.payloads ItemsScan.init).funcSec with
      | none =>
        cases hc : (scanItems m.payloads ItemsScan.init).codeSec with
        | none => rfl
        | some c => rfl
      | some f =>
        cases hc : (scanItems m.payloads ItemsScan.init).codeSec with
        | none => rfl
        | some c =>
          exact absurd ⟨by rw [hf]; rfl, by rw [hc]; rfl⟩ hnotboth
    have hw : parseWasmM m
        = Except.error (ParseErr.err "function or code section is missing") := by
      rw [parseWasmM, parseWasmCore, hitems]
    exact ⟨⟨"function or code section is missing", hw⟩, fun _ => hw⟩
  · have hitems : parseItemsM m (ItemsBuilder.new (moduleLength m))
        = Except.error (ParseErr.err msg) := by
      rw [parseItemsM]
      rw [hn]
    have hw : parseWasmM m = Except.error (ParseErr.err msg) := by
      rw [parseWasmM, parseWasmCore, hitems]
    refine ⟨⟨msg, hw⟩, ?_⟩
    intro hok
    rw [namesPrepOk, hn] at hok
    simp [exceptIsOk] at hok

/-- Witness for C4 at the concrete module `M4` (a function section with no
code section). -/
theorem c4_missing_pair_witness :
    (∃ msg, parseWasmM M4 = Except.error (ParseErr.err msg)) ∧
    parseWasmM M4 = Except.error (ParseErr.err "function or code section is missing") :=
  ⟨(c4_missing_pair M4 (by decide)).1,
   (c4_missing_pair M4 (by decide)).2 (by decide)⟩

/-! Unguarded index resolution (C10). -/

theorem get?_of_lt {α : Type} (l : List α) (n : Nat) (h : n < l.length) :
    ∃ a, l.get? n = some a := by
  cases hg : l.get? n with
  | none =>
    rw [List.get?_eq_none] at hg
    omega
  | some a => exact ⟨a, rfl⟩

theorem exportParseEdgesAux_ok (ind : SectionIndices) (idx : Nat) :
    ∀ (entries : List (Export × Nat)) (i : Nat) (b : ItemsBuilder),
      (∀ p ∈ entries, exportIndexOk ind p.1 = true) →
      ∃ b', exportParseEdgesAux ind idx i entries b = Except.ok b' := by
  intro entries
  induction entries with
  | nil => intro i b _; exact ⟨b, rfl⟩
  | cons p rest ih =>
    intro i b h
    have hp := h p (List.mem_cons_self _ _)
    have hrest : ∀ q ∈ rest, exportIndexOk ind q.1 = true := fun q hq =>
      h q (List.mem_cons_of_mem _ hq)
    rcases p with ⟨exp, sz⟩
    rcases exp with ⟨nm, kind, index⟩
    cases kind with
    | func =>
      simp only [exportIndexOk, decide_eq_true_eq] at hp
      rcases get?_of_lt ind.functions index hp with ⟨t, ht⟩
      rcases ih (i + 1) (b.add_edge (Id.entry idx i) t) hrest with ⟨b', hb'⟩
      exact ⟨b', by simp only [exportParseEdgesAux, ht, hb']⟩
    | table =>
      simp only [exportIndexOk, decide_eq_true_eq] at hp
      rcases get?_of_lt ind.tables index hp with ⟨t, ht⟩
      rcases ih (i + 1) (b.add_edge (Id.entry idx i) t) hrest with ⟨b', hb'⟩
      exact ⟨b', by simp only [exportParseEdgesAux, ht, hb']⟩
    | memory =>
      simp only [exportIndexOk, decide_eq_true_eq] at hp
      rcases get?_of_lt ind.memories index hp with ⟨t, ht⟩
      rcases ih (i + 1) (b.add_edge (Id.entry idx i) t) hrest with ⟨b', hb'⟩
      exact ⟨b', by simp only [exportParseEdgesAux, ht, hb']⟩
    | global =>
      simp only [exportIndexOk, decide_eq_true_eq] at hp
      rcases get?_of_lt ind.globals index hp with ⟨t, ht⟩
      rcases ih (i + 1) (b.add_edge (Id.entry idx i) t) hrest with ⟨b', hb'⟩
      exact ⟨b', by simp only [exportParseEdgesAux, ht, hb']⟩
    | tag =>
      rcases ih (i + 1) b hrest with ⟨b', hb'⟩
      exact ⟨b', by simp only [exportParseEdgesAux, hb']⟩

theorem elementFuncEdges_ok (ind : SectionIndices) (elem_id : Id) :
    ∀ (idxs : List Nat) (b : ItemsBuilder),
      (∀ fi ∈ idxs, fi < ind.functions.length) →
      ∃ b', elementFuncEdges ind elem_id idxs b = Except.ok b' := by
  intro idxs
  induction idxs with
  | nil => intro b _; exact ⟨b, rfl⟩
  | cons fi rest ih =>
    intro b h
    rcases get?_of_lt ind.functions fi (h fi (List.mem_cons_self _ _)) with ⟨t, ht⟩
    rcases ih (b.add_edge elem_id t) (fun q hq => h q (List.mem_cons_of_mem _ hq))
      with ⟨b', hb'⟩
    exact ⟨b', by simp only [elementFuncEdges, ht, hb']⟩

theorem elementParseEdgesAux_ok (ind : SectionIndices) (idx : Nat) :
    ∀ (entries : List (Element × Nat)) (i : Nat) (b : ItemsBuilder),
      (∀ p ∈ entries, elementIndexOk ind p.1 = true) →
      ∃ b', elementParseEdgesAux ind idx i entries b = Except.ok b' := by
  intro entries
  induction entries with
  | nil => intro i b _; exact ⟨b, rfl⟩
  | cons p rest ih =>
    intro i b h
    have hp := h p (List.mem_cons_self _ _)
    have hrest : ∀ q ∈ rest, elementIndexOk ind q.1 = true := fun q hq =>
      h q (List.mem_cons_of_mem _ hq)
    rcases p with ⟨elem, sz⟩
    rcases elem with ⟨kind, items⟩
    rw [elementIndexOk] at hp
    have hsplit : ∀ (x y : Bool), (x && y) = true → x = true ∧ y = true := by decide
    rcases hsplit _ _ hp with ⟨hp1, hp2⟩
    have hfuncs : ∀ (idxs : List Nat), items = ElementItems.functions idxs →
        ∀ fi ∈ idxs, fi < ind.functions.length := by
      intro idxs hitems fi hfi
      subst hitems
      dsimp only at hp2
      have := List.all_eq_true.mp hp2 fi hfi
      simpa using this
    cases kind with
    | active table_index =>
      dsimp only at hp1
      rw [decide_eq_true_eq] at hp1
      rcases get?_of_lt ind.tables (table_index.getD 0) hp1 with ⟨t, ht⟩
      cases items with
      | functions idxs =>
        rcases elementFuncEdges_ok ind (Id.entry idx i) idxs
          (b.add_edge t (Id.entry idx i)) (hfuncs idxs rfl) with ⟨b2, hb2⟩
        rcases ih (i + 1) b2 hrest with ⟨b', hb'⟩
        exact ⟨b', by simp only [elementParseEdgesAux, ht, hb2, hb']⟩
      | expressions =>
        rcases ih (i + 1) (b.add_edge t (Id.entry idx i)) hrest with ⟨b', hb'⟩
        exact ⟨b', by simp only [elementParseEdgesAux, ht, hb']⟩
    | passive =>
      cases items with
      | functions idxs =>
        rcases elementFuncEdges_ok ind (Id.entry idx i) idxs b (hfuncs idxs rfl)
          with ⟨b2, hb2⟩
        rcases ih (i + 1) b2 hrest with ⟨b', hb'⟩
        exact ⟨b', by simp only [elementParseEdgesAux, hb2, hb']⟩
      | expressions =>
        rcases ih (i + 1) b hrest with ⟨b', hb'⟩
        exact ⟨b', by simp only [elementParseEdgesAux, hb']⟩
    | declared =>
      cases items with
      | functions idxs =>
        rcases elementFuncEdges_ok ind (Id.entry idx i) idxs b (hfuncs idxs rfl)
          with ⟨b2, hb2⟩
        rcases ih (i + 1) b2 hrest with ⟨b', hb'⟩
        exact ⟨b', by simp only [elementParseEdgesAux, hb2, hb']⟩
      | expressions =>
        rcases ih (i + 1) b hrest with ⟨b', hb'⟩
        exact ⟨b', by simp only [elementParseEdgesAux, hb']⟩

theorem scanOps_ok (b : ItemsBuilder) (ind : SectionIndices) (bodyId : Id) :
    ∀ (ops : List Op) (cache : Option Op),
      (∀ op ∈ ops, opIndexOk ind op = true) →
      ∃ es, scanOps b ind bodyId cache ops = Except.ok es := by
  intro ops
  induction ops with
  | nil => intro cache _; exact ⟨[], rfl⟩
  | cons op rest ih =>
    intro cache h
    have hop := h op (List.mem_cons_self _ _)
    have hrest : ∀ o ∈ rest, opIndexOk ind o = true := fun o ho =>
      h o (List.mem_cons_of_mem _ ho)
    cases op with
    | call fi =>
      simp only [opIndexOk, decide_eq_true_eq] at hop
      rcases get?_of_lt ind.functions fi hop with ⟨t, ht⟩
      rcases ih none hrest with ⟨es, hes⟩
      exact ⟨(bodyId, t) :: es, by rw [scanOps, ht, hes]⟩
    | callIndirect =>
      rcases ih none hrest with ⟨es, hes⟩
      exact ⟨es, by rw [scanOps, hes]⟩
    | globalGet gi =>
      simp only [opIndexOk, decide_eq_true_eq] at hop
      rcases get?_of_lt ind.globals gi hop with ⟨t, ht⟩
      rcases ih none hrest with ⟨es, hes⟩
      exact ⟨(bodyId, t) :: es, by rw [scanOps, ht, hes]⟩
    | globalSet gi =>
      simp only [opIndexOk, decide_eq_true_eq] at hop
      rcases get?_of_lt ind.globals gi hop with ⟨t, ht⟩
      rcases ih none hrest with ⟨es, hes⟩
      exact ⟨(bodyId, t) :: es, by rw [scanOps, ht, hes]⟩
    | load off =>
      rcases ih none hrest with ⟨es, hes⟩
      refine ⟨(match cache with
        | some (Op.i32Const value) =>
          match b.get_data (loadAddr value off) with
          | some data_id => [(bodyId, data_id)]
          | none => []
        | _ => []) ++ es, ?_⟩
      cases cache with
      | none =>
        rw [scanOps, hes]
        all_goals simp
      | some q =>
        cases q <;>
          (rw [scanOps, hes]
           all_goals simp)
    | i32Const v =>
      rcases ih (some (Op.i32Const v)) hrest with ⟨es, hes⟩
      exact ⟨es, by rw [scanOps, hes]; all_goals simp⟩
    | i64Const v =>
      rcases ih (some (Op.i64Const v)) hrest with ⟨es, hes⟩
      exact ⟨es, by rw [scanOps, hes]; all_goals simp⟩
    | endOp =>
      rcases ih (some Op.endOp) hrest with ⟨es, hes⟩
      exact ⟨es, by rw [scanOps, hes]; all_goals simp⟩
    | other =>
      rcases ih (some Op.other) hrest with ⟨es, hes⟩
      exact ⟨es, by rw [scanOps, hes]; all_goals simp⟩

/-- C10: edge synthesis resolves raw indices by unguarded list indexing:
under the precondition that every raw index is strictly below the length
of its index space, export, start, element and code-scan resolution all
succeed without the out-of-bounds abort; and the precondition is
necessary — on the concrete module `M10`, whose export references raw
function index 5 in a one-entry function space, the second pass aborts
with the fatal out-of-bounds result rather than returning an error
value. -/
theorem c10_unguarded_indexing :
    (∀ (b : ItemsBuilder) (ind : SectionIndices) (idx : Nat)
      (entries : List (Export × Nat)),
      (∀ p ∈ entries, exportIndexOk ind p.1 = true) →
      ∃ b', exportParseEdges b ind idx entries = Except.ok b') ∧
    (∀ (b : ItemsBuilder) (ind : SectionIndices) (idx fi : Nat),
      fi < ind.functions.length →
      ∃ b', startParseEdges b ind idx fi = Except.ok b') ∧
    (∀ (b : ItemsBuilder) (ind : SectionIndices) (idx : Nat)
      (entries : List (Element × Nat)),
      (∀ p ∈ entries, elementIndexOk ind p.1 = true) →
      ∃ b', elementParseEdges b ind idx entries = Except.ok b') ∧
    (∀ (b : ItemsBuilder) (ind : SectionIndices) (bodyId : Id) (ops : List Op),
      (∀ op ∈ ops, opIndexOk ind op = true) →
      ∃ es, scanOps b ind bodyId none ops = Except.ok es) ∧
    parseWasmM M10 = Except.error (ParseErr.fatal "index out of bounds") := by
  refine ⟨?_, ?_, ?_, ?_, by decide⟩
  · intro b ind idx entries h
    exact exportParseEdgesAux_ok ind idx entries 0 b h
  · intro b ind idx fi h
    rcases get?_of_lt ind.functions fi h with ⟨t, ht⟩
    exact ⟨b.add_edge (Id.section idx) t, by rw [startParseEdges, ht]⟩
  · intro b ind idx entries h
    exact elementParseEdgesAux_ok ind idx entries 0 b h
  · intro b ind bodyId ops h
    exact scanOps_ok b ind bodyId ops none h

/-- Witness for C10: each resolver applied at a concrete in-bounds input
over the index spaces `IND10`. -/
theorem c10_unguarded_indexing_witness :
    (∃ b', exportParseEdges (ItemsBuilder.new 0) IND10 6
      [({ name := "run", kind := ExternalKind.func, index := 0 }, 7)] = Except.ok b') ∧
    (∃ b', startParseEdges (ItemsBuilder.new 0) IND10 8 0 = Except.ok b') ∧
    (∃ b', elementParseEdges (ItemsBuilder.new 0) IND10 9
      [({ kind := ElementKind.active none, items := ElementItems.functions [0] }, 3)]
        = Except.ok b') ∧
    (∃ es, scanOps (ItemsBuilder.new 0) IND10 (Id.entry 4 0) none
      [Op.call 0, Op.endOp] = Except.ok es) :=
  ⟨c10_unguarded_indexing.1 (ItemsBuilder.new 0) IND10 6
      [({ name := "run", kind := ExternalKind.func, index := 0 }, 7)] (by decide),
   c10_unguarded_indexing.2.1 (ItemsBuilder.new 0) IND10 8 0 (by decide),
   c10_unguarded_indexing.2.2.1 (ItemsBuilder.new 0) IND10 9
      [({ kind := ElementKind.active none, items := ElementItems.functions [0] }, 3)]
      (by decide),
   c10_unguarded_indexing.2.2.2.1 (ItemsBuilder.new 0) IND10 (Id.entry 4 0)
      [Op.call 0, Op.endOp] (by decide)⟩

/-! Index-space offsets and name alignment (C2). -/

theorem get?_map' {α β : Type} (f : α → β) (l : List α) :
    ∀ n, (l.map f).get? n = (l.get? n).map f := by
  induction l with
  | nil => intro n; cases n <;> rfl
  | cons a as ih =>
    intro n
    cases n with
    | zero => rfl
    | succ n' => exact ih n'

theorem funcItemsList_get? (fIdx : Nat) (fEntries : List (Nat × Nat)) (k : Nat)
    (ek : Nat × Nat) (hek : fEntries.get? k = some ek) :
    (funcItemsList fIdx fEntries).get? k = some
      { id := Id.entry fIdx k, name := "func[" ++ toString k ++ "]",
        size := ek.2, kind := ItemKind.misc } := by
  rw [funcItemsList, get?_map', enumFrom_get? fEntries 0 k, hek]
  simp

theorem codeItemsList_get? (fIdx cIdx : Nat) (fEntries : List (Nat × Nat))
    (bodies : List (Body × Nat)) (imported : Nat) (names : Nat → Option String)
    (k : Nat) (hk1 : k < bodies.length) (hk2 : k < fEntries.length) :
    ∃ bk ek, bodies.get? k = some bk ∧ fEntries.get? k = some ek ∧
      (codeItemsList fIdx cIdx fEntries bodies imported names).get? k
        = some { id := Id.entry cIdx k,
                 name := match names (k + imported) with
                   | some s => s
                   | none => "code[" ++ toString k ++ "]",
                 size := bk.2 + ek.2,
                 kind := ItemKind.code (match names (k + imported) with
                   | some s => s
                   | none => "code[" ++ toString k ++ "]") } := by
  rcases get?_of_lt bodies k hk1 with ⟨bk, hbk⟩
  rcases get?_of_lt fEntries k hk2 with ⟨ek, hek⟩
  refine ⟨bk, ek, hbk, hek, ?_⟩
  have hz := zip_get?_of bodies (funcItemsList fIdx fEntries) k bk _ hbk
    (funcItemsList_get? fIdx fEntries k ek hek)
  rw [codeItemsList, get?_map', enumFrom_get? _ 0 k, hz]
  simp

theorem importIndices_functions (idx : Nat) :
    ∀ (entries : List (Import × Nat)) (ind : SectionIndices) (i : Nat),
      (importIndices idx ind i entries).functions
        = ind.functions ++ importFuncIdsFrom idx i entries := by
  intro entries
  induction entries with
  | nil => intro ind i; simp [importIndices, importFuncIdsFrom]
  | cons p rest ih =>
    intro ind i
    rcases p with ⟨imp, sz⟩
    rcases imp with ⟨mn, nn, ty⟩
    cases ty <;>
      (rw [importIndices, importFuncIdsFrom, ih]
       simp)

theorem buildIndices_functions :
    ∀ (sections : List (Nat × Payload)) (ind : SectionIndices),
      (∀ q ∈ sections, isFunctionSectionP q.2 = false ∧ isCodeSectionP q.2 = false) →
      ∃ ind', buildIndices sections ind = Except.ok ind' ∧
        ind'.functions = ind.functions ++ listJoinMap importFuncIdsOf sections := by
  intro sections
  induction sections with
  | nil => intro ind _; exact ⟨ind, rfl, by simp [listJoinMap]⟩
  | cons q qs ih =>
    intro ind h
    have hq := h q (List.mem_cons_self _ _)
    have hrest : ∀ r ∈ qs, isFunctionSectionP r.2 = false ∧ isCodeSectionP r.2 = false :=
      fun r hr => h r (List.mem_cons_of_mem _ hr)
    rcases q with ⟨idx, p⟩
    cases p with
    | functionSection entries size =>
      exact absurd hq.1 (by simp [isFunctionSectionP])
    | codeSection bodies hdr =>
      exact absurd hq.2 (by simp [isCodeSectionP])
    | typeSection entries size =>
      rcases ih { ind with type_ := some idx } hrest with ⟨ind', hind', hfun⟩
      refine ⟨ind', by simp only [buildIndices, buildIndicesStep, hind'], ?_⟩
      rw [hfun, listJoinMap, importFuncIdsOf]
      simp
    | importSection entries size =>
      rcases ih (importIndices idx ind 0 entries) hrest with ⟨ind', hind', hfun⟩
      refine ⟨ind', by simp only [buildIndices, buildIndicesStep, hind'], ?_⟩
      rw [hfun, importIndices_functions, listJoinMap, importFuncIdsOf]
      simp
    | globalSection entries size =>
      rcases ih { ind with globals := ind.globals ++
        (List.range entries.length).map (Id.entry idx) } hrest with ⟨ind', hind', hfun⟩
      refine ⟨ind', by simp only [buildIndices, buildIndicesStep, hind'], ?_⟩
      rw [hfun, listJoinMap, importFuncIdsOf]
      simp
    | memorySection entries size =>
      rcases ih { ind with memories := ind.memories ++
        (List.range entries.length).map (Id.entry idx) } hrest with ⟨ind', hind', hfun⟩
      refine ⟨ind', by simp only [buildIndices, buildIndicesStep, hind'], ?_⟩
      rw [hfun, listJoinMap, importFuncIdsOf]
      simp
    | tableSection entries size =>
      rcases ih { ind with tables := ind.tables ++
        (List.range entries.length).map (Id.entry idx) } hrest with ⟨ind', hind', hfun⟩
      refine ⟨ind', by simp only [buildIndices, buildIndicesStep, hind'], ?_⟩
      rw [hfun, listJoinMap, importFuncIdsOf]
      simp
    | version size =>
      rcases ih ind hrest with ⟨ind', hind', hfun⟩
      refine ⟨ind', by simp only [buildIndices, buildIndicesStep, hind'], ?_⟩
      rw [hfun, listJoinMap, importFuncIdsOf]
      simp
    | exportSection entries size =>
      rcases ih ind hrest with ⟨ind', hind', hfun⟩
      refine ⟨ind', by simp only [buildIndices, buildIndicesStep, hind'], ?_⟩
      rw [hfun, listJoinMap, importFuncIdsOf]
      simp
    | startSection func size =>
      rcases ih ind hrest with ⟨ind', hind', hfun⟩
      refine ⟨ind', by simp only [buildIndices, buildIndicesStep, hind'], ?_⟩
      rw [hfun, listJoinMap, importFuncIdsOf]
      simp
    | elementSection entries size =>
      rcases ih ind hrest with ⟨ind', hind', hfun⟩
      refine ⟨ind', by simp only [buildIndices, buildIndicesStep, hind'], ?_⟩
      rw [hfun, listJoinMap, importFuncIdsOf]
      simp
    | dataSection entries size =>
      rcases ih ind hrest with ⟨ind', hind', hfun⟩
      refine ⟨ind', by simp only [buildIndices, buildIndicesStep, hind'], ?_⟩
      rw [hfun, listJoinMap, importFuncIdsOf]
      simp
    | custom nm content size =>
      rcases ih ind hrest with ⟨ind', hind', hfun⟩
      refine ⟨ind', by simp only [buildIndices, buildIndicesStep, hind'], ?_⟩
      rw [hfun, listJoinMap, importFuncIdsOf]
      simp
    | dataCount size =>
      rcases ih ind hrest with ⟨ind', hind', hfun⟩
      refine ⟨ind', by simp only [buildIndices, buildIndicesStep, hind'], ?_⟩
      rw [hfun, listJoinMap, importFuncIdsOf]
      simp

theorem edgesIndices_functions (st : EdgesScan) (fi : Nat) (fe : List (Nat × Nat))
    (ci : Nat) (bs : List (Body × Nat))
    (hf : st.funcSec = some (fi, fe)) (hc : st.codeSec = some (ci, bs))
    (h : ∀ q ∈ st.sections, isFunctionSectionP q.2 = false ∧ isCodeSectionP q.2 = false) :
    ∃ ind, edgesIndices st = Except.ok ind ∧
      ind.functions = listJoinMap importFuncIdsOf st.sections ++
        (List.range fe.length).map (Id.entry ci) ∧
      ind.code = some ci := by
  rcases buildIndices_functions st.sections SectionIndices.init h with ⟨ind0, hb, hfun⟩
  have hres : edgesIndices st = Except.ok
      { ind0 with code := some ci,
                  functions := ind0.functions ++ (List.range fe.length).map (Id.entry ci) } := by
    simp only [edgesIndices, hb, hf, hc]
  refine ⟨_, hres, ?_, rfl⟩
  show ind0.functions ++ (List.range fe.length).map (Id.entry ci) = _
  rw [hfun]
  simp [SectionIndices.init]

theorem exportParseEdgesAux_ext (ind : SectionIndices) (idx : Nat) :
    ∀ (entries : List (Export × Nat)) (i : Nat) (b b' : ItemsBuilder),
      exportParseEdgesAux ind idx i entries b = Except.ok b' →
      ∃ es, b'.edges = b.edges ++ es := by
  intro entries
  induction entries with
  | nil =>
    intro i b b' hb
    cases hb
    exact ⟨[], by simp⟩
  | cons p rest ih =>
    intro i b b' hb
    rcases p with ⟨exp, sz⟩
    rcases exp with ⟨nm, kind, index⟩
    cases kind with
    | func =>
      cases hget : ind.functions.get? index with
      | none =>
        simp only [exportParseEdgesAux, hget] at hb
        exact absurd hb (by simp)
      | some t =>
        simp only [exportParseEdgesAux, hget] at hb
        rcases ih (i + 1) _ b' hb with ⟨es, hes⟩
        exact ⟨(Id.entry idx i, t) :: es, by rw [hes]; simp [ItemsBuilder.add_edge]⟩
    | table =>
      cases hget : ind.tables.get? index with
      | none =>
        simp only [exportParseEdgesAux, hget] at hb
        exact absurd hb (by simp)
      | some t =>
        simp only [exportParseEdgesAux, hget] at hb
        rcases ih (i + 1) _ b' hb with ⟨es, hes⟩
        exact ⟨(Id.entry idx i, t) :: es, by rw [hes]; simp [ItemsBuilder.add_edge]⟩
    | memory =>
      cases hget : ind.memories.get? index with
      | none =>
        simp only [exportParseEdgesAux, hget] at hb
        exact absurd hb (by simp)
      | some t =>
        simp only [exportParseEdgesAux, hget] at hb
        rcases ih (i + 1) _ b' hb with ⟨es, hes⟩
        exact ⟨(Id.entry idx i, t) :: es, by rw [hes]; simp [ItemsBuilder.add_edge]⟩
    | global =>
      cases hget : ind.globals.get? index with
      | none =>
        simp only [exportParseEdgesAux, hget] at hb
        exact absurd hb (by simp)
      | some t =>
        simp only [exportParseEdgesAux, hget] at hb
        rcases ih (i + 1) _ b' hb with ⟨es, hes⟩
        exact ⟨(Id.entry idx i, t) :: es, by rw [hes]; simp [ItemsBuilder.add_edge]⟩
    | tag =>
      simp only [exportParseEdgesAux] at hb
      exact ih (i + 1) b b' hb

theorem exportParseEdgesAux_mem (ind : SectionIndices) (idx : Nat) :
    ∀ (entries : List (Export × Nat)) (i : Nat) (b : ItemsBuilder) (n : Nat)
      (exp : Export) (sz : Nat) (t : Id),
      (∀ p ∈ entries, exportIndexOk ind p.1 = true) →
      entries.get? n = some (exp, sz) → exp.kind = ExternalKind.func →
      ind.functions.get? exp.index = some t →
      ∃ b', exportParseEdgesAux ind idx i entries b = Except.ok b' ∧
        (Id.entry idx (i + n), t) ∈ b'.edges := by
  intro entries
  induction entries with
  | nil =>
    intro i b n exp sz t _ hn
    cases n <;> simp at hn
  | cons p rest ih =>
    intro i b n exp sz t h hn hkind ht
    have hrest : ∀ q ∈ rest, exportIndexOk ind q.1 = true := fun q hq =>
      h q (List.mem_cons_of_mem _ hq)
    cases n with
    | zero =>
      simp only [List.get?] at hn
      cases hn
      rcases exp with ⟨enm, ekind, eindex⟩
      cases hkind
      rcases exportParseEdgesAux_ok ind idx rest (i + 1)
        (b.add_edge (Id.entry idx i) t) hrest with ⟨b', hb'⟩
      rcases exportParseEdgesAux_ext ind idx rest (i + 1) _ b' hb' with ⟨es, hes⟩
      refine ⟨b', ?_, ?_⟩
      · simp only [exportParseEdgesAux, ht, hb']
      · rw [hes]
        simp [ItemsBuilder.add_edge]
    | succ n' =>
      simp only [List.get?] at hn
      rcases p with ⟨exp0, sz0⟩
      rcases exp0 with ⟨enm, ekind, eindex⟩
      have harith : i + 1 + n' = i + (n' + 1) := by omega
      cases ekind with
      | func =>
        have hp := h (⟨enm, ExternalKind.func, eindex⟩, sz0) (List.mem_cons_self _ _)
        simp only [exportIndexOk, decide_eq_true_eq] at hp
        rcases get?_of_lt ind.functions eindex hp with ⟨t0, ht0⟩
        rcases ih (i + 1) (b.add_edge (Id.entry idx i) t0) n' exp sz t hrest hn hkind ht
          with ⟨b', hb', hmem⟩
        rw [harith] at hmem
        exact ⟨b', by simp only [exportParseEdgesAux, ht0]; exact hb', hmem⟩
      | table =>
        have hp := h (⟨enm, ExternalKind.table, eindex⟩, sz0) (List.mem_cons_self _ _)
        simp only [exportIndexOk, decide_eq_true_eq] at hp
        rcases get?_of_lt ind.tables eindex hp with ⟨t0, ht0⟩
        rcases ih (i + 1) (b.add_edge (Id.entry idx i) t0) n' exp sz t hrest hn hkind ht
          with ⟨b', hb', hmem⟩
        rw [harith] at hmem
        exact ⟨b', by simp only [exportParseEdgesAux, ht0]; exact hb', hmem⟩
      | memory =>
        have hp := h (⟨enm, ExternalKind.memory, eindex⟩, sz0) (List.mem_cons_self _ _)
        simp only [exportIndexOk, decide_eq_true_eq] at hp
        rcases get?_of_lt ind.memories eindex hp with ⟨t0, ht0⟩
        rcases ih (i + 1) (b.add_edge (Id.entry idx i) t0) n' exp sz t hrest hn hkind ht
          with ⟨b', hb', hmem⟩
        rw [harith] at hmem
        exact ⟨b', by simp only [exportParseEdgesAux, ht0]; exact hb', hmem⟩
      | global =>
        have hp := h (⟨enm, ExternalKind.global, eindex⟩, sz0) (List.mem_cons_self _ _)
        simp only [exportIndexOk, decide_eq_true_eq] at hp
        rcases get?_of_lt ind.globals eindex hp with ⟨t0, ht0⟩
        rcases ih (i + 1) (b.add_edge (Id.entry idx i) t0) n' exp sz t hrest hn hkind ht
          with ⟨b', hb', hmem⟩
        rw [harith] at hmem
        exact ⟨b', by simp only [exportParseEdgesAux, ht0]; exact hb', hmem⟩
      | tag =>
        rcases ih (i + 1) b n' exp sz t hrest hn hkind ht with ⟨b', hb', hmem⟩
        rw [harith] at hmem
        exact ⟨b', by simp only [exportParseEdgesAux]; exact hb', hmem⟩

/-- C2: in a module with `N` imported functions and `M` declared
functions, (a) the merged function/code item at position `k` takes its
display name from the name-section map at index `k + N`, verbatim when
present and `code[k]` otherwise; (b) the function index space the edges
pass reconstructs is the imported-function identities, in import order,
followed by one identity per declared function in the code section; and
(c) an export of kind function carrying raw index `j` resolves its edge to
the `j`-th identity of that space. -/
theorem c2_index_space_offsets :
    (∀ (fIdx cIdx : Nat) (fEntries : List (Nat × Nat)) (bodies : List (Body × Nat))
       (imported : Nat) (names : Nat → Option String) (k : Nat),
       k < bodies.length → k < fEntries.length →
       ∃ bk ek, bodies.get? k = some bk ∧ fEntries.get? k = some ek ∧
         (codeItemsList fIdx cIdx fEntries bodies imported names).get? k
           = some { id := Id.entry cIdx k,
                    name := match names (k + imported) with
                      | some s => s
                      | none => "code[" ++ toString k ++ "]",
                    size := bk.2 + ek.2,
                    kind := ItemKind.code (match names (k + imported) with
                      | some s => s
                      | none => "code[" ++ toString k ++ "]") }) ∧
    (∀ (st : EdgesScan) (fi : Nat) (fe : List (Nat × Nat)) (ci : Nat)
       (bs : List (Body × Nat)),
       st.funcSec = some (fi, fe) → st.codeSec = some (ci, bs) →
       (∀ q ∈ st.sections, isFunctionSectionP q.2 = false ∧ isCodeSectionP q.2 = false) →
       ∃ ind, edgesIndices st = Except.ok ind ∧
         ind.functions = listJoinMap importFuncIdsOf st.sections ++
           (List.range fe.length).map (Id.entry ci) ∧
         ind.code = some ci) ∧
    (∀ (ind : SectionIndices) (idx : Nat) (entries : List (Export × Nat)) (n : Nat)
       (exp : Export) (sz : Nat) (t : Id) (b : ItemsBuilder),
       (∀ p ∈ entries, exportIndexOk ind p.1 = true) →
       entries.get? n = some (exp, sz) → exp.kind = ExternalKind.func →
       ind.functions.get? exp.index = some t →
       ∃ b', exportParseEdges b ind idx entries = Except.ok b' ∧
         (Id.entry idx n, t) ∈ b'.edges) := by
  refine ⟨codeItemsList_get?, edgesIndices_functions, ?_⟩
  intro ind idx entries n exp sz t b h hn hkind ht
  have := exportParseEdgesAux_mem ind idx entries 0 b n exp sz t h hn hkind ht
  simpa [exportParseEdges] using this

/-- Witness for C2: the merged item name, the reconstructed function
space, and the export edge on concrete `M0`-shaped data (one imported
function, one declared function named through the name section at index
1, and an export of raw index 1). -/
theorem c2_index_space_offsets_witness :
    (∃ bk ek, ([({ ops := [Op.call 0, Op.endOp] }, 6)] : List (Body × Nat)).get? 0
        = some bk ∧
      ([((0 : Nat), (1 : Nat))] : List (Nat × Nat)).get? 0 = some ek ∧
      (codeItemsList 3 4 [(0, 1)] [({ ops := [Op.call 0, Op.endOp] }, 6)] 1
        (fun j => if j = 1 then some "runfn" else none)).get? 0
        = some { id := Id.entry 4 0,
                 name := match (fun j => if j = 1 then some "runfn" else none) (0 + 1) with
                   | some s => s
                   | none => "code[" ++ toString 0 ++ "]",
                 size := bk.2 + ek.2,
                 kind := ItemKind.code (match
                     (fun j => if j = 1 then some "runfn" else none) (0 + 1) with
                   | some s => s
                   | none => "code[" ++ toString 0 ++ "]") }) ∧
    (∃ ind, edgesIndices (scanEdges M0.payloads EdgesScan.init) = Except.ok ind ∧
      ind.functions = listJoinMap importFuncIdsOf
          (scanEdges M0.payloads EdgesScan.init).sections ++
        (List.range 1).map (Id.entry 4) ∧
      ind.code = some 4) ∧
    (∃ b', exportParseEdges (ItemsBuilder.new 0)
        { type_ := some 1, code := some 4,
          functions := [Id.entry 2 0, Id.entry 4 0], tables := [],
          memories := [], globals := [] } 6
        [({ name := "run", kind := ExternalKind.func, index := 1 }, 7)] = Except.ok b' ∧
      (Id.entry 6 0, Id.entry 4 0) ∈ b'.edges) :=
  ⟨c2_index_space_offsets.1 3 4 [(0, 1)] [({ ops := [Op.call 0, Op.endOp] }, 6)] 1
      (fun j => if j = 1 then some "runfn" else none) 0 (by decide) (by decide),
   c2_index_space_offsets.2.1 (scanEdges M0.payloads EdgesScan.init) 3 [(0, 1)] 4
      [({ ops := [Op.call 0, Op.endOp] }, 6)] (by decide) (by decide) (by decide),
   c2_index_space_offsets.2.2
      { type_ := some 1, code := some 4,
        functions := [Id.entry 2 0, Id.entry 4 0], tables := [],
        memories := [], globals := [] } 6
      [({ name := "run", kind := ExternalKind.func, index := 1 }, 7)] 0
      { name := "run", kind := ExternalKind.func, index := 1 } 7 (Id.entry 4 0)
      (ItemsBuilder.new 0) (by decide) (by decide) (by decide) (by decide)⟩

/-! Size accounting of the items pass (C1). -/

theorem sumSizes_single (it : Item) : sumSizes [it] = it.size := by
  simp [sumSizes]

theorem buildsOn_refl (b : ItemsBuilder) : buildsOn b b :=
  ⟨[], by simp, by simp [sumSizes]⟩

theorem buildsOn_trans {b1 b2 b3 : ItemsBuilder} (h1 : buildsOn b1 b2)
    (h2 : buildsOn b2 b3) : buildsOn b1 b3 := by
  rcases h1 with ⟨n1, hi1, hs1⟩
  rcases h2 with ⟨n2, hi2, hs2⟩
  exact ⟨n1 ++ n2, by rw [hi2, hi1, List.append_assoc],
    by rw [hs2, hs1, sumSizes_append]; omega⟩

theorem buildsOn_add_item (b : ItemsBuilder) (it : Item) :
    buildsOn b (b.add_item it) :=
  ⟨[it], rfl, by rw [sumSizes_single]; rfl⟩

theorem buildsOn_add_root (b : ItemsBuilder) (it : Item) :
    buildsOn b (b.add_root it) :=
  ⟨[it], rfl, by rw [sumSizes_single]; rfl⟩

theorem buildsOn_link_data (b : ItemsBuilder) (off : Int) (len : Nat) (id : Id) :
    buildsOn b (b.link_data off len id) :=
  ⟨[], by simp [ItemsBuilder.link_data], by simp [ItemsBuilder.link_data, sumSizes]⟩

theorem buildsOn_foldl_add_item :
    ∀ (l : List Item) (b : ItemsBuilder), buildsOn b (l.foldl ItemsBuilder.add_item b) := by
  intro l
  induction l with
  | nil => intro b; exact buildsOn_refl b
  | cons it rest ih =>
    intro b
    exact buildsOn_trans (buildsOn_add_item b it) (ih (b.add_item it))

theorem typeSectionParseItemsAux_buildsOn (idx : Nat) :
    ∀ (entries : List (TypeEntry × Nat)) (i : Nat) (b : ItemsBuilder),
      buildsOn b (typeSectionParseItemsAux idx i entries b) := by
  intro entries
  induction entries with
  | nil => intro i b; exact buildsOn_refl b
  | cons e rest ih =>
    intro i b
    rcases e with ⟨ty, size⟩
    cases ty with
    | recGroup => exact ih (i + 1) b
    | funcType ps rs => exact buildsOn_trans (buildsOn_add_item b _) (ih (i + 1) _)
    | arrayType => exact ih (i + 1) b
    | structType => exact ih (i + 1) b
    | contType => exact ih (i + 1) b

theorem importSectionParseItemsAux_buildsOn (idx : Nat) :
    ∀ (entries : List (Import × Nat)) (i : Nat) (b : ItemsBuilder),
      buildsOn b (importSectionParseItemsAux idx i entries b) := by
  intro entries
  induction entries with
  | nil => intro i b; exact buildsOn_refl b
  | cons e rest ih =>
    intro i b
    rcases e with ⟨imp, size⟩
    exact buildsOn_trans (buildsOn_add_item b _) (ih (i + 1) _)

theorem tableSectionParseItemsAux_buildsOn (idx : Nat) :
    ∀ (entries : List Nat) (i : Nat) (b : ItemsBuilder),
      buildsOn b (tableSectionParseItemsAux idx i entries b) := by
  intro entries
  induction entries with
  | nil => intro i b; exact buildsOn_refl b
  | cons e rest ih =>
    intro i b
    exact buildsOn_trans (buildsOn_add_root b _) (ih (i + 1) _)

theorem memorySectionParseItemsAux_buildsOn (idx : Nat) :
    ∀ (entries : List Nat) (i : Nat) (b : ItemsBuilder),
      buildsOn b (memorySectionParseItemsAux idx i entries b) := by
  intro entries
  induction entries with
  | nil => intro i b; exact buildsOn_refl b
  | cons e rest ih =>
    intro i b
    exact buildsOn_trans (buildsOn_add_item b _) (ih (i + 1) _)

theorem globalSectionParseItemsAux_buildsOn (idx : Nat) :
    ∀ (entries : List (ValType × Nat)) (i : Nat) (b : ItemsBuilder),
      buildsOn b (globalSectionParseItemsAux idx i entries b) := by
  intro entries
  induction entries with
  | nil => intro i b; exact buildsOn_refl b
  | cons e rest ih =>
    intro i b
    rcases e with ⟨ty, size⟩
    exact buildsOn_trans (buildsOn_add_item b _) (ih (i + 1) _)

theorem exportSectionParseItemsAux_buildsOn (idx : Nat) :
    ∀ (entries : List (Export × Nat)) (i : Nat) (b : ItemsBuilder),
      buildsOn b (exportSectionParseItemsAux idx i entries b) := by
  intro entries
  induction entries with
  | nil => intro i b; exact buildsOn_refl b
  | cons e rest ih =>
    intro i b
    rcases e with ⟨exp, size⟩
    exact buildsOn_trans (buildsOn_add_root b _) (ih (i + 1) _)

theorem elementSectionParseItemsAux_buildsOn (idx : Nat) :
    ∀ (entries : List (Element × Nat)) (i : Nat) (b : ItemsBuilder),
      buildsOn b (elementSectionParseItemsAux idx i entries b) := by
  intro entries
  induction entries with
  | nil => intro i b; exact buildsOn_refl b
  | cons e rest ih =>
    intro i b
    rcases e with ⟨elem, size⟩
    exact buildsOn_trans (buildsOn_add_item b _) (ih (i + 1) _)

theorem nameSectionParseItemsAux_buildsOn (idx : Nat) :
    ∀ (subs : List NameEntry) (i : Nat) (b : ItemsBuilder),
      buildsOn b (nameSectionParseItemsAux idx i subs b) := by
  intro subs
  induction subs with
  | nil => intro i b; exact buildsOn_refl b
  | cons e rest ih =>
    intro i b
    rcases e with ⟨size, sub⟩
    cases sub with
    | error msg => exact ih i b
    | ok s => exact buildsOn_trans (buildsOn_add_root b _) (ih (i + 1) _)

theorem dataSectionParseItemsAux_buildsOn (idx : Nat) (names : Nat → Option String) :
    ∀ (entries : List (DataSeg × Nat)) (i : Nat) (b b' : ItemsBuilder),
      dataSectionParseItemsAux idx names i entries b = Except.ok b' → buildsOn b b' := by
  intro entries
  induction entries with
  | nil =>
    intro i b b' h
    cases h
    exact buildsOn_refl b
  | cons e rest ih =>
    intro i b b' h
    rcases e with ⟨d, size⟩
    rcases d with ⟨dkind, dlen⟩
    cases dkind with
    | passive =>
      exact buildsOn_trans (buildsOn_add_item b _) (ih (i + 1) _ b' h)
    | active expr =>
      cases hhd : expr.head? with
      | none =>
        simp only [dataSectionParseItemsAux, hhd] at h
        exact absurd h (by simp)
      | some op =>
        cases op <;> simp only [dataSectionParseItemsAux, hhd] at h <;>
          first
          | exact buildsOn_trans (buildsOn_add_item b _)
              (buildsOn_trans (buildsOn_link_data _ _ _ _) (ih (i + 1) _ b' h))
          | exact buildsOn_trans (buildsOn_add_item b _) (ih (i + 1) _ b' h)

theorem sectionParseItemsDispatch_buildsOn (names : Names) (b : ItemsBuilder)
    (idx : Nat) (p : Payload) (b' : ItemsBuilder)
    (h : sectionParseItemsDispatch names b idx p = Except.ok b') : buildsOn b b' := by
  cases p with
  | custom nm content size =>
    cases content with
    | nameSec subs =>
      simp only [sectionParseItemsDispatch] at h
      injection h with h2
      subst h2
      exact nameSectionParseItemsAux_buildsOn idx subs 0 b
    | other data_len =>
      simp only [sectionParseItemsDispatch] at h
      injection h with h2
      subst h2
      exact buildsOn_add_item b _
  | typeSection entries size =>
    simp only [sectionParseItemsDispatch] at h
    injection h with h2
    subst h2
    exact typeSectionParseItemsAux_buildsOn idx entries 0 b
  | importSection entries size =>
    simp only [sectionParseItemsDispatch] at h
    injection h with h2
    subst h2
    exact importSectionParseItemsAux_buildsOn idx entries 0 b
  | tableSection entries size =>
    simp only [sectionParseItemsDispatch] at h
    injection h with h2
    subst h2
    exact tableSectionParseItemsAux_buildsOn idx entries 0 b
  | memorySection entries size =>
    simp only [sectionParseItemsDispatch] at h
    injection h with h2
    subst h2
    exact memorySectionParseItemsAux_buildsOn idx entries 0 b
  | globalSection entries size =>
    simp only [sectionParseItemsDispatch] at h
    injection h with h2
    subst h2
    exact globalSectionParseItemsAux_buildsOn idx entries 0 b
  | exportSection entries size =>
    simp only [sectionParseItemsDispatch] at h
    injection h with h2
    subst h2
    exact exportSectionParseItemsAux_buildsOn idx entries 0 b
  | startSection func size =>
    simp only [sectionParseItemsDispatch] at h
    injection h with h2
    subst h2
    exact buildsOn_refl b
  | elementSection entries size =>
    simp only [sectionParseItemsDispatch] at h
    injection h with h2
    subst h2
    exact elementSectionParseItemsAux_buildsOn idx entries 0 b
  | dataSection entries size =>
    simp only [sectionParseItemsDispatch] at h
    exact dataSectionParseItemsAux_buildsOn idx names.data_names entries 0 b b' h
  | codeSection bodies hdr =>
    simp only [sectionParseItemsDispatch] at h
    exact absurd h (by simp)
  | functionSection entries size =>
    simp only [sectionParseItemsDispatch] at h
    exact absurd h (by simp)
  | version size =>
    simp only [sectionParseItemsDispatch] at h
    injection h with h2
    subst h2
    exact buildsOn_refl b
  | dataCount size =>
    simp only [sectionParseItemsDispatch] at h
    injection h with h2
    subst h2
    exact buildsOn_refl b

theorem funcCodeParseItems_sum (b : ItemsBuilder)
    (funcSec : Nat × List (Nat × Nat) × Nat) (codeSec : Nat × List (Body × Nat) × Nat)
    (imported : Nat) (names : Nat → Option String) (b' : ItemsBuilder)
    (h : funcCodeParseItems b funcSec codeSec imported names = Except.ok b') :
    sumSizes b'.items = sumSizes b.items + (codeSec.2.2 + funcSec.2.2) := by
  rcases buildsOn_foldl_add_item
    (codeItemsList funcSec.1 codeSec.1 funcSec.2.1 codeSec.2.1 imported names) b
    with ⟨new, hni, hns⟩
  simp only [funcCodeParseItems] at h
  split_ifs at h with hle
  · injection h with h2
    subst h2
    rw [add_root_items, hni, List.append_assoc, sumSizes_append, sumSizes_append,
      sumSizes_single]
    dsimp only
    rw [hns] at hle
    rw [hns]
    omega

theorem processSection_root (sizes : Nat → Option Nat) (names : Names)
    (b : ItemsBuilder) (q : Nat × Payload) (s : Nat) (b2 : ItemsBuilder)
    (hs : sizes q.1 = some s)
    (h : processSection sizes names b q = Except.ok b2) :
    ∃ new root, b2.items = b.items ++ new ++ [root] ∧ root.id = Id.section q.1 ∧
      sumSizes new ≤ s ∧ root.size = s - sumSizes new := by
  simp only [processSection] at h
  cases hd : sectionParseItemsDispatch names b q.1 q.2 with
  | error e =>
    rw [hd] at h
    exact absurd h (by simp)
  | ok b1 =>
    rw [hd, hs] at h
    dsimp only at h
    rcases sectionParseItemsDispatch_buildsOn names b q.1 q.2 b1 hd with ⟨new, hni, hns⟩
    split_ifs at h with hle
    injection h with h2
    subst h2
    refine ⟨new,
      { id := Id.section q.1, name := get_section_name q.2,
        size := s - (b1.size_added - b.size_added), kind := ItemKind.misc },
      ?_, rfl, ?_, ?_⟩
    · rw [add_root_items, hni]
    · rw [hns] at hle
      omega
    · show s - (b1.size_added - b.size_added) = s - sumSizes new
      rw [hns]
      omega

theorem processSection_sum (sizes : Nat → Option Nat) (names : Names)
    (b : ItemsBuilder) (q : Nat × Payload) (s : Nat) (b2 : ItemsBuilder)
    (hs : sizes q.1 = some s)
    (h : processSection sizes names b q = Except.ok b2) :
    sumSizes b2.items = sumSizes b.items + s := by
  rcases processSection_root sizes names b q s b2 hs h with ⟨new, root, hitems, _, hle, hsz⟩
  rw [hitems, sumSizes_append, sumSizes_append, sumSizes_single, hsz]
  omega

theorem processSections_sum (sizes : Nat → Option Nat) (names : Names) :
    ∀ (sections : List (Nat × Payload)) (b b2 : ItemsBuilder),
      (∀ q ∈ sections, sizes q.1 = some (payloadSize q.2)) →
      processSections sizes names sections b = Except.ok b2 →
      sumSizes b2.items
        = sumSizes b.items + (sections.map (fun q => payloadSize q.2)).sum := by
  intro sections
  induction sections with
  | nil =>
    intro b b2 _ h
    cases h
    simp
  | cons q qs ih =>
    intro b b2 hsz h
    cases hp : processSection sizes names b q with
    | error e =>
      simp only [processSections, hp] at h
      exact absurd h (by simp)
    | ok b1 =>
      simp only [processSections, hp] at h
      have h1 := processSection_sum sizes names b q (payloadSize q.2) b1
        (hsz q (List.mem_cons_self _ _)) hp
      have h2 := ih b1 b2 (fun r hr => hsz r (List.mem_cons_of_mem _ hr)) h
      rw [h2, h1]
      simp
      omega

theorem insertSize_ne (f : Nat → Option Nat) (k v j : Nat) (h : j ≠ k) :
    insertSize f k v j = f j := by
  simp [insertSize, h]

theorem insertSize_eq (f : Nat → Option Nat) (k v : Nat) :
    insertSize f k v k = some v := by
  simp [insertSize]

theorem insertSizesFrom_lt :
    ∀ (l : List Nat) (f : Nat → Option Nat) (k j : Nat), j < k →
      insertSizesFrom f k l j = f j := by
  intro l
  induction l with
  | nil => intro f k j _; rfl
  | cons s rest ih =>
    intro f k j hj
    rw [insertSizesFrom, ih _ (k + 1) j (by omega), insertSize_ne _ _ _ _ (by omega)]

theorem scanItemsStep_inv (st : ItemsScan) (p : Payload)
    (h : ∀ q ∈ st.sections, q.1 < st.idx ∧ st.sizes q.1 = some (payloadSize q.2)) :
    ∀ q ∈ (scanItemsStep st p).sections, q.1 < (scanItemsStep st p).idx ∧
      (scanItemsStep st p).sizes q.1 = some (payloadSize q.2) := by
  cases p with
  | version size =>
    dsimp only [scanItemsStep]
    intro q hq
    rcases List.mem_append.mp hq with hq | hq
    · rcases h q hq with ⟨h1, h2⟩
      refine ⟨by omega, ?_⟩
      rw [insertSize_ne _ _ _ _ (by omega), h2]
    · rcases List.mem_singleton.mp hq with rfl
      dsimp only
      exact ⟨by omega, insertSize_eq _ _ _⟩
  | typeSection entries size =>
    dsimp only [scanItemsStep]
    intro q hq
    rcases List.mem_append.mp hq with hq | hq
    · rcases h q hq with ⟨h1, h2⟩
      refine ⟨by omega, ?_⟩
      rw [insertSize_ne _ _ _ _ (by omega), h2]
    · rcases List.mem_singleton.mp hq with rfl
      dsimp only
      exact ⟨by omega, insertSize_eq _ _ _⟩
  | importSection entries size =>
    dsimp only [scanItemsStep]
    intro q hq
    rcases List.mem_append.mp hq with hq | hq
    · rcases h q hq with ⟨h1, h2⟩
      refine ⟨by omega, ?_⟩
      rw [insertSize_ne _ _ _ _ (by omega), h2]
    · rcases List.mem_singleton.mp hq with rfl
      dsimp only
      exact ⟨by omega, insertSize_eq _ _ _⟩
  | functionSection entries size =>
    dsimp only [scanItemsStep]
    intro q hq
    rcases h q hq with ⟨h1, h2⟩
    refine ⟨by omega, ?_⟩
    rw [insertSize_ne _ _ _ _ (by omega), h2]
  | tableSection entries size =>
    dsimp only [scanItemsStep]
    intro q hq
    rcases List.mem_append.mp hq with hq | hq
    · rcases h q hq with ⟨h1, h2⟩
      refine ⟨by omega, ?_⟩
      rw [insertSize_ne _ _ _ _ (by omega), h2]
    · rcases List.mem_singleton.mp hq with rfl
      dsimp only
      exact ⟨by omega, insertSize_eq _ _ _⟩
  | memorySection entries size =>
    dsimp only [scanItemsStep]
    intro q hq
    rcases List.mem_append.mp hq with hq | hq
    · rcases h q hq with ⟨h1, h2⟩
      refine ⟨by omega, ?_⟩
      rw [insertSize_ne _ _ _ _ (by omega), h2]
    · rcases List.mem_singleton.mp hq with rfl
      dsimp only
      exact ⟨by omega, insertSize_eq _ _ _⟩
  | globalSection entries size =>
    dsimp only [scanItemsStep]
    intro q hq
    rcases List.mem_append.mp hq with hq | hq
    · rcases h q hq with ⟨h1, h2⟩
      refine ⟨by omega, ?_⟩
      rw [insertSize_ne _ _ _ _ (by omega), h2]
    · rcases List.mem_singleton.mp hq with rfl
      dsimp only
      exact ⟨by omega, insertSize_eq _ _ _⟩
  | exportSection entries size =>
    dsimp only [scanItemsStep]
    intro q hq
    rcases List.mem_append.mp hq with hq | hq
    · rcases h q hq with ⟨h1, h2⟩
      refine ⟨by omega, ?_⟩
      rw [insertSize_ne _ _ _ _ (by omega), h2]
    · rcases List.mem_singleton.mp hq with rfl
      dsimp only
      exact ⟨by omega, insertSize_eq _ _ _⟩
  | startSection func size =>
    dsimp only [scanItemsStep]
    intro q hq
    rcases List.mem_append.mp hq with hq | hq
    · rcases h q hq with ⟨h1, h2⟩
      refine ⟨by omega, ?_⟩
      rw [insertSize_ne _ _ _ _ (by omega), h2]
    · rcases List.mem_singleton.mp hq with rfl
      dsimp only
      exact ⟨by omega, insertSize_eq _ _ _⟩
  | elementSection entries size =>
    dsimp only [scanItemsStep]
    intro q hq
    rcases List.mem_append.mp hq with hq | hq
    · rcases h q hq with ⟨h1, h2⟩
      refine ⟨by omega, ?_⟩
      rw [insertSize_ne _ _ _ _ (by omega), h2]
    · rcases List.mem_singleton.mp hq with rfl
      dsimp only
      exact ⟨by omega, insertSize_eq _ _ _⟩
  | codeSection bodies headerSize =>
    dsimp only [scanItemsStep]
    intro q hq
    rcases h q hq with ⟨h1, h2⟩
    refine ⟨by omega, ?_⟩
    rw [insertSizesFrom_lt _ _ _ _ (by omega), insertSize_ne _ _ _ _ (by omega), h2]
  | dataSection entries size =>
    dsimp only [scanItemsStep]
    intro q hq
    rcases List.mem_append.mp hq with hq | hq
    · rcases h q hq with ⟨h1, h2⟩
      refine ⟨by omega, ?_⟩
      rw [insertSize_ne _ _ _ _ (by omega), h2]
    · rcases List.mem_singleton.mp hq with rfl
      dsimp only
      exact ⟨by omega, insertSize_eq _ _ _⟩
  | custom nm content size =>
    dsimp only [scanItemsStep]
    intro q hq
    rcases List.mem_append.mp hq with hq | hq
    · rcases h q hq with ⟨h1, h2⟩
      refine ⟨by omega, ?_⟩
      rw [insertSize_ne _ _ _ _ (by omega), h2]
    · rcases List.mem_singleton.mp hq with rfl
      dsimp only
      exact ⟨by omega, insertSize_eq _ _ _⟩
  | dataCount size =>
    dsimp only [scanItemsStep]
    intro q hq
    rcases List.mem_append.mp hq with hq | hq
    · rcases h q hq with ⟨h1, h2⟩
      refine ⟨by omega, ?_⟩
      rw [insertSize_ne _ _ _ _ (by omega), h2]
    · rcases List.mem_singleton.mp hq with rfl
      dsimp only
      exact ⟨by omega, insertSize_eq _ _ _⟩

theorem scanItems_spec :
    ∀ (ps : List Payload) (st : ItemsScan),
      (∀ q ∈ st.sections, q.1 < st.idx ∧ st.sizes q.1 = some (payloadSize q.2)) →
      ps.countP isFunctionSectionP + (if st.funcSec.isSome then 1 else 0) ≤ 1 →
      ps.countP isCodeSectionP + (if st.codeSec.isSome then 1 else 0) ≤ 1 →
      (∀ q ∈ (scanItems ps st).sections, q.1 < (scanItems ps st).idx ∧
        (scanItems ps st).sizes q.1 = some (payloadSize q.2)) ∧
      (scanItems ps st).contribution = st.contribution + (ps.map payloadSize).sum := by
  intro ps
  induction ps with
  | nil =>
    intro st h _ _
    exact ⟨h, by simp [scanItems]⟩
  | cons p rest ih =>
    intro st h hf hc
    have hinv' := scanItemsStep_inv st p h
    rw [List.countP_cons] at hf hc
    cases p with
  | version size =>
      have hf' : rest.countP isFunctionSectionP +
          (if (scanItemsStep st (Payload.version size)).funcSec.isSome then 1 else 0) ≤ 1 := by
        have e1 : isFunctionSectionP (Payload.version size) = false := rfl
        have e2 : (scanItemsStep st (Payload.version size)).funcSec = st.funcSec := rfl
        rw [e1] at hf
        have ez : (if (false = true) then (1 : Nat) else 0) = 0 := rfl
        rw [ez] at hf
        rw [e2]
        omega
      have hc' : rest.countP isCodeSectionP +
          (if (scanItemsStep st (Payload.version size)).codeSec.isSome then 1 else 0) ≤ 1 := by
        have e1 : isCodeSectionP (Payload.version size) = false := rfl
        have e2 : (scanItemsStep st (Payload.version size)).codeSec = st.codeSec := rfl
        rw [e1] at hc
        have ez : (if (false = true) then (1 : Nat) else 0) = 0 := rfl
        rw [ez] at hc
        rw [e2]
        omega
      rcases ih (scanItemsStep st (Payload.version size)) hinv' hf' hc' with ⟨ha, hb⟩
      refine ⟨ha, ?_⟩
      rw [scanItems, hb]
      have hstep : (scanItemsStep st (Payload.version size)).contribution
          = st.contribution + payloadSize (Payload.version size) := by
        have e3 : (scanItemsStep st (Payload.version size)).contribution
            = ((st.sections ++ [(st.idx, Payload.version size)]).map (fun q => payloadSize q.2)).sum +
              (match st.funcSec with
               | some f => f.2.2
               | none => 0) +
              (match st.codeSec with
               | some c => c.2.2
               | none => 0) := rfl
        have esing : ((([(st.idx, Payload.version size)] : List (Nat × Payload)).map
            (fun q => payloadSize q.2)).sum) = payloadSize (Payload.version size) := rfl
        rw [e3, List.map_append, List.sum_append, esing, ItemsScan.contribution]
        omega
      rw [hstep, List.map_cons, List.sum_cons]
      omega
  | typeSection entries size =>
      have hf' : rest.countP isFunctionSectionP +
          (if (scanItemsStep st (Payload.typeSection entries size)).funcSec.isSome then 1 else 0) ≤ 1 := by
        have e1 : isFunctionSectionP (Payload.typeSection entries size) = false := rfl
        have e2 : (scanItemsStep st (Payload.typeSection entries size)).funcSec = st.funcSec := rfl
        rw [e1] at hf
        have ez : (if (false = true) then (1 : Nat) else 0) = 0 := rfl
        rw [ez] at hf
        rw [e2]
        omega
      have hc' : rest.countP isCodeSectionP +
          (if (scanItemsStep st (Payload.typeSection entries size)).codeSec.isSome then 1 else 0) ≤ 1 := by
        have e1 : isCodeSectionP (Payload.typeSection entries size) = false := rfl
        have e2 : (scanItemsStep st (Payload.typeSection entries size)).codeSec = st.codeSec := rfl
        rw [e1] at hc
        have ez : (if (false = true) then (1 : Nat) else 0) = 0 := rfl
        rw [ez] at hc
        rw [e2]
        omega
      rcases ih (scanItemsStep st (Payload.typeSection entries size)) hinv' hf' hc' with ⟨ha, hb⟩
      refine ⟨ha, ?_⟩
      rw [scanItems, hb]
      have hstep : (scanItemsStep st (Payload.typeSection entries size)).contribution
          = st.contribution + payloadSize (Payload.typeSection entries size) := by
        have e3 : (scanItemsStep st (Payload.typeSection entries size)).contribution
            = ((st.sections ++ [(st.idx, Payload.typeSection entries size)]).map (fun q => payloadSize q.2)).sum +
              (match st.funcSec with
               | some f => f.2.2
               | none => 0) +
              (match st.codeSec with
               | some c => c.2.2
               | none => 0) := rfl
        have esing : ((([(st.idx, Payload.typeSection entries size)] : List (Nat × Payload)).map
            (fun q => payloadSize q.2)).sum) = payloadSize (Payload.typeSection entries size) := rfl
        rw [e3, List.map_append, List.sum_append, esing, ItemsScan.contribution]
        omega
      rw [hstep, List.map_cons, List.sum_cons]
      omega
  | importSection entries size =>
      have hf' : rest.countP isFunctionSectionP +
          (if (scanItemsStep st (Payload.importSection entries size)).funcSec.isSome then 1 else 0) ≤ 1 := by
        have e1 : isFunctionSectionP (Payload.importSection entries size) = false := rfl
        have e2 : (scanItemsStep st (Payload.importSection entries size)).funcSec = st.funcSec := rfl
        rw [e1] at hf
        have ez : (if (false = true) then (1 : Nat) else 0) = 0 := rfl
        rw [ez] at hf
        rw [e2]
        omega
      have hc' : rest.countP isCodeSectionP +
          (if (scanItemsStep st (Payload.importSection entries size)).codeSec.isSome then 1 else 0) ≤ 1 := by
        have e1 : isCodeSectionP (Payload.importSection entries size) = false := rfl
        have e2 : (scanItemsStep st (Payload.importSection entries size)).codeSec = st.codeSec := rfl
        rw [e1] at hc
        have ez : (if (false = true) then (1 : Nat) else 0) = 0 := rfl
        rw [ez] at hc
        rw [e2]
        omega
      rcases ih (scanItemsStep st (Payload.importSection entries size)) hinv' hf' hc' with ⟨ha, hb⟩
      refine ⟨ha, ?_⟩
      rw [scanItems, hb]
      have hstep : (scanItemsStep st (Payload.importSection entries size)).contribution
          = st.contribution + payloadSize (Payload.importSection entries size) := by
        have e3 : (scanItemsStep st (Payload.importSection entries size)).contribution
            = ((st.sections ++ [(st.idx, Payload.importSection entries size)]).map (fun q => payloadSize q.2)).sum +
              (match st.funcSec with
               | some f => f.2.2
               | none => 0) +
              (match st.codeSec with
               | some c => c.2.2
               | none => 0) := rfl
        have esing : ((([(st.idx, Payload.importSection entries size)] : List (Nat × Payload)).map
            (fun q => payloadSize q.2)).sum) = payloadSize (Payload.importSection entries size) := rfl
        rw [e3, List.map_append, List.sum_append, esing, ItemsScan.contribution]
        omega
      rw [hstep, List.map_cons, List.sum_cons]
      omega
  | functionSection entries size =>
      have hfs0 : st.funcSec = none := by
        cases hx : st.funcSec with
        | none => rfl
        | some f =>
          exfalso
          rw [hx] at hf
          have e1 : isFunctionSectionP (Payload.functionSection entries size) = true := rfl
          rw [e1] at hf
          have eo : (if (true = true) then (1 : Nat) else 0) = 1 := rfl
          rw [eo] at hf
          have es : (if ((some f).isSome = true) then (1 : Nat) else 0) = 1 := rfl
          rw [es] at hf
          omega
      rw [hfs0] at hf
      have hf' : rest.countP isFunctionSectionP +
          (if (scanItemsStep st (Payload.functionSection entries size)).funcSec.isSome
            then 1 else 0) ≤ 1 := by
        have e1 : isFunctionSectionP (Payload.functionSection entries size) = true := rfl
        have e2 : (scanItemsStep st (Payload.functionSection entries size)).funcSec
            = some (st.idx, entries, size) := rfl
        rw [e1] at hf
        have eo : (if (true = true) then (1 : Nat) else 0) = 1 := rfl
        rw [eo] at hf
        have en : (if ((none : Option (Nat × List (Nat × Nat) × Nat)).isSome = true)
            then (1 : Nat) else 0) = 0 := rfl
        rw [en] at hf
        rw [e2]
        have es : (if ((some (st.idx, entries, size)).isSome = true)
            then (1 : Nat) else 0) = 1 := rfl
        rw [es]
        omega
      have hc' : rest.countP isCodeSectionP +
          (if (scanItemsStep st (Payload.functionSection entries size)).codeSec.isSome
            then 1 else 0) ≤ 1 := by
        have e1 : isCodeSectionP (Payload.functionSection entries size) = false := rfl
        have e2 : (scanItemsStep st (Payload.functionSection entries size)).codeSec
            = st.codeSec := rfl
        rw [e1] at hc
        have ez : (if (false = true) then (1 : Nat) else 0) = 0 := rfl
        rw [ez] at hc
        rw [e2]
        omega
      rcases ih (scanItemsStep st (Payload.functionSection entries size)) hinv' hf' hc'
        with ⟨ha, hb⟩
      refine ⟨ha, ?_⟩
      rw [scanItems, hb]
      have hstep : (scanItemsStep st (Payload.functionSection entries size)).contribution
          = st.contribution + payloadSize (Payload.functionSection entries size) := by
        have e3 : (scanItemsStep st (Payload.functionSection entries size)).contribution
            = (st.sections.map (fun q => payloadSize q.2)).sum + size +
              (match st.codeSec with
               | some c => c.2.2
               | none => 0) := rfl
        have e4 : payloadSize (Payload.functionSection entries size) = size := rfl
        rw [e3, e4, ItemsScan.contribution, hfs0]
        have em : (match (none : Option (Nat × List (Nat × Nat) × Nat)) with
            | some f => f.2.2
            | none => 0) = 0 := rfl
        rw [em]
        omega
      rw [hstep, List.map_cons, List.sum_cons]
      omega
  | tableSection entries size =>
      have hf' : rest.countP isFunctionSectionP +
          (if (scanItemsStep st (Payload.tableSection entries size)).funcSec.isSome then 1 else 0) ≤ 1 := by
        have e1 : isFunctionSectionP (Payload.tableSection entries size) = false := rfl
        have e2 : (scanItemsStep st (Payload.tableSection entries size)).funcSec = st.funcSec := rfl
        rw [e1] at hf
        have ez : (if (false = true) then (1 : Nat) else 0) = 0 := rfl
        rw [ez] at hf
        rw [e2]
        omega
      have hc' : rest.countP isCodeSectionP +
          (if (scanItemsStep st (Payload.tableSection entries size)).codeSec.isSome then 1 else 0) ≤ 1 := by
        have e1 : isCodeSectionP (Payload.tableSection entries size) = false := rfl
        have e2 : (scanItemsStep st (Payload.tableSection entries size)).codeSec = st.codeSec := rfl
        rw [e1] at hc
        have ez : (if (false = true) then (1 : Nat) else 0) = 0 := rfl
        rw [ez] at hc
        rw [e2]
        omega
      rcases ih (scanItemsStep st (Payload.tableSection entries size)) hinv' hf' hc' with ⟨ha, hb⟩
      refine ⟨ha, ?_⟩
      rw [scanItems, hb]
      have hstep : (scanItemsStep st (Payload.tableSection entries size)).contribution
          = st.contribution + payloadSize (Payload.tableSection entries size) := by
        have e3 : (scanItemsStep st (Payload.tableSection entries size)).contribution
            = ((st.sections ++ [(st.idx, Payload.tableSection entries size)]).map (fun q => payloadSize q.2)).sum +
              (match st.funcSec with
               | some f => f.2.2
               | none => 0) +
              (match st.codeSec with
               | some c => c.2.2
               | none => 0) := rfl
        have esing : ((([(st.idx, Payload.tableSection entries size)] : List (Nat × Payload)).map
            (fun q => payloadSize q.2)).sum) = payloadSize (Payload.tableSection entries size) := rfl
        rw [e3, List.map_append, List.sum_append, esing, ItemsScan.contribution]
        omega
      rw [hstep, List.map_cons, List.sum_cons]
      omega
  | memorySection entries size =>
      have hf' : rest.countP isFunctionSectionP +
          (if (scanItemsStep st (Payload.memorySection entries size)).funcSec.isSome then 1 else 0) ≤ 1 := by
        have e1 : isFunctionSectionP (Payload.memorySection entries size) = false := rfl
        have e2 : (scanItemsStep st (Payload.memorySection entries size)).funcSec = st.funcSec := rfl
        rw [e1] at hf
        have ez : (if (false = true) then (1 : Nat) else 0) = 0 := rfl
        rw [ez] at hf
        rw [e2]
        omega
      have hc' : rest.countP isCodeSectionP +
          (if (scanItemsStep st (Payload.memorySection entries size)).codeSec.isSome then 1 else 0) ≤ 1 := by
        have e1 : isCodeSectionP (Payload.memorySection entries size) = false := rfl
        have e2 : (scanItemsStep st (Payload.memorySection entries size)).codeSec = st.codeSec := rfl
        rw [e1] at hc
        have ez : (if (false = true) then (1 : Nat) else 0) = 0 := rfl
        rw [ez] at hc
        rw [e2]
        omega
      rcases ih (scanItemsStep st (Payload.memorySection entries size)) hinv' hf' hc' with ⟨ha, hb⟩
      refine ⟨ha, ?_⟩
      rw [scanItems, hb]
      have hstep : (scanItemsStep st (Payload.memorySection entries size)).contribution
          = st.contribution + payloadSize (Payload.memorySection entries size) := by
        have e3 : (scanItemsStep st (Payload.memorySection entries size)).contribution
            = ((st.sections ++ [(st.idx, Payload.memorySection entries size)]).map (fun q => payloadSize q.2)).sum +
              (match st.funcSec with
               | some f => f.2.2
               | none => 0) +
              (match st.codeSec with
               | some c => c.2.2
               | none => 0) := rfl
        have esing : ((([(st.idx, Payload.memorySection entries size)] : List (Nat × Payload)).map
            (fun q => payloadSize q.2)).sum) = payloadSize (Payload.memorySection entries size) := rfl
        rw [e3, List.map_append, List.sum_append, esing, ItemsScan.contribution]
        omega
      rw [hstep, List.map_cons, List.sum_cons]
      omega
  | globalSection entries size =>
      have hf' : rest.countP isFunctionSectionP +
          (if (scanItemsStep st (Payload.globalSection entries size)).funcSec.isSome then 1 else 0) ≤ 1 := by
        have e1 : isFunctionSectionP (Payload.globalSection entries size) = false := rfl
        have e2 : (scanItemsStep st (Payload.globalSection entries size)).funcSec = st.funcSec := rfl
        rw [e1] at hf
        have ez : (if (false = true) then (1 : Nat) else 0) = 0 := rfl
        rw [ez] at hf
        rw [e2]
        omega
      have hc' : rest.countP isCodeSectionP +
          (if (scanItemsStep st (Payload.globalSection entries size)).codeSec.isSome then 1 else 0) ≤ 1 := by
        have e1 : isCodeSectionP (Payload.globalSection entries size) = false := rfl
        have e2 : (scanItemsStep st (Payload.globalSection entries size)).codeSec = st.codeSec := rfl
        rw [e1] at hc
        have ez : (if (false = true) then (1 : Nat) else 0) = 0 := rfl
        rw [ez] at hc
        rw [e2]
        omega
      rcases ih (scanItemsStep st (Payload.globalSection entries size)) hinv' hf' hc' with ⟨ha, hb⟩
      refine ⟨ha, ?_⟩
      rw [scanItems, hb]
      have hstep : (scanItemsStep st (Payload.globalSection entries size)).contribution
          = st.contribution + payloadSize (Payload.globalSection entries size) := by
        have e3 : (scanItemsStep st (Payload.globalSection entries size)).contribution
            = ((st.sections ++ [(st.idx, Payload.globalSection entries size)]).map (fun q => payloadSize q.2)).sum +
              (match st.funcSec with
               | some f => f.2.2
               | none => 0) +
              (match st.codeSec with
               | some c => c.2.2
               | none => 0) := rfl
        have esing : ((([(st.idx, Payload.globalSection entries size)] : List (Nat × Payload)).map
            (fun q => payloadSize q.2)).sum) = payloadSize (Payload.globalSection entries size) := rfl
        rw [e3, List.map_append, List.sum_append, esing, ItemsScan.contribution]
        omega
      rw [hstep, List.map_cons, List.sum_cons]
      omega
  | exportSection entries size =>
      have hf' : rest.countP isFunctionSectionP +
          (if (scanItemsStep st (Payload.exportSection entries size)).funcSec.isSome then 1 else 0) ≤ 1 := by
        have e1 : isFunctionSectionP (Payload.exportSection entries size) = false := rfl
        have e2 : (scanItemsStep st (Payload.exportSection entries size)).funcSec = st.funcSec := rfl
        rw [e1] at hf
        have ez : (if (false = true) then (1 : Nat) else 0) = 0 := rfl
        rw [ez] at hf
        rw [e2]
        omega
      have hc' : rest.countP isCodeSectionP +
          (if (scanItemsStep st (Payload.exportSection entries size)).codeSec.isSome then 1 else 0) ≤ 1 := by
        have e1 : isCodeSectionP (Payload.exportSection entries size) = false := rfl
        have e2 : (scanItemsStep st (Payload.exportSection entries size)).codeSec = st.codeSec := rfl
        rw [e1] at hc
        have ez : (if (false = true) then (1 : Nat) else 0) = 0 := rfl
        rw [ez] at hc
        rw [e2]
        omega
      rcases ih (scanItemsStep st (Payload.exportSection entries size)) hinv' hf' hc' with ⟨ha, hb⟩
      refine ⟨ha, ?_⟩
      rw [scanItems, hb]
      have hstep : (scanItemsStep st (Payload.exportSection entries size)).contribution
          = st.contribution + payloadSize (Payload.exportSection entries size) := by
        have e3 : (scanItemsStep st (Payload.exportSection entries size)).contribution
            = ((st.sections ++ [(st.idx, Payload.exportSection entries size)]).map (fun q => payloadSize q.2)).sum +
              (match st.funcSec with
               | some f => f.2.2
               | none => 0) +
              (match st.codeSec with
               | some c => c.2.2
               | none => 0) := rfl
        have esing : ((([(st.idx, Payload.exportSection entries size)] : List (Nat × Payload)).map
            (fun q => payloadSize q.2)).sum) = payloadSize (Payload.exportSection entries size) := rfl
        rw [e3, List.map_append, List.sum_append, esing, ItemsScan.contribution]
        omega
      rw [hstep, List.map_cons, List.sum_cons]
      omega
  | startSection func size =>
      have hf' : rest.countP isFunctionSectionP +
          (if (scanItemsStep st (Payload.startSection func size)).funcSec.isSome then 1 else 0) ≤ 1 := by
        have e1 : isFunctionSectionP (Payload.startSection func size) = false := rfl
        have e2 : (scanItemsStep st (Payload.startSection func size)).funcSec = st.funcSec := rfl
        rw [e1] at hf
        have ez : (if (false = true) then (1 : Nat) else 0) = 0 := rfl
        rw [ez] at hf
        rw [e2]
        omega
      have hc' : rest.countP isCodeSectionP +
          (if (scanItemsStep st (Payload.startSection func size)).codeSec.isSome then 1 else 0) ≤ 1 := by
        have e1 : isCodeSectionP (Payload.startSection func size) = false := rfl
        have e2 : (scanItemsStep st (Payload.startSection func size)).codeSec = st.codeSec := rfl
        rw [e1] at hc
        have ez : (if (false = true) then (1 : Nat) else 0) = 0 := rfl
        rw [ez] at hc
        rw [e2]
        omega
      rcases ih (scanItemsStep st (Payload.startSection func size)) hinv' hf' hc' with ⟨ha, hb⟩
      refine ⟨ha, ?_⟩
      rw [scanItems, hb]
      have hstep : (scanItemsStep st (Payload.startSection func size)).contribution
          = st.contribution + payloadSize (Payload.startSection func size) := by
        have e3 : (scanItemsStep st (Payload.startSection func size)).contribution
            = ((st.sections ++ [(st.idx, Payload.startSection func size)]).map (fun q => payloadSize q.2)).sum +
              (match st.funcSec with
               | some f => f.2.2
               | none => 0) +
              (match st.codeSec with
               | some c => c.2.2
               | none => 0) := rfl
        have esing : ((([(st.idx, Payload.startSection func size)] : List (Nat × Payload)).map
            (fun q => payloadSize q.2)).sum) = payloadSize (Payload.startSection func size) := rfl
        rw [e3, List.map_append, List.sum_append, esing, ItemsScan.contribution]
        omega
      rw [hstep, List.map_cons, List.sum_cons]
      omega
  | elementSection entries size =>
      have hf' : rest.countP isFunctionSectionP +
          (if (scanItemsStep st (Payload.elementSection entries size)).funcSec.isSome then 1 else 0) ≤ 1 := by
        have e1 : isFunctionSectionP (Payload.elementSection entries size) = false := rfl
        have e2 : (scanItemsStep st (Payload.elementSection entries size)).funcSec = st.funcSec := rfl
        rw [e1] at hf
        have ez : (if (false = true) then (1 : Nat) else 0) = 0 := rfl
        rw [ez] at hf
        rw [e2]
        omega
      have hc' : rest.countP isCodeSectionP +
          (if (scanItemsStep st (Payload.elementSection entries size)).codeSec.isSome then 1 else 0) ≤ 1 := by
        have e1 : isCodeSectionP (Payload.elementSection entries size) = false := rfl
        have e2 : (scanItemsStep st (Payload.elementSection entries size)).codeSec = st.codeSec := rfl
        rw [e1] at hc
        have ez : (if (false = true) then (1 : Nat) else 0) = 0 := rfl
        rw [ez] at hc
        rw [e2]
        omega
      rcases ih (scanItemsStep st (Payload.elementSection entries size)) hinv' hf' hc' with ⟨ha, hb⟩
      refine ⟨ha, ?_⟩
      rw [scanItems, hb]
      have hstep : (scanItemsStep st (Payload.elementSection entries size)).contribution
          = st.contribution + payloadSize (Payload.elementSection entries size) := by
        have e3 : (scanItemsStep st (Payload.elementSection entries size)).contribution
            = ((st.sections ++ [(st.idx, Payload.elementSection entries size)]).map (fun q => payloadSize q.2)).sum +
              (match st.funcSec with
               | some f => f.2.2
               | none => 0) +
              (match st.codeSec with
               | some c => c.2.2
               | none => 0) := rfl
        have esing : ((([(st.idx, Payload.elementSection entries size)] : List (Nat × Payload)).map
            (fun q => payloadSize q.2)).sum) = payloadSize (Payload.elementSection entries size) := rfl
        rw [e3, List.map_append, List.sum_append, esing, ItemsScan.contribution]
        omega
      rw [hstep, List.map_cons, List.sum_cons]
      omega
  | dataSection entries size =>
      have hf' : rest.countP isFunctionSectionP +
          (if (scanItemsStep st (Payload.dataSection entries size)).funcSec.isSome then 1 else 0) ≤ 1 := by
        have e1 : isFunctionSectionP (Payload.dataSection entries size) = false := rfl
        have e2 : (scanItemsStep st (Payload.dataSection entries size)).funcSec = st.funcSec := rfl
        rw [e1] at hf
        have ez : (if (false = true) then (1 : Nat) else 0) = 0 := rfl
        rw [ez] at hf
        rw [e2]
        omega
      have hc' : rest.countP isCodeSectionP +
          (if (scanItemsStep st (Payload.dataSection entries size)).codeSec.isSome then 1 else 0) ≤ 1 := by
        have e1 : isCodeSectionP (Payload.dataSection entries size) = false := rfl
        have e2 : (scanItemsStep st (Payload.dataSection entries size)).codeSec = st.codeSec := rfl
        rw [e1] at hc
        have ez : (if (false = true) then (1 : Nat) else 0) = 0 := rfl
        rw [ez] at hc
        rw [e2]
        omega
      rcases ih (scanItemsStep st (Payload.dataSection entries size)) hinv' hf' hc' with ⟨ha, hb⟩
      refine ⟨ha, ?_⟩
      rw [scanItems, hb]
      have hstep : (scanItemsStep st (Payload.dataSection entries size)).contribution
          = st.contribution + payloadSize (Payload.dataSection entries size) := by
        have e3 : (scanItemsStep st (Payload.dataSection entries size)).contribution
            = ((st.sections ++ [(st.idx, Payload.dataSection entries size)]).map (fun q => payloadSize q.2)).sum +
              (match st.funcSec with
               | some f => f.2.2
               | none => 0) +
              (match st.codeSec with
               | some c => c.2.2
               | none => 0) := rfl
        have esing : ((([(st.idx, Payload.dataSection entries size)] : List (Nat × Payload)).map
            (fun q => payloadSize q.2)).sum) = payloadSize (Payload.dataSection entries size) := rfl
        rw [e3, List.map_append, List.sum_append, esing, ItemsScan.contribution]
        omega
      rw [hstep, List.map_cons, List.sum_cons]
      omega
  | codeSection bodies headerSize =>
      have hcs0 : st.codeSec = none := by
        cases hx : st.codeSec with
        | none => rfl
        | some c =>
          exfalso
          rw [hx] at hc
          have e1 : isCodeSectionP (Payload.codeSection bodies headerSize) = true := rfl
          rw [e1] at hc
          have eo : (if (true = true) then (1 : Nat) else 0) = 1 := rfl
          rw [eo] at hc
          have es : (if ((some c).isSome = true) then (1 : Nat) else 0) = 1 := rfl
          rw [es] at hc
          omega
      rw [hcs0] at hc
      have hf' : rest.countP isFunctionSectionP +
          (if (scanItemsStep st (Payload.codeSection bodies headerSize)).funcSec.isSome
            then 1 else 0) ≤ 1 := by
        have e1 : isFunctionSectionP (Payload.codeSection bodies headerSize) = false := rfl
        have e2 : (scanItemsStep st (Payload.codeSection bodies headerSize)).funcSec
            = st.funcSec := rfl
        rw [e1] at hf
        have ez : (if (false = true) then (1 : Nat) else 0) = 0 := rfl
        rw [ez] at hf
        rw [e2]
        omega
      have hc' : rest.countP isCodeSectionP +
          (if (scanItemsStep st (Payload.codeSection bodies headerSize)).codeSec.isSome
            then 1 else 0) ≤ 1 := by
        have e1 : isCodeSectionP (Payload.codeSection bodies headerSize) = true := rfl
        have e2 : (scanItemsStep st (Payload.codeSection bodies headerSize)).codeSec
            = some (st.idx, bodies, headerSize + (bodies.map (fun b => b.2)).sum) := rfl
        rw [e1] at hc
        have eo : (if (true = true) then (1 : Nat) else 0) = 1 := rfl
        rw [eo] at hc
        have en : (if ((none : Option (Nat × List (Body × Nat) × Nat)).isSome = true)
            then (1 : Nat) else 0) = 0 := rfl
        rw [en] at hc
        rw [e2]
        have es : (if ((some (st.idx, bodies,
            headerSize + (bodies.map (fun b => b.2)).sum)).isSome = true)
            then (1 : Nat) else 0) = 1 := rfl
        rw [es]
        omega
      rcases ih (scanItemsStep st (Payload.codeSection bodies headerSize)) hinv' hf' hc'
        with ⟨ha, hb⟩
      refine ⟨ha, ?_⟩
      rw [scanItems, hb]
      have hstep : (scanItemsStep st (Payload.codeSection bodies headerSize)).contribution
          = st.contribution + payloadSize (Payload.codeSection bodies headerSize) := by
        have e3 : (scanItemsStep st (Payload.codeSection bodies headerSize)).contribution
            = (st.sections.map (fun q => payloadSize q.2)).sum +
              (match st.funcSec with
               | some f => f.2.2
               | none => 0) +
              (headerSize + (bodies.map (fun b => b.2)).sum) := rfl
        have e4 : payloadSize (Payload.codeSection bodies headerSize)
            = headerSize + (bodies.map (fun b => b.2)).sum := rfl
        rw [e3, e4, ItemsScan.contribution, hcs0]
        have em : (match (none : Option (Nat × List (Body × Nat) × Nat)) with
            | some c => c.2.2
            | none => 0) = 0 := rfl
        rw [em]
        omega
      rw [hstep, List.map_cons, List.sum_cons]
      omega
  | custom nm content size =>
      have hf' : rest.countP isFunctionSectionP +
          (if (scanItemsStep st (Payload.custom nm content size)).funcSec.isSome then 1 else 0) ≤ 1 := by
        have e1 : isFunctionSectionP (Payload.custom nm content size) = false := rfl
        have e2 : (scanItemsStep st (Payload.custom nm content size)).funcSec = st.funcSec := rfl
        rw [e1] at hf
        have ez : (if (false = true) then (1 : Nat) else 0) = 0 := rfl
        rw [ez] at hf
        rw [e2]
        omega
      have hc' : rest.countP isCodeSectionP +
          (if (scanItemsStep st (Payload.custom nm content size)).codeSec.isSome then 1 else 0) ≤ 1 := by
        have e1 : isCodeSectionP (Payload.custom nm content size) = false := rfl
        have e2 : (scanItemsStep st (Payload.custom nm content size)).codeSec = st.codeSec := rfl
        rw [e1] at hc
        have ez : (if (false = true) then (1 : Nat) else 0) = 0 := rfl
        rw [ez] at hc
        rw [e2]
        omega
      rcases ih (scanItemsStep st (Payload.custom nm content size)) hinv' hf' hc' with ⟨ha, hb⟩
      refine ⟨ha, ?_⟩
      rw [scanItems, hb]
      have hstep : (scanItemsStep st (Payload.custom nm content size)).contribution
          = st.contribution + payloadSize (Payload.custom nm content size) := by
        have e3 : (scanItemsStep st (Payload.custom nm content size)).contribution
            = ((st.sections ++ [(st.idx, Payload.custom nm content size)]).map (fun q => payloadSize q.2)).sum +
              (match st.funcSec with
               | some f => f.2.2
               | none => 0) +
              (match st.codeSec with
               | some c => c.2.2
               | none => 0) := rfl
        have esing : ((([(st.idx, Payload.custom nm content size)] : List (Nat × Payload)).map
            (fun q => payloadSize q.2)).sum) = payloadSize (Payload.custom nm content size) := rfl
        rw [e3, List.map_append, List.sum_append, esing, ItemsScan.contribution]
        omega
      rw [hstep, List.map_cons, List.sum_cons]
      omega
  | dataCount size =>
      have hf' : rest.countP isFunctionSectionP +
          (if (scanItemsStep st (Payload.dataCount size)).funcSec.isSome then 1 else 0) ≤ 1 := by
        have e1 : isFunctionSectionP (Payload.dataCount size) = false := rfl
        have e2 : (scanItemsStep st (Payload.dataCount size)).funcSec = st.funcSec := rfl
        rw [e1] at hf
        have ez : (if (false = true) then (1 : Nat) else 0) = 0 := rfl
        rw [ez] at hf
        rw [e2]
        omega
      have hc' : rest.countP isCodeSectionP +
          (if (scanItemsStep st (Payload.dataCount size)).codeSec.isSome then 1 else 0) ≤ 1 := by
        have e1 : isCodeSectionP (Payload.dataCount size) = false := rfl
        have e2 : (scanItemsStep st (Payload.dataCount size)).codeSec = st.codeSec := rfl
        rw [e1] at hc
        have ez : (if (false = true) then (1 : Nat) else 0) = 0 := rfl
        rw [ez] at hc
        rw [e2]
        omega
      rcases ih (scanItemsStep st (Payload.dataCount size)) hinv' hf' hc' with ⟨ha, hb⟩
      refine ⟨ha, ?_⟩
      rw [scanItems, hb]
      have hstep : (scanItemsStep st (Payload.dataCount size)).contribution
          = st.contribution + payloadSize (Payload.dataCount size) := by
        have e3 : (scanItemsStep st (Payload.dataCount size)).contribution
            = ((st.sections ++ [(st.idx, Payload.dataCount size)]).map (fun q => payloadSize q.2)).sum +
              (match st.funcSec with
               | some f => f.2.2
               | none => 0) +
              (match st.codeSec with
               | some c => c.2.2
               | none => 0) := rfl
        have esing : ((([(st.idx, Payload.dataCount size)] : List (Nat × Payload)).map
            (fun q => payloadSize q.2)).sum) = payloadSize (Payload.dataCount size) := rfl
        rw [e3, List.map_append, List.sum_append, esing, ItemsScan.contribution]
        omega
      rw [hstep, List.map_cons, List.sum_cons]
      omega


/-! The edges pass never changes the items or the root list: every edge
synthesizer only appends edges.  These lemmas chain that fact up to
`parseEdgesM`. -/

theorem sameItems_refl (b : ItemsBuilder) : sameItems b b :=
  ⟨rfl, rfl⟩

theorem sameItems_trans {b1 b2 b3 : ItemsBuilder} (h1 : sameItems b1 b2)
    (h2 : sameItems b2 b3) : sameItems b1 b3 :=
  ⟨h2.1.trans h1.1, h2.2.trans h1.2⟩

theorem sameItems_add_edge (b : ItemsBuilder) (f t : Id) :
    sameItems b (b.add_edge f t) :=
  ⟨rfl, rfl⟩

theorem foldl_add_edge_sameItems :
    ∀ (es : List (Id × Id)) (b : ItemsBuilder),
      sameItems b (es.foldl (fun bb e => bb.add_edge e.1 e.2) b) := by
  intro es
  induction es with
  | nil => intro b; exact sameItems_refl b
  | cons e rest ih =>
    intro b
    rw [List.foldl_cons]
    exact sameItems_trans (sameItems_add_edge b e.1 e.2) (ih (b.add_edge e.1 e.2))

theorem funcCodeParseEdges_sameItems (b : ItemsBuilder) (ind : SectionIndices)
    (funcSec : Nat × List (Nat × Nat)) (codeSec : Nat × List (Body × Nat))
    (b' : ItemsBuilder) (h : funcCodeParseEdges b ind funcSec codeSec = Except.ok b') :
    sameItems b b' := by
  simp only [funcCodeParseEdges] at h
  cases hb : bodiesEdges b ind codeSec.1 0 codeSec.2 with
  | error e =>
    rw [hb] at h
    exact absurd h (by simp)
  | ok bodyEdges =>
    rw [hb] at h
    dsimp only at h
    injection h with h2
    subst h2
    exact foldl_add_edge_sameItems _ b

theorem exportParseEdgesAux_sameItems (ind : SectionIndices) (idx : Nat) :
    ∀ (entries : List (Export × Nat)) (i : Nat) (b b' : ItemsBuilder),
      exportParseEdgesAux ind idx i entries b = Except.ok b' → sameItems b b' := by
  intro entries
  induction entries with
  | nil =>
    intro i b b' h
    rw [exportParseEdgesAux] at h
    injection h with h2
    subst h2
    exact sameItems_refl b
  | cons p rest ih =>
    intro i b b' h
    rcases p with ⟨exp, sz⟩
    cases hk : exp.kind with
    | func =>
      simp only [exportParseEdgesAux, hk] at h
      cases hg : ind.functions.get? exp.index with
      | none =>
        simp only [hg] at h
        exact absurd h (by simp)
      | some t =>
        simp only [hg] at h
        exact sameItems_trans (sameItems_add_edge b (Id.entry idx i) t)
          (ih (i + 1) (b.add_edge (Id.entry idx i) t) b' h)
    | table =>
      simp only [exportParseEdgesAux, hk] at h
      cases hg : ind.tables.get? exp.index with
      | none =>
        simp only [hg] at h
        exact absurd h (by simp)
      | some t =>
        simp only [hg] at h
        exact sameItems_trans (sameItems_add_edge b (Id.entry idx i) t)
          (ih (i + 1) (b.add_edge (Id.entry idx i) t) b' h)
    | memory =>
      simp only [exportParseEdgesAux, hk] at h
      cases hg : ind.memories.get? exp.index with
      | none =>
        simp only [hg] at h
        exact absurd h (by simp)
      | some t =>
        simp only [hg] at h
        exact sameItems_trans (sameItems_add_edge b (Id.entry idx i) t)
          (ih (i + 1) (b.add_edge (Id.entry idx i) t) b' h)
    | global =>
      simp only [exportParseEdgesAux, hk] at h
      cases hg : ind.globals.get? exp.index with
      | none =>
        simp only [hg] at h
        exact absurd h (by simp)
      | some t =>
        simp only [hg] at h
        exact sameItems_trans (sameItems_add_edge b (Id.entry idx i) t)
          (ih (i + 1) (b.add_edge (Id.entry idx i) t) b' h)
    | tag =>
      simp only [exportParseEdgesAux, hk] at h
      exact ih (i + 1) b b' h

theorem startParseEdges_sameItems (b : ItemsBuilder) (ind : SectionIndices)
    (idx : Nat) (fi : Nat) (b' : ItemsBuilder)
    (h : startParseEdges b ind idx fi = Except.ok b') : sameItems b b' := by
  simp only [startParseEdges] at h
  cases hg : ind.functions.get? fi with
  | none =>
    rw [hg] at h
    exact absurd h (by simp)
  | some t =>
    rw [hg] at h
    injection h with h2
    subst h2
    exact sameItems_add_edge b (Id.section idx) t

theorem elementFuncEdges_sameItems (ind : SectionIndices) (elem_id : Id) :
    ∀ (idxs : List Nat) (b b' : ItemsBuilder),
      elementFuncEdges ind elem_id idxs b = Except.ok b' → sameItems b b' := by
  intro idxs
  induction idxs with
  | nil =>
    intro b b' h
    rw [elementFuncEdges] at h
    injection h with h2
    subst h2
    exact sameItems_refl b
  | cons fi rest ih =>
    intro b b' h
    simp only [elementFuncEdges] at h
    cases hg : ind.functions.get? fi with
    | none =>
      simp only [hg] at h
      exact absurd h (by simp)
    | some t =>
      simp only [hg] at h
      exact sameItems_trans (sameItems_add_edge b elem_id t)
        (ih (b.add_edge elem_id t) b' h)

theorem elementParseEdgesAux_sameItems (ind : SectionIndices) (idx : Nat) :
    ∀ (entries : List (Element × Nat)) (i : Nat) (b b' : ItemsBuilder),
      elementParseEdgesAux ind idx i entries b = Except.ok b' → sameItems b b' := by
  intro entries
  induction entries with
  | nil =>
    intro i b b' h
    rw [elementParseEdgesAux] at h
    injection h with h2
    subst h2
    exact sameItems_refl b
  | cons p rest ih =>
    intro i b b' h
    rcases p with ⟨elem, sz⟩
    rcases elem with ⟨kind, items⟩
    cases kind with
    | active table_index =>
      simp only [elementParseEdgesAux] at h
      cases hg : ind.tables.get? (table_index.getD 0) with
      | none =>
        simp only [hg] at h
        exact absurd h (by simp)
      | some t =>
        simp only [hg] at h
        cases items with
        | functions idxs =>
          cases hf : elementFuncEdges ind (Id.entry idx i) idxs
              (b.add_edge t (Id.entry idx i)) with
          | error e =>
            simp only [hf] at h
            exact absurd h (by simp)
          | ok b2 =>
            simp only [hf] at h
            exact sameItems_trans (sameItems_add_edge b t (Id.entry idx i))
              (sameItems_trans
                (elementFuncEdges_sameItems ind (Id.entry idx i) idxs
                  (b.add_edge t (Id.entry idx i)) b2 hf)
                (ih (i + 1) b2 b' h))
        | expressions =>
          exact sameItems_trans (sameItems_add_edge b t (Id.entry idx i))
            (ih (i + 1) (b.add_edge t (Id.entry idx i)) b' h)
    | passive =>
      simp only [elementParseEdgesAux] at h
      cases items with
      | functions idxs =>
        cases hf : elementFuncEdges ind (Id.entry idx i) idxs b with
        | error e =>
          simp only [hf] at h
          exact absurd h (by simp)
        | ok b2 =>
          simp only [hf] at h
          exact sameItems_trans
            (elementFuncEdges_sameItems ind (Id.entry idx i) idxs b b2 hf)
            (ih (i + 1) b2 b' h)
      | expressions =>
        exact ih (i + 1) b b' h
    | declared =>
      simp only [elementParseEdgesAux] at h
      cases items with
      | functions idxs =>
        cases hf : elementFuncEdges ind (Id.entry idx i) idxs b with
        | error e =>
          simp only [hf] at h
          exact absurd h (by simp)
        | ok b2 =>
          simp only [hf] at h
          exact sameItems_trans
            (elementFuncEdges_sameItems ind (Id.entry idx i) idxs b b2 hf)
            (ih (i + 1) b2 b' h)
      | expressions =>
        exact ih (i + 1) b b' h

theorem sectionParseEdgesDispatch_sameItems (ind : SectionIndices) (b : ItemsBuilder)
    (idx : Nat) (p : Payload) (b' : ItemsBuilder)
    (h : sectionParseEdgesDispatch ind b idx p = Except.ok b') : sameItems b b' := by
  cases p with
  | exportSection entries size =>
    simp only [sectionParseEdgesDispatch, exportParseEdges] at h
    exact exportParseEdgesAux_sameItems ind idx entries 0 b b' h
  | startSection func size =>
    simp only [sectionParseEdgesDispatch] at h
    exact startParseEdges_sameItems b ind idx func b' h
  | elementSection entries size =>
    simp only [sectionParseEdgesDispatch, elementParseEdges] at h
    exact elementParseEdgesAux_sameItems ind idx entries 0 b b' h
  | custom nm content size =>
    simp only [sectionParseEdgesDispatch] at h
    injection h with h2
    subst h2
    exact sameItems_refl b
  | typeSection entries size =>
    simp only [sectionParseEdgesDispatch] at h
    injection h with h2
    subst h2
    exact sameItems_refl b
  | importSection entries size =>
    simp only [sectionParseEdgesDispatch] at h
    injection h with h2
    subst h2
    exact sameItems_refl b
  | tableSection entries size =>
    simp only [sectionParseEdgesDispatch] at h
    injection h with h2
    subst h2
    exact sameItems_refl b
  | memorySection entries size =>
    simp only [sectionParseEdgesDispatch] at h
    injection h with h2
    subst h2
    exact sameItems_refl b
  | globalSection entries size =>
    simp only [sectionParseEdgesDispatch] at h
    injection h with h2
    subst h2
    exact sameItems_refl b
  | dataSection entries size =>
    simp only [sectionParseEdgesDispatch] at h
    injection h with h2
    subst h2
    exact sameItems_refl b
  | codeSection bodies headerSize =>
    simp only [sectionParseEdgesDispatch] at h
    exact absurd h (by simp)
  | functionSection entries size =>
    simp only [sectionParseEdgesDispatch] at h
    exact absurd h (by simp)
  | version size =>
    simp only [sectionParseEdgesDispatch] at h
    injection h with h2
    subst h2
    exact sameItems_refl b
  | dataCount size =>
    simp only [sectionParseEdgesDispatch] at h
    injection h with h2
    subst h2
    exact sameItems_refl b

theorem sectionsParseEdges_sameItems (ind : SectionIndices) :
    ∀ (sections : List (Nat × Payload)) (b b' : ItemsBuilder),
      sectionsParseEdges ind sections b = Except.ok b' → sameItems b b' := by
  intro sections
  induction sections with
  | nil =>
    intro b b' h
    rw [sectionsParseEdges] at h
    injection h with h2
    subst h2
    exact sameItems_refl b
  | cons q qs ih =>
    intro b b' h
    cases hd : sectionParseEdgesDispatch ind b q.1 q.2 with
    | error e =>
      simp only [sectionsParseEdges, hd] at h
      exact absurd h (by simp)
    | ok b1 =>
      simp only [sectionsParseEdges, hd] at h
      exact sameItems_trans
        (sectionParseEdgesDispatch_sameItems ind b q.1 q.2 b1 hd)
        (ih b1 b' h)

theorem parseEdgesM_sameItems (m : Module) (b b' : ItemsBuilder)
    (h : parseEdgesM m b = Except.ok b') : sameItems b b' := by
  rw [parseEdgesM] at h
  cases hi : edgesIndices (scanEdges m.payloads EdgesScan.init) with
  | error e =>
    rw [hi] at h
    exact absurd h (by simp)
  | ok ind =>
    rw [hi] at h
    dsimp only at h
    cases hfs : (scanEdges m.payloads EdgesScan.init).funcSec with
    | none =>
      cases hcs : (scanEdges m.payloads EdgesScan.init).codeSec with
      | none =>
        rw [hfs, hcs] at h
        exact absurd h (by simp)
      | some c =>
        rw [hfs, hcs] at h
        exact absurd h (by simp)
    | some f =>
      cases hcs : (scanEdges m.payloads EdgesScan.init).codeSec with
      | none =>
        rw [hfs, hcs] at h
        exact absurd h (by simp)
      | some c =>
        rw [hfs, hcs] at h
        dsimp only at h
        cases hfc : funcCodeParseEdges b ind f c with
        | error e =>
          rw [hfc] at h
          exact absurd h (by simp)
        | ok b1 =>
          rw [hfc] at h
          dsimp only at h
          exact sameItems_trans (funcCodeParseEdges_sameItems b ind f c b1 hfc)
            (sectionsParseEdges_sameItems ind _ b1 b' h)

/-! Size accounting of the items pass (C1). -/

theorem scanItems_inv :
    ∀ (ps : List Payload) (st : ItemsScan),
      (∀ q ∈ st.sections, q.1 < st.idx ∧ st.sizes q.1 = some (payloadSize q.2)) →
      ∀ q ∈ (scanItems ps st).sections, q.1 < (scanItems ps st).idx ∧
        (scanItems ps st).sizes q.1 = some (payloadSize q.2) := by
  intro ps
  induction ps with
  | nil => intro st h; exact h
  | cons p rest ih =>
    intro st h
    rw [scanItems]
    exact ih (scanItemsStep st p) (scanItemsStep_inv st p h)

theorem parseItemsM_sum (m : Module) (b b1 : ItemsBuilder) (hwf : wfModule m)
    (h : parseItemsM m b = Except.ok b1) :
    sumSizes b1.items = sumSizes b.items + moduleLength m := by
  have hinit : ∀ q ∈ (ItemsScan.init).sections, q.1 < (ItemsScan.init).idx ∧
      (ItemsScan.init).sizes q.1 = some (payloadSize q.2) := by
    intro q hq
    have e : (ItemsScan.init).sections = ([] : List (Nat × Payload)) := rfl
    rw [e] at hq
    exact absurd hq (List.not_mem_nil q)
  have hf0 : m.payloads.countP isFunctionSectionP +
      (if (ItemsScan.init).funcSec.isSome then 1 else 0) ≤ 1 := by
    have e : (if ((ItemsScan.init).funcSec.isSome = true) then (1 : Nat) else 0) = 0 := rfl
    rw [e]
    have hw := hwf.1
    omega
  have hc0 : m.payloads.countP isCodeSectionP +
      (if (ItemsScan.init).codeSec.isSome then 1 else 0) ≤ 1 := by
    have e : (if ((ItemsScan.init).codeSec.isSome = true) then (1 : Nat) else 0) = 0 := rfl
    rw [e]
    have hw := hwf.2
    omega
  rcases scanItems_spec m.payloads ItemsScan.init hinit hf0 hc0 with ⟨hsizes, hcontrib⟩
  rw [parseItemsM] at h
  cases hn : namesPrep (scanItems m.payloads ItemsScan.init) with
  | error e =>
    rw [hn] at h
    exact absurd h (by simp)
  | ok names =>
    rw [hn] at h
    dsimp only at h
    cases hfs : (scanItems m.payloads ItemsScan.init).funcSec with
    | none =>
      cases hcs : (scanItems m.payloads ItemsScan.init).codeSec with
      | none =>
        rw [hfs, hcs] at h
        exact absurd h (by simp)
      | some c =>
        rw [hfs, hcs] at h
        exact absurd h (by simp)
    | some f =>
      cases hcs : (scanItems m.payloads ItemsScan.init).codeSec with
      | none =>
        rw [hfs, hcs] at h
        exact absurd h (by simp)
      | some c =>
        rw [hfs, hcs] at h
        dsimp only at h
        cases hfc : funcCodeParseItems b f c
            (count_imported_functions (scanItems m.payloads ItemsScan.init).sections)
            names.function_names with
        | error e =>
          rw [hfc] at h
          exact absurd h (by simp)
        | ok b' =>
          rw [hfc] at h
          dsimp only at h
          have h1 := funcCodeParseItems_sum b f c
            (count_imported_functions (scanItems m.payloads ItemsScan.init).sections)
            names.function_names b' hfc
          have h2 := processSections_sum (scanItems m.payloads ItemsScan.init).sizes names
            (scanItems m.payloads ItemsScan.init).sections b' b1
            (fun q hq => (hsizes q hq).2) h
          have e0 : (ItemsScan.init).contribution = 0 := rfl
          rw [e0] at hcontrib
          have e3 : (scanItems m.payloads ItemsScan.init).contribution
              = ((scanItems m.payloads ItemsScan.init).sections.map
                  (fun q => payloadSize q.2)).sum +
                (match (scanItems m.payloads ItemsScan.init).funcSec with
                 | some q => q.2.2
                 | none => 0) +
                (match (scanItems m.payloads ItemsScan.init).codeSec with
                 | some q => q.2.2
                 | none => 0) := rfl
          rw [e3, hfs, hcs] at hcontrib
          have em1 : (match (some f : Option (Nat × List (Nat × Nat) × Nat)) with
              | some q => q.2.2
              | none => 0) = f.2.2 := rfl
          have em2 : (match (some c : Option (Nat × List (Body × Nat) × Nat)) with
              | some q => q.2.2
              | none => 0) = c.2.2 := rfl
          rw [em1, em2] at hcontrib
          rw [moduleLength]
          rw [h2, h1]
          omega

theorem processSections_extend (sizes : Nat → Option Nat) (names : Names) :
    ∀ (sections : List (Nat × Payload)) (b b2 : ItemsBuilder),
      (∀ q ∈ sections, sizes q.1 = some (payloadSize q.2)) →
      processSections sizes names sections b = Except.ok b2 →
      ∃ more, b2.items = b.items ++ more := by
  intro sections
  induction sections with
  | nil =>
    intro b b2 _ h
    cases h
    exact ⟨[], by simp⟩
  | cons q qs ih =>
    intro b b2 hsz h
    cases hp : processSection sizes names b q with
    | error e =>
      simp only [processSections, hp] at h
      exact absurd h (by simp)
    | ok b1 =>
      simp only [processSections, hp] at h
      rcases processSection_root sizes names b q (payloadSize q.2) b1
        (hsz q (List.mem_cons_self _ _)) hp with ⟨new, root, hitems, _, _, _⟩
      rcases ih b1 b2 (fun r hr => hsz r (List.mem_cons_of_mem _ hr)) h with ⟨more, hmore⟩
      refine ⟨new ++ [root] ++ more, ?_⟩
      rw [hmore, hitems]
      simp [List.append_assoc]

theorem processSections_roots (sizes : Nat → Option Nat) (names : Names) :
    ∀ (sections : List (Nat × Payload)) (b b2 : ItemsBuilder),
      (∀ q ∈ sections, sizes q.1 = some (payloadSize q.2)) →
      processSections sizes names sections b = Except.ok b2 →
      ∀ q ∈ sections, ∃ pre new post root,
        b2.items = pre ++ new ++ [root] ++ post ∧ root.id = Id.section q.1 ∧
        sumSizes new ≤ payloadSize q.2 ∧ root.size = payloadSize q.2 - sumSizes new := by
  intro sections
  induction sections with
  | nil =>
    intro b b2 _ _ q hq
    exact absurd hq (List.not_mem_nil q)
  | cons q0 qs ih =>
    intro b b2 hsz h q hq
    cases hp : processSection sizes names b q0 with
    | error e =>
      simp only [processSections, hp] at h
      exact absurd h (by simp)
    | ok b1 =>
      simp only [processSections, hp] at h
      rcases List.mem_cons.mp hq with rfl | hq'
      · rcases processSection_root sizes names b q (payloadSize q.2) b1
          (hsz q (List.mem_cons_self _ _)) hp with ⟨new, root, hitems, hid, hle, hsz2⟩
        rcases processSections_extend sizes names qs b1 b2
          (fun r hr => hsz r (List.mem_cons_of_mem _ hr)) h with ⟨more, hmore⟩
        refine ⟨b.items, new, more, root, ?_, hid, hle, hsz2⟩
        rw [hmore, hitems]
      · exact ih b1 b2 (fun r hr => hsz r (List.mem_cons_of_mem _ hr)) h q hq'

theorem parseItemsM_roots (m : Module) (b b1 : ItemsBuilder)
    (h : parseItemsM m b = Except.ok b1) :
    ∀ q ∈ (scanItems m.payloads ItemsScan.init).sections,
      ∃ pre new post root,
        b1.items = pre ++ new ++ [root] ++ post ∧ root.id = Id.section q.1 ∧
        sumSizes new ≤ payloadSize q.2 ∧ root.size = payloadSize q.2 - sumSizes new := by
  have hinit : ∀ q ∈ (ItemsScan.init).sections, q.1 < (ItemsScan.init).idx ∧
      (ItemsScan.init).sizes q.1 = some (payloadSize q.2) := by
    intro q hq
    have e : (ItemsScan.init).sections = ([] : List (Nat × Payload)) := rfl
    rw [e] at hq
    exact absurd hq (List.not_mem_nil q)
  have hsizes := scanItems_inv m.payloads ItemsScan.init hinit
  rw [parseItemsM] at h
  cases hn : namesPrep (scanItems m.payloads ItemsScan.init) with
  | error e =>
    rw [hn] at h
    exact absurd h (by simp)
  | ok names =>
    rw [hn] at h
    dsimp only at h
    cases hfs : (scanItems m.payloads ItemsScan.init).funcSec with
    | none =>
      cases hcs : (scanItems m.payloads ItemsScan.init).codeSec with
      | none =>
        rw [hfs, hcs] at h
        exact absurd h (by simp)
      | some c =>
        rw [hfs, hcs] at h
        exact absurd h (by simp)
    | some f =>
      cases hcs : (scanItems m.payloads ItemsScan.init).codeSec with
      | none =>
        rw [hfs, hcs] at h
        exact absurd h (by simp)
      | some c =>
        rw [hfs, hcs] at h
        dsimp only at h
        cases hfc : funcCodeParseItems b f c
            (count_imported_functions (scanItems m.payloads ItemsScan.init).sections)
            names.function_names with
        | error e =>
          rw [hfc] at h
          exact absurd h (by simp)
        | ok b' =>
          rw [hfc] at h
          dsimp only at h
          exact processSections_roots (scanItems m.payloads ItemsScan.init).sizes names
            (scanItems m.payloads ItemsScan.init).sections b' b1
            (fun q hq => (hsizes q hq).2) h

/-- C1: size conservation and the per-section root residual, as amended.
For a payload stream with at most one function and one code section on
which the parse succeeds, the root sizes plus the non-root sizes of the
finished graph add up to the input byte length, and every retained section
contributes a root item whose size is the section's byte length minus the
sum of the sizes of ALL items synthesized from it (root or not) — not, as
the original claim says, minus only the non-root items' sizes. -/
theorem c1_size_conservation (m : Module) (its : Items) (hwf : wfModule m)
    (h : parseWasmM m = Except.ok its) :
    its.rootSizeSum + its.nonRootSizeSum = moduleLength m ∧
    ∀ q ∈ (scanItems m.payloads ItemsScan.init).sections,
      ∃ pre new post root,
        its.items = pre ++ new ++ [root] ++ post ∧ root.id = Id.section q.1 ∧
        sumSizes new ≤ payloadSize q.2 ∧ root.size = payloadSize q.2 - sumSizes new := by
  rw [parseWasmM, parseWasmCore] at h
  cases hi : parseItemsM m (ItemsBuilder.new (moduleLength m)) with
  | error e =>
    rw [hi] at h
    exact absurd h (by simp)
  | ok b1 =>
    rw [hi] at h
    dsimp only at h
    cases he : parseEdgesM m b1 with
    | error e =>
      rw [he] at h
      exact absurd h (by simp)
    | ok b2 =>
      rw [he] at h
      dsimp only at h
      injection h with h2
      subst h2
      rcases parseEdgesM_sameItems m b1 b2 he with ⟨hitems, _⟩
      have hsum := parseItemsM_sum m (ItemsBuilder.new (moduleLength m)) b1 hwf hi
      have hroots := parseItemsM_roots m (ItemsBuilder.new (moduleLength m)) b1 hi
      have efin : (b2.finish).items = b2.items := rfl
      constructor
      · have hpart := sumSizes_filter_partition
          (fun it => (b2.finish).roots.contains it.id) (b2.finish).items
        rw [Items.rootSizeSum, Items.nonRootSizeSum, hpart, efin, hitems, hsum]
        have hz : sumSizes (ItemsBuilder.new (moduleLength m)).items = 0 := rfl
        rw [hz]
        omega
      · intro q hq
        rcases hroots q hq with ⟨pre, new, post, root, hit, hid, hle, hsz2⟩
        refine ⟨pre, new, post, root, ?_, hid, hle, hsz2⟩
        rw [efin, hitems, hit]

/-- Witness for C1 at the concrete module `M0`: the hypotheses hold and the
conservation plus per-section residual conclusions follow. -/
theorem c1_size_conservation_witness :
    wfModule M0 ∧
    ((graphOfR (parseWasmM M0)).rootSizeSum + (graphOfR (parseWasmM M0)).nonRootSizeSum
        = moduleLength M0 ∧
      ∀ q ∈ (scanItems M0.payloads ItemsScan.init).sections,
        ∃ pre new post root,
          (graphOfR (parseWasmM M0)).items = pre ++ new ++ [root] ++ post ∧
          root.id = Id.section q.1 ∧ sumSizes new ≤ payloadSize q.2 ∧
          root.size = payloadSize q.2 - sumSizes new) :=
  ⟨by exact ⟨by decide, by decide⟩,
   c1_size_conservation M0 (graphOfR (parseWasmM M0)) (by exact ⟨by decide, by decide⟩) rfl⟩

/-- Counterexample to the original C1 wording at `M5`: the parse succeeds,
the table section at position 5 synthesizes no non-root entry item (its one
entry item `table[0]` is itself a root), its byte length is 6, yet its
section root has size 2, not 6 - 0: the residual subtracts the sizes of all
synthesized items, including the root entry items. -/
theorem c1_counterexample :
    exceptIsOk (parseWasmM M5) = true ∧
    (5, Payload.tableSection [4] 6) ∈ (scanItems M5.payloads ItemsScan.init).sections ∧
    sectionRootSizes (graphOfR (parseWasmM M5)) 5 = [2] ∧
    sumSizes ((sectionEntryItems (graphOfR (parseWasmM M5)) 5).filter
      fun it => !((rootsOfR (parseWasmM M5)).contains it.id)) = 0 ∧
    payloadSize (Payload.tableSection [4] 6) = 6 :=
  ⟨by decide, by decide, by decide, by decide, by decide⟩

end Twiggy
